import Mathlib

/-!
Verification model of the SimFleetDR demand-responsive scheduler.

The definitions below are shallow embeddings of the Python sources
`demandResponsive/main/stop.py`, `demandResponsive/main/itinerary.py`,
`demandResponsive/main/scheduler.py`, `demandResponsive/main/database.py`,
and `simfleet/demandResponsive/main/request.py`.

Times (minutes) are modelled as exact integers extended with `+∞` (`XQ`),
since the source stores `math.inf` in the first stop's `end_time`/`latest`
and in the last stop's `departure_time`.  The scheduler core only ever adds,
subtracts, compares and takes minima/maxima of times and distances, so exact
integer arithmetic models the float arithmetic of every modelled code path
faithfully (and keeps every definition kernel-computable).  Distances (km)
and durations returned by the route database are plain integers for the same
reason.  Python `Stop` objects are mutable and
aliased through `sprev`/`snext` references; we model them as records stored in
a heap `Nat → Stop` addressed by natural numbers, so that aliasing and
in-place mutation are represented faithfully.  Fields the Python constructor
initialises to `None` and that are always written before being read are given
placeholder values (`XQ.fin 0`, `0`); the optional `passenger_id` keeps an
`Option` type because the code genuinely distinguishes `None` there.
-/

set_option linter.unusedVariables false

namespace SimFleetDR

/-- Integers extended with `+∞`, modelling Python floats as used by the
scheduler (finite minute values plus `math.inf`). -/
inductive XQ where
  | fin : ℤ → XQ
  | inf : XQ
deriving DecidableEq, Repr

namespace XQ

/-- Addition; `∞ + x = x + ∞ = ∞` as for IEEE infinities. -/
def add : XQ → XQ → XQ
  | fin a, fin b => fin (a + b)
  | _, _ => inf

/-- Subtraction; `∞ − finite = ∞`.  The remaining cases (`finite − ∞`,
`∞ − ∞`) never occur in the modelled code paths and are mapped to `∞`. -/
def sub : XQ → XQ → XQ
  | fin a, fin b => fin (a - b)
  | _, _ => inf

/-- Boolean `≤`, with `x ≤ ∞` for all `x` and `∞ ≤ finite` false. -/
def ble : XQ → XQ → Bool
  | fin a, fin b => decide (a ≤ b)
  | _, inf => true
  | inf, fin _ => false

/-- Boolean `<`. -/
def blt : XQ → XQ → Bool
  | fin a, fin b => decide (a < b)
  | inf, _ => false
  | fin _, inf => true

instance : Add XQ := ⟨add⟩
instance : Sub XQ := ⟨sub⟩
instance : LE XQ := ⟨fun a b => ble a b = true⟩
instance : LT XQ := ⟨fun a b => blt a b = true⟩

instance : DecidableRel (α := XQ) (· ≤ ·) := fun a b =>
  inferInstanceAs (Decidable (ble a b = true))

instance : DecidableRel (α := XQ) (· < ·) := fun a b =>
  inferInstanceAs (Decidable (blt a b = true))

/-- Python `max(a, b)`: returns `b` exactly when `a < b`. -/
instance : Max XQ := ⟨fun a b => if blt a b then b else a⟩

/-- Python `min(a, b)`: returns `b` exactly when `b < a`. -/
instance : Min XQ := ⟨fun a b => if blt b a then b else a⟩

instance : Inhabited XQ := ⟨fin 0⟩

end XQ

/-- A `Stop` object (`stop.py`, class `Stop`).  `sprev`/`snext` are references
to other stop objects, modelled as heap addresses. -/
structure Stop where
  /-- `self.id` (stop identifiers are modelled as naturals). -/
  id : Nat
  /-- `self.coords`, set by `__init__` from `db.get_stop_coords(stop_id)`,
  which returns `None` when the id is unknown. -/
  coords : Option (ℤ × ℤ)
  /-- start of the time-window of S. -/
  start_time : XQ
  /-- end of the time-window of S. -/
  end_time : XQ
  /-- duration of service time at S. -/
  service_time : XQ
  /-- latest feasible arrival time at S. -/
  latest : XQ
  /-- predecessor stop in the itinerary (heap address). -/
  sprev : Option Nat
  /-- successor stop in the itinerary (heap address). -/
  snext : Option Nat
  /-- passengers on board on departure from S. -/
  npass : ℤ
  /-- seats reserved on departure from S. -/
  npres : ℤ
  /-- travel time on the leg connecting S to its successor. -/
  leg_time : XQ
  /-- earliest arrival time. -/
  eat : XQ
  /-- `eat_f = max(start_time, eat)`. -/
  eat_f : XQ
  /-- latest departure time. -/
  ldt : XQ
  /-- `ldt_f = min(end_time, ldt)`. -/
  ldt_f : XQ
  /-- slack time. -/
  slack : XQ
  /-- dispatched arrival time. -/
  arrival_time : XQ
  /-- dispatched departure time. -/
  departure_time : XQ
  /-- optional passenger id. -/
  passenger_id : Option Nat
deriving DecidableEq, Repr

/-- The route/stop database (`database.py`), restricted to the consultation
operations used by the scheduler core: `get_route_time_min`,
`get_route_distance_km` and `get_stop_coords`.  Routes are modelled as total
functions (a missing route aborts the whole run in the source). -/
structure DB where
  /-- `get_route_time_min origin_id destination_id` (minutes). -/
  dur : Nat → Nat → ℤ
  /-- `get_route_distance_km origin_id destination_id` (kilometres). -/
  dist : Nat → Nat → ℤ
  /-- `get_stop_coords stop_id`. -/
  coords : Nat → Option (ℤ × ℤ)

instance : Inhabited Stop :=
  ⟨⟨0, none, default, default, default, default, none, none, 0, 0,
    default, default, default, default, default, default, default, default, none⟩⟩

/-- The heap of `Stop` objects plus an allocation counter.  Python object
identity is heap-address identity. -/
structure St where
  heap : Nat → Stop
  next : Nat

/-- Overwrite the stop object stored at address `a`. -/
def St.write (σ : St) (a : Nat) (s : Stop) : St :=
  { σ with heap := fun b => if b = a then s else σ.heap b }

/-- Allocate a fresh stop object, returning its address. -/
def St.alloc (σ : St) (s : Stop) : Nat × St :=
  (σ.next, { heap := fun b => if b = σ.next then s else σ.heap b, next := σ.next + 1 })

/-!  ### Insertion feasibility checks (`itinerary.py`, lines 122–231)

The checks read attribute values of the request and of the stops `Spu`, `R`,
`T`; they mutate nothing.  We therefore state them on stop *values*.  The
result mirrors the Python `(bool, code)` pair, `code ∈ {0, 1, None}`. -/

/-- `Itinerary.pickup_insertion_feasibility_check(t, Spu, R, T)`
(`itinerary.py` lines 122–193).  `capacity` is `self.capacity`, `db` is
`self.db`, `t_npass` is `t.npass`. -/
def pickup_insertion_feasibility_check (capacity : ℤ) (db : DB) (t_npass : ℤ)
    (Spu R T : Stop) : Bool × Option Nat :=
  -- 1st test: if R.eat > Spu.latest, stop searching in this itinerary
  if Spu.latest < R.eat then (false, some 0)
  else
    -- 2nd test: capacity constraint
    let available_seats_on_departure_from_R := capacity - R.npass
    if available_seats_on_departure_from_R < t_npass then (false, some 1)
    else
      -- 3rd test: calculate Spu.eat if coming from R
      let Spu_eat := max R.start_time R.eat + R.service_time + XQ.fin (db.dur R.id Spu.id)
      let Spu_eat_f := max Spu.start_time Spu_eat
      if Spu.latest < Spu_eat then (false, some 1)
      else
        -- 4th test: calculate Spu.ldt if going to T
        let Spu_ldt := min T.end_time T.ldt - T.service_time - XQ.fin (db.dur Spu.id T.id)
        if Spu_ldt < Spu_eat_f + Spu.service_time then (false, some 1)
        else (true, none)

/-- `Itinerary.setdown_insertion_feasibility_check(t, index_Spu, index_Ssd,
stop_list, Ssd, R, T)` (`itinerary.py` lines 195–231).  The capacity scan
reads `stop_list[i].npass` for `i ∈ [index_Spu, index_Ssd)`, so it needs the
heap `σ` and the list of stop addresses. -/
def setdown_insertion_feasibility_check (capacity : ℤ) (db : DB) (σ : St)
    (t_npass : ℤ) (index_Spu index_Ssd : Nat) (stop_list : List Nat)
    (Ssd R T : Stop) : Bool × Option Nat :=
  if Ssd.latest < R.eat then (false, some 0)
  else
    -- for i in range(index_Spu, index_Ssd): seats available on departure from S
    if (List.range' index_Spu (index_Ssd - index_Spu)).any (fun i =>
        let passengers_on_departure_from_S := (σ.heap (stop_list.getD i 0)).npass + t_npass
        decide (capacity - passengers_on_departure_from_S < 0)) then (false, some 1)
    else
      let Ssd_eat := max R.start_time R.eat + R.service_time + XQ.fin (db.dur R.id Ssd.id)
      let Ssd_eat_f := max Ssd.start_time Ssd_eat
      if Ssd.latest < Ssd_eat then (false, some 1)
      else
        let Ssd_ldt := min T.end_time T.ldt - T.service_time - XQ.fin (db.dur Ssd.id T.id)
        if Ssd_ldt < Ssd_eat_f + Ssd.service_time then (false, some 1)
        else (true, none)

/-- C1: the pickup feasibility check fails with code 0 exactly on the monotone
EAT test `R.eat > Spu.latest`; otherwise it fails with code 1 exactly when the
capacity test, the forward-EAT test or the backward-LDT test fails; and it
succeeds if and only if none of the four tests fails. -/
theorem C1_pickup_feasibility_check_cases (capacity : ℤ) (db : DB)
    (t_npass : ℤ) (Spu R T : Stop) :
    (pickup_insertion_feasibility_check capacity db t_npass Spu R T = (false, some 0)
        ↔ Spu.latest < R.eat)
    ∧ (pickup_insertion_feasibility_check capacity db t_npass Spu R T = (false, some 1)
        ↔ ¬ Spu.latest < R.eat ∧
          (capacity - R.npass < t_npass
            ∨ Spu.latest < max R.start_time R.eat + R.service_time + XQ.fin (db.dur R.id Spu.id)
            ∨ min T.end_time T.ldt - T.service_time - XQ.fin (db.dur Spu.id T.id) <
                max Spu.start_time
                    (max R.start_time R.eat + R.service_time + XQ.fin (db.dur R.id Spu.id))
                  + Spu.service_time))
    ∧ ((pickup_insertion_feasibility_check capacity db t_npass Spu R T).1 = true
        ↔ ¬ Spu.latest < R.eat
          ∧ ¬ capacity - R.npass < t_npass
          ∧ ¬ Spu.latest < max R.start_time R.eat + R.service_time + XQ.fin (db.dur R.id Spu.id)
          ∧ ¬ min T.end_time T.ldt - T.service_time - XQ.fin (db.dur Spu.id T.id) <
              max Spu.start_time
                  (max R.start_time R.eat + R.service_time + XQ.fin (db.dur R.id Spu.id))
                + Spu.service_time) := by
  simp only [pickup_insertion_feasibility_check]
  refine ⟨?_, ?_, ?_⟩ <;> split_ifs <;> simp_all

/-!  ### Temporal propagation (`stop.py`, lines 92–214)

Each Python setter mutates `self` in place; here each takes the heap and the
address of `self` and returns the updated heap. -/

/-- `Stop.set_leg_time()` (no explicit `value` argument is ever passed in the
modelled code paths). -/
def set_leg_time (db : DB) (σ : St) (a : Nat) : St :=
  let s := σ.heap a
  match s.snext with
  | none => σ.write a { s with leg_time := XQ.fin 0 }
  | some n => σ.write a { s with leg_time := XQ.fin (db.dur s.id (σ.heap n).id) }

/-- `Stop.set_EAT()`. -/
def set_EAT (σ : St) (a : Nat) : St :=
  let s := σ.heap a
  match s.sprev with
  | none => σ.write a { s with eat := s.start_time, eat_f := s.start_time }
  | some p =>
    let sp := σ.heap p
    let e := max sp.start_time sp.eat + sp.service_time + sp.leg_time
    σ.write a { s with eat := e, eat_f := max s.start_time e }

/-- `Stop.set_LDT()`. -/
def set_LDT (σ : St) (a : Nat) : St :=
  let s := σ.heap a
  match s.snext with
  | none => σ.write a { s with ldt := s.end_time, ldt_f := s.end_time }
  | some n =>
    let sn := σ.heap n
    let l := min sn.end_time sn.ldt - sn.service_time - s.leg_time
    σ.write a { s with ldt := l, ldt_f := min s.end_time l }

/-- `Stop.set_slack()`. -/
def set_slack (σ : St) (a : Nat) : St :=
  let s := σ.heap a
  σ.write a { s with slack := s.ldt - s.eat - s.service_time }

/-- `Stop.set_arrival_departure()`. -/
def set_arrival_departure (σ : St) (a : Nat) : St :=
  let s := σ.heap a
  let arr := match s.sprev with
    | none => s.start_time
    | some p => max (s.start_time + (σ.heap p).leg_time) s.eat_f
  let dep := match s.snext with
    | some n => max (σ.heap n).start_time ((σ.heap n).eat_f - s.leg_time)
    | none => XQ.inf
  σ.write a { s with arrival_time := arr, departure_time := dep }

/-- `Stop.update_time_window()`: leg time, EAT, LDT, arrival/departure,
slack, in this order. -/
def update_time_window (db : DB) (σ : St) (a : Nat) : St :=
  set_slack (set_arrival_departure (set_LDT (set_EAT (set_leg_time db σ a) a) a) a) a

/-!  ### Itinerary (`itinerary.py`) -/

/-- An `Itinerary` object.  `start_stop`, `end_stop`, `current_loc` and the
elements of `stop_list` are heap addresses of `Stop` objects. -/
structure Itin where
  vehicle_id : Nat
  capacity : ℤ
  start_stop : Nat
  start_time : XQ
  end_stop : Nat
  end_time : XQ
  stop_list : List Nat
  current_loc : Nat
  traveled_km : ℤ
  cost : ℤ
deriving DecidableEq, Repr

/-- `Itinerary.compute_traveled_km()` (sets `self.traveled_km` to the sum of
the leg distances over consecutive stops). -/
def compute_traveled_km (db : DB) (σ : St) (it : Itin) : Itin :=
  { it with traveled_km :=
      ((List.range (it.stop_list.length - 1)).map (fun i =>
        db.dist (σ.heap (it.stop_list.getD i 0)).id
                (σ.heap (it.stop_list.getD (i + 1) 0)).id)).sum }

/-- `Itinerary.compute_cost()`: recomputes `traveled_km` and copies it into
`cost`. -/
def compute_cost (db : DB) (σ : St) (it : Itin) : Itin :=
  let it1 := compute_traveled_km db σ it
  { it1 with cost := it1.traveled_km }

/-!  `Itinerary.insert_stop(S, index_S, npass=0)` (`itinerary.py` lines
268–321) is a single Python method; its statement blocks are transcribed as
the phase functions below and composed by `insert_stop`. -/

/-- Lines 274–287 of `insert_stop`: the link rewiring and the two leg-time
writes, applied to the already-extended stop list `l`. -/
def insert_stop_rewire (db : DB) (σ : St) (l : List Nat) (S index_S : Nat) : St :=
  -- S.sprev = self.stop_list[index_S - 1]; S.snext = self.stop_list[index_S + 1]
  let σ := σ.write S { σ.heap S with sprev := some (l.getD (index_S - 1) 0),
                                     snext := some (l.getD (index_S + 1) 0) }
  -- R = self.stop_list[index_S - 1]; R.snext = S
  -- R.leg_time = self.db.get_route_time_min(R.id, S.id)
  let R := l.getD (index_S - 1) 0
  let σ := σ.write R { σ.heap R with snext := some S,
                                     leg_time := XQ.fin (db.dur (σ.heap R).id (σ.heap S).id) }
  -- T = self.stop_list[index_S + 1]; T.sprev = S
  -- S.leg_time = self.db.get_route_time_min(S.id, T.id)
  let T := l.getD (index_S + 1) 0
  let σ := σ.write T { σ.heap T with sprev := some S }
  σ.write S { σ.heap S with leg_time := XQ.fin (db.dur (σ.heap S).id (σ.heap T).id) }

/-- Lines 289–292 of `insert_stop`: `S.set_EAT(); S.set_LDT(); S.set_slack()`. -/
def insert_stop_initS (σ : St) (S : Nat) : St :=
  set_slack (set_LDT (set_EAT σ S) S) S

/-- Lines 294–300 of `insert_stop`: the forward `update_time_window` sweep
`for i in range(index_S + 1, len(self.stop_list)))`. -/
def insert_stop_fwd (db : DB) (σ : St) (l : List Nat) (index_S : Nat) : St :=
  (List.range' (index_S + 1) (l.length - (index_S + 1))).foldl
    (fun σ i => update_time_window db σ (l.getD i 0)) σ

/-- Lines 302–308 of `insert_stop`: the backward `update_time_window` sweep
`for i in range(index_S - 1, -1, -1)`. -/
def insert_stop_bwd (db : DB) (σ : St) (l : List Nat) (index_S : Nat) : St :=
  ((List.range index_S).reverse).foldl
    (fun σ i => update_time_window db σ (l.getD i 0)) σ

/-- Lines 310–314 of `insert_stop`: `R.set_arrival_departure(); R.set_slack();
S.set_arrival_departure(); T.set_arrival_departure(); T.set_slack()`. -/
def insert_stop_refresh (σ : St) (R S T : Nat) : St :=
  set_slack (set_arrival_departure
    (set_arrival_departure (set_slack (set_arrival_departure σ R) R) S) T) T

/-- Lines 316–318 of `insert_stop`:
`S.npass = R.npass + npass; S.npres = R.npres + npass`. -/
def insert_stop_load (σ : St) (R S : Nat) (npass : ℤ) : St :=
  σ.write S { σ.heap S with npass := (σ.heap R).npass + npass,
                            npres := (σ.heap R).npres + npass }

/-- `Itinerary.insert_stop(S, index_S, npass=0)` (`itinerary.py` lines
268–321): extend the stop list (`self.stop_list.insert(index_S, S)`), run the
phases above in source order, and finish with `self.compute_cost()`. -/
def insert_stop (db : DB) (σ : St) (it : Itin) (S : Nat) (index_S : Nat)
    (npass : ℤ := 0) : St × Itin :=
  let l := it.stop_list.insertIdx index_S S
  let σ := insert_stop_rewire db σ l S index_S
  let σ := insert_stop_initS σ S
  let σ := insert_stop_fwd db σ l index_S
  let σ := insert_stop_bwd db σ l index_S
  let σ := insert_stop_refresh σ (l.getD (index_S - 1) 0) S (l.getD (index_S + 1) 0)
  let σ := insert_stop_load σ (l.getD (index_S - 1) 0) S npass
  (σ, compute_cost db σ { it with stop_list := l })

/-- Lines 329–336 of `remove_stop`: `R = S.sprev; T = S.snext; R.snext = T;
T.sprev = R; R.leg_time = self.db.get_route_time_min(R.id, T.id)`.  The
`getD 0` fallbacks are never reached for the interior stops `remove_stop` is
invoked on, where both links are set (on a boundary stop the source would
raise `AttributeError`). -/
def remove_stop_rewire (db : DB) (σ : St) (S : Nat) : St :=
  let rPtr := (σ.heap S).sprev
  let tPtr := (σ.heap S).snext
  let R := rPtr.getD 0
  let T := tPtr.getD 0
  let σ := σ.write R { σ.heap R with snext := tPtr }
  let σ := σ.write T { σ.heap T with sprev := rPtr }
  σ.write R { σ.heap R with leg_time := XQ.fin (db.dur (σ.heap R).id (σ.heap T).id) }

/-- Lines 341–350 of `remove_stop`: the forward `set_EAT` sweep
`for i in range(index_S, len(self.stop_list))` over the shortened list. -/
def remove_stop_fwd (σ : St) (l : List Nat) (index_S : Nat) : St :=
  (List.range' index_S (l.length - index_S)).foldl
    (fun σ i => set_EAT σ (l.getD i 0)) σ

/-- Lines 355–363 of `remove_stop`: the backward `set_LDT` sweep
`for i in range(index_S - 1, -1, -1)`. -/
def remove_stop_bwd (σ : St) (l : List Nat) (index_S : Nat) : St :=
  ((List.range index_S).reverse).foldl
    (fun σ i => set_LDT σ (l.getD i 0)) σ

/-- `Itinerary.remove_stop(S, index_S)` (`itinerary.py` lines 323–369):
rewire the neighbours, shorten the stop list
(`self.stop_list = self.stop_list[0:index_S] + self.stop_list[index_S + 1:]`),
run both sweeps, and finish with `self.compute_cost()`. -/
def remove_stop (db : DB) (σ : St) (it : Itin) (S : Nat) (index_S : Nat) :
    St × Itin :=
  let σ := remove_stop_rewire db σ S
  let l := it.stop_list.take index_S ++ it.stop_list.drop (index_S + 1)
  let σ := remove_stop_fwd σ l index_S
  let σ := remove_stop_bwd σ l index_S
  (σ, compute_cost db σ { it with stop_list := l })

/-!  ### Vehicle position lookup (`itinerary.py` lines 95–116) -/

/-- The `for i, current_stop in enumerate(self.stop_list)` scan inside
`get_vehicle_position_at_time`.  Returns the `(index, status)` pair together
with the address assigned to `current_loc`.  The outer `none` marks the
`IndexError` the source raises on `self.stop_list[i + 1]` when the scan
reaches the last element without returning; `some none` is the final
`return None, None` on an empty list. -/
def vehicle_position_scan (σ : St) (l : List Nat) (time : XQ) (i : Nat) :
    Option (Option ((Nat × String) × Nat)) :=
  if hi : i < l.length then
    let current_stop := σ.heap (l.getD i 0)
    if current_stop.arrival_time ≤ time ∧ time ≤ current_stop.departure_time then
      some (some ((i, "at_stop"), l.getD i 0))
    else if i + 1 < l.length then
      let next_stop := σ.heap (l.getD (i + 1) 0)
      if time < next_stop.arrival_time then
        some (some ((i + 1, "travelling_to_stop"), l.getD (i + 1) 0))
      else vehicle_position_scan σ l time (i + 1)
    else none
  else some none
termination_by l.length - i

/-- `Itinerary.get_vehicle_position_at_time(time)`.  Returns the
`(index, status)` result together with the itinerary whose `current_loc` has
been updated; `none` models the `IndexError` of the scan. -/
def get_vehicle_position_at_time (σ : St) (it : Itin) (time : XQ) :
    Option (Option (Nat × String) × Itin) :=
  -- if time >= self.end_time: current_loc = end_stop; return len - 1, "at_stop"
  if it.end_time ≤ time then
    some (some (it.stop_list.length - 1, "at_stop"), { it with current_loc := it.end_stop })
  else
    match vehicle_position_scan σ it.stop_list time 0 with
    | none => none
    | some none => some (none, it)
    | some (some (res, loc)) => some (some res, { it with current_loc := loc })

/-!  ### Safe object duplication (`scheduler.py` lines 987–1081) and the
itinerary constructor (`itinerary.py` lines 22–93) -/

/-- `Stop.__init__(database, stop_id)` (`stop.py` lines 12–60): a detached
stop whose coords are looked up in the database.  The `None`-initialised
numeric fields are modelled by zero placeholders (they are always overwritten
before being read in the modelled code paths); link and passenger fields keep
their `none`. -/
def Stop.init (db : DB) (stop_id : Nat) : Stop :=
  { id := stop_id, coords := db.coords stop_id,
    start_time := XQ.fin 0, end_time := XQ.fin 0, service_time := XQ.fin 0,
    latest := XQ.fin 0, sprev := none, snext := none, npass := 0, npres := 0,
    leg_time := XQ.fin 0, eat := XQ.fin 0, eat_f := XQ.fin 0, ldt := XQ.fin 0,
    ldt_f := XQ.fin 0, slack := XQ.fin 0, arrival_time := XQ.fin 0,
    departure_time := XQ.fin 0, passenger_id := none }

/-- `new_stop_from_stop(S)` (`scheduler.py` lines 987–1051): allocates
`Stop(db, id)` — so `coords` is re-looked-up in the database and
`passenger_id` stays `None` — then copies the listed attributes of `S`,
recomputing `latest` as `end_time - service_time`.  The `sprev`/`snext`
*references* are copied verbatim: the copy aliases `S`'s neighbours. -/
def new_stop_from_stop (db : DB) (σ : St) (S : Stop) : Nat × St :=
  σ.alloc
    { Stop.init db S.id with
      start_time := S.start_time
      end_time := S.end_time
      service_time := S.service_time
      latest := S.end_time - S.service_time
      sprev := S.sprev
      snext := S.snext
      npass := S.npass
      npres := S.npres
      leg_time := S.leg_time
      eat := S.eat
      ldt := S.ldt
      eat_f := S.eat_f
      ldt_f := S.ldt_f
      slack := S.slack
      arrival_time := S.arrival_time
      departure_time := S.departure_time }

/-- `Itinerary.initial_stops_creation()` (`itinerary.py` lines 55–93).
Note the source's chained assignment on line 69,
`end_stop.latest = end_stop.end_time = self.end_time - end_stop.service_time`,
which overwrites the end stop's `end_time` as well. -/
def initial_stops_creation (db : DB) (σ : St) (it : Itin) : St :=
  let s := it.start_stop
  let e := it.end_stop
  -- trip stop attributes for start stop
  let σ := σ.write s { σ.heap s with start_time := it.start_time, end_time := XQ.inf }
  let σ := σ.write s { σ.heap s with service_time := XQ.fin 0,
                                     latest := (σ.heap s).end_time - XQ.fin 0 }
  -- trip stop attributes for destination stop
  let σ := σ.write e { σ.heap e with start_time := it.start_time, end_time := it.end_time }
  let σ := σ.write e { σ.heap e with service_time := XQ.fin 0,
                                     latest := it.end_time - XQ.fin 0,
                                     end_time := it.end_time - XQ.fin 0 }
  -- itinerary stop attributes for start stop
  let σ := σ.write s { σ.heap s with sprev := none, snext := some e, npass := 0, npres := 0 }
  let σ := set_EAT (set_leg_time db σ s) s
  -- itinerary stop attributes for end stop
  let σ := σ.write e { σ.heap e with sprev := some s, snext := none, npass := 0, npres := 0 }
  let σ := set_LDT (set_leg_time db σ e) e
  -- time window computations
  let σ := set_EAT σ e
  let σ := set_LDT σ s
  let σ := set_slack σ s
  let σ := set_slack σ e
  let σ := set_arrival_departure σ s
  let σ := set_arrival_departure σ e
  σ

/-- `Itinerary.__init__(database, vehicle_id, cap, start_stop_id, end_stop_id,
start_time, end_time)` (`itinerary.py` lines 22–53): allocates the two shift
stops, computes `traveled_km`/`cost`, and runs `initial_stops_creation`. -/
def Itinerary.init (db : DB) (σ : St) (vehicle_id : Nat) (cap : ℤ)
    (start_stop_id end_stop_id : Nat) (start_time end_time : XQ) : Itin × St :=
  let (s, σ) := σ.alloc (Stop.init db start_stop_id)
  let (e, σ) := σ.alloc (Stop.init db end_stop_id)
  let it0 : Itin :=
    { vehicle_id := vehicle_id, capacity := cap, start_stop := s,
      start_time := start_time, end_stop := e, end_time := end_time,
      stop_list := [s, e], current_loc := s, traveled_km := 0, cost := 0 }
  -- self.traveled_km = self.compute_traveled_km(); self.cost = self.compute_cost()
  let it1 := compute_cost db σ (compute_traveled_km db σ it0)
  let σ := initial_stops_creation db σ it1
  (it1, σ)

/-- One step of a stop-copying list comprehension
(`[new_stop_from_stop(x) for x in l]`). -/
def copy_step (db : DB) (acc : List Nat × St) (a : Nat) : List Nat × St :=
  let c := new_stop_from_stop db acc.2 (acc.2.heap a)
  (acc.1 ++ [c.1], c.2)

/-- `[new_stop_from_stop(x) for x in l]`: copy every listed stop, returning
the fresh addresses. -/
def copy_stops (db : DB) (σ : St) (l : List Nat) : List Nat × St :=
  l.foldl (copy_step db) ([], σ)

/-- `new_itinerary_from_itinerary(I)` (`scheduler.py` lines 1054–1081):
copies every stop of `I.stop_list` with `new_stop_from_stop`, builds a new
`Itinerary` from `I`'s scalar attributes, replaces its `stop_list` with the
copies and recomputes `traveled_km` and `cost`. -/
def new_itinerary_from_itinerary (db : DB) (σ : St) (I : Itin) : Itin × St :=
  let start_stop_id := (σ.heap I.start_stop).id
  let end_stop_id := (σ.heap I.end_stop).id
  let copies := copy_stops db σ I.stop_list
  let stop_list := copies.1
  let σ := copies.2
  let ctor := Itinerary.init db σ I.vehicle_id I.capacity start_stop_id end_stop_id
                I.start_time I.end_time
  let new_I := { ctor.1 with stop_list := stop_list }
  let σ := ctor.2
  -- new_I.compute_traveled_km(); new_I.compute_cost()
  let new_I := compute_cost db σ (compute_traveled_km db σ new_I)
  (new_I, σ)

/-- `Stop.create_trip_stop(database, stop_id, start_time, end_time,
service_time, passenger_id)` (`stop.py` lines 62–72): re-initialises the stop
and sets its time window, with `latest = end_time - service_time`. -/
def create_trip_stop (db : DB) (stop_id : Nat) (start_time end_time service_time : XQ)
    (passenger_id : Option Nat) : Stop :=
  { Stop.init db stop_id with
    start_time := start_time, end_time := end_time, service_time := service_time,
    latest := end_time - service_time, passenger_id := passenger_id }

/-!  ### Requests (`request.py`) -/

/-- `MAXIMUM_WAITING_TIME_MINUTES`
(`simfleet/demandResponsive/main/globals.py` line 56, the globals module
`request.py` imports). -/
def MAXIMUM_WAITING_TIME_MINUTES : ℤ := 15

/-- `SERVICE_MINUTES_PER_PASSENGER` (`globals.py` line 57). -/
def SERVICE_MINUTES_PER_PASSENGER : ℤ := 1

/-- `get_service_time(npass)` (`utils.py` lines 108–112). -/
def get_service_time (npass : ℤ) : ℤ := SERVICE_MINUTES_PER_PASSENGER * npass

/-- A `Request` object after construction (`request.py`).  `Spu` and `Ssd`
are the heap addresses of the two trip stops. -/
structure Request where
  passenger_id : Nat
  origin_id : Nat
  destination_id : Nat
  origin_time_ini : XQ
  origin_time_end : XQ
  destination_time_ini : XQ
  destination_time_end : XQ
  npass : ℤ
  service_time : XQ
  Spu : Nat
  Ssd : Nat
deriving DecidableEq, Repr

/-- `Request.__init__` (`request.py` lines 23–51) with `create_pickup_stop`
(lines 53–68) and `create_setdown_stop` (lines 70–86) inlined: allocate the
two stops with the customer's id, tighten the pickup window end with the
maximum waiting time, and rebuild both stops with `create_trip_stop`.
Returns `none` when `destination_time_end` is `None`: `create_setdown_stop`
then reads the never-assigned local `Ssd_end_time` and raises `NameError`. -/
def Request.init (db : DB) (σ : St) (passenger_id origin_id destination_id : Nat)
    (origin_time_ini : XQ) (origin_time_end : Option XQ)
    (destination_time_ini : XQ) (destination_time_end : Option XQ)
    (npass : ℤ) : Option (Request × St) :=
  -- self.Spu = Stop(self.db, origin_id); self.Spu.passenger_id = passenger_id
  let spu0 := σ.alloc { Stop.init db origin_id with passenger_id := some passenger_id }
  let aPu := spu0.1
  -- self.Ssd = Stop(self.db, destination_id); self.Ssd.passenger_id = passenger_id
  let ssd0 := spu0.2.alloc
    { Stop.init db destination_id with passenger_id := some passenger_id }
  let aSd := ssd0.1
  let σ2 := ssd0.2
  -- self.service_time = get_service_time(npass)
  let service_time := XQ.fin (get_service_time npass)
  -- create_pickup_stop: Spu_end_time, tightened by the user-defined end
  let Spu_end_time0 := origin_time_ini + service_time + XQ.fin MAXIMUM_WAITING_TIME_MINUTES
  let Spu_end_time := match origin_time_end with
    | some oe => min oe Spu_end_time0
    | none => Spu_end_time0
  let σ3 := σ2.write aPu
    (create_trip_stop db origin_id origin_time_ini Spu_end_time service_time
      (some passenger_id))
  -- create_setdown_stop
  match destination_time_end with
  | none => none
  | some de =>
    let σ4 := σ3.write aSd
      (create_trip_stop db destination_id destination_time_ini de service_time
        (some passenger_id))
    some ({ passenger_id := passenger_id, origin_id := origin_id,
            destination_id := destination_id,
            origin_time_ini := origin_time_ini, origin_time_end := Spu_end_time,
            destination_time_ini := destination_time_ini,
            destination_time_end := de,
            npass := npass, service_time := service_time,
            Spu := aPu, Ssd := aSd }, σ4)

/-!  ### The insertion search (`scheduler.py` lines 322–438)

`exhaustive_search(t)` walks the itineraries; for every one it copies the
unvisited stops, tests each leg with the pickup check, and on success copies
the whole itinerary (`new_itinerary_from_itinerary`), inserts the pickup
copy there and searches for the setdown leg the same way.  Python's `break`
on `code == 0` is modelled with the `broken` flag: once set, the remaining
iterations of that loop do nothing, and the flag is cleared when the loop
ends. -/

/-- An `Insertion` object (`insertion.py`).  The live itinerary reference
`I` is recorded by its vehicle id (the scheduler's itinerary list is looked
up by that id); the request `t` is stored by value. -/
structure Insertion where
  vid : Nat
  t : Request
  index_Spu : Nat
  index_Ssd : Nat
  cost_increment : ℤ
deriving DecidableEq, Repr

/-- The mutable state of `exhaustive_search`: the heap, `best_insertion`,
`feasible_insertions`, `min_delta` and the `break` flag of the loop
currently running. -/
structure SearchSt where
  σ : St
  best : Option Insertion
  fi : List (Insertion × ℤ)
  min_delta : XQ
  broken : Bool

/-- One iteration of the setdown loop (`for index_stop_j in
range(len(filtered_stops_j) - 1)`, lines 388–426).  `R` is the listed copy,
`T = R.snext` its aliased successor (on a detached copy with `snext = None`
the source would raise `AttributeError` inside the check; the model's
`getD 0` default is never reached on the linked lists the search builds). -/
def sd_step (db : DB) (t : Request) (I_cost : ℤ) (vid : Nat) (capacity : ℤ)
    (aSsd : Nat) (I_with_Spu : Itin) (index_Spu : Nat)
    (filtered_stops_j : List Nat) (s : SearchSt) (index_stop_j : Nat) : SearchSt :=
  if s.broken then s else
    let R := s.σ.heap (filtered_stops_j.getD index_stop_j 0)
    let T := s.σ.heap (R.snext.getD 0)
    let tc := setdown_insertion_feasibility_check capacity db s.σ t.npass index_Spu
        (index_stop_j + index_Spu + 1) I_with_Spu.stop_list (s.σ.heap aSsd) R T
    if tc.1 then
      let index_Ssd := index_stop_j + index_Spu + 1
      -- I_with_Spu_Ssd = new_itinerary_from_itinerary(I_with_Spu)
      let cp := new_itinerary_from_itinerary db s.σ I_with_Spu
      -- I_with_Spu_Ssd.insert_stop(Ssd, index_Ssd); I_with_Spu_Ssd.compute_cost()
      let ins := insert_stop db cp.2 cp.1 aSsd index_Ssd
      let I3 := compute_cost db ins.1 ins.2
      let delta_ij := I3.cost - I_cost
      let found : Insertion :=
        { vid := vid, t := t, index_Spu := index_Spu,
          index_Ssd := index_Ssd, cost_increment := delta_ij }
      let fi2 := s.fi ++ [(found, delta_ij)]
      if XQ.fin delta_ij < s.min_delta then
        { σ := ins.1, best := some found, fi := fi2,
          min_delta := XQ.fin delta_ij, broken := false }
      else
        { σ := ins.1, best := s.best, fi := fi2,
          min_delta := s.min_delta, broken := false }
    else
      if tc.2 = some 0 then { s with broken := true } else s

/-- One iteration of the pickup loop (`for index_stop_i in
range(len(filtered_stops_i) - 1)`, lines 345–435). -/
def pu_step (db : DB) (t : Request) (aSpu aSsd : Nat) (I : Itin)
    (index_current : Nat) (filtered_stops_i : List Nat)
    (s : SearchSt) (index_stop_i : Nat) : SearchSt :=
  if s.broken then s else
    let R := s.σ.heap (filtered_stops_i.getD index_stop_i 0)
    let T := s.σ.heap (R.snext.getD 0)
    let tc := pickup_insertion_feasibility_check I.capacity db t.npass
        (s.σ.heap aSpu) R T
    if tc.1 then
      let index_Spu := index_stop_i + index_current + 1
      -- I_with_Spu = new_itinerary_from_itinerary(I)
      let cp := new_itinerary_from_itinerary db s.σ I
      -- I_with_Spu.insert_stop(Spu, index_Spu); I_with_Spu.compute_cost()
      let ins := insert_stop db cp.2 cp.1 aSpu index_Spu
      let I_with_Spu := compute_cost db ins.1 ins.2
      let delta_i := I_with_Spu.cost - I.cost
      if XQ.fin delta_i < s.min_delta then
        -- filtered_stops_j = [new_stop_from_stop(x) for x in I_with_Spu.stop_list[index_Spu:]]
        let fj := copy_stops db ins.1 (I_with_Spu.stop_list.drop index_Spu)
        let s1 : SearchSt := { σ := fj.2, best := s.best, fi := s.fi,
                               min_delta := s.min_delta, broken := false }
        let s2 := (List.range (fj.1.length - 1)).foldl
          (sd_step db t I.cost I.vehicle_id I.capacity aSsd I_with_Spu index_Spu fj.1) s1
        { s2 with broken := false }
      else
        { s with σ := ins.1 }
    else
      if tc.2 = some 0 then { s with broken := true } else s

/-- The per-itinerary body of `exhaustive_search` (lines 339–435). -/
def es_itinerary_step (db : DB) (t : Request) (aSpu aSsd : Nat)
    (s : SearchSt) (I : Itin) : SearchSt :=
  -- index_current = I.stop_list.index(I.current_loc)
  let index_current := I.stop_list.indexOf I.current_loc
  -- filtered_stops_i = [new_stop_from_stop(x) for x in I.stop_list[index_current:]]
  let fi0 := copy_stops db s.σ (I.stop_list.drop index_current)
  let s1 : SearchSt := { s with σ := fi0.2, broken := false }
  let s2 := (List.range (fi0.1.length - 1)).foldl
    (pu_step db t aSpu aSsd I index_current fi0.1) s1
  { s2 with broken := false }

/-- `Scheduler.exhaustive_search(t)` (`scheduler.py` lines 322–438): copy
the request's stops, walk every itinerary, and return `(best_insertion,
feasible_insertions)` together with the heap extended by the working
copies. -/
def exhaustive_search (db : DB) (σ : St) (itineraries : List Itin) (t : Request) :
    Option Insertion × List (Insertion × ℤ) × St :=
  -- Spu = new_stop_from_stop(t.Spu); Ssd = new_stop_from_stop(t.Ssd)
  let pu := new_stop_from_stop db σ (σ.heap t.Spu)
  let sd := new_stop_from_stop db pu.2 (pu.2.heap t.Ssd)
  let s0 : SearchSt := { σ := sd.2, best := none, fi := [],
                         min_delta := XQ.inf, broken := false }
  let s1 := itineraries.foldl (es_itinerary_step db t pu.1 sd.1) s0
  (s1.best, s1.fi, s1.σ)

/-!  ### The stops corpus (`database.py`) -/

/-- A geojson feature of the stops corpus `stops_dic["features"]`; only the
`id` string matters to `delete_current_stops`. -/
structure Feature where
  fid : String
deriving DecidableEq, Repr

/-- The `contains` method of Python `str`, as invoked by
`stop.get("id").contains("current")` (`database.py` line 128): Python
strings have no such method (a substring test is spelled `"current" in s`
or `s.__contains__("current")`), so the attribute lookup raises
`AttributeError` — there is no function value to call. -/
def str_contains_method : Option (String → String → Bool) := none

/-- The predicate `stop.get("id").contains("current")` of `database.py`
line 128: its evaluation requires the non-existent method, so it never
yields a Boolean. -/
def stop_id_contains_current (stop : Feature) : Option Bool :=
  Option.map (fun f => f stop.fid "current") str_contains_method

/-- `Database.delete_current_stops()` (`database.py` lines 124–129):
`keep = [stop for stop in features if not stop.get("id").contains("current")]`.
The comprehension evaluates the predicate on each feature in order, and the
first evaluation raises. -/
def delete_current_stops (stops : List Feature) : Option (List Feature) :=
  (stops.mapM (fun stop => stop_id_contains_current stop)).map
    (fun flags => ((stops.zip flags).filter (fun p => ! p.2)).map (fun p => p.1))

/-!  ### The scheduler state and the committing methods (`scheduler.py`) -/

/-- The mutable attributes of a `Scheduler` object used by the scheduling
methods.  `itinerary_insertion_dic` is the per-vehicle insertion log; the
launcher seeds an entry for every vehicle, so it is modelled as a total
map. -/
structure Sched where
  itineraries : List Itin
  pending_requests : List Request
  scheduled_requests : List Request
  rejected_requests : List Request
  modified_itineraries : List Nat
  itinerary_insertion_dic : Nat → List Insertion
  stops_features : List Feature

/-- `Scheduler.delete_pending_request(passenger_id)` (lines 65–66). -/
def delete_pending_request (s : Sched) (pid : Nat) : Sched :=
  { s with pending_requests :=
      s.pending_requests.filter (fun x => x.passenger_id != pid) }

/-- `Scheduler.add_scheduled_request(request)` (lines 71–72). -/
def add_scheduled_request (s : Sched) (r : Request) : Sched :=
  { s with scheduled_requests := s.scheduled_requests ++ [r] }

/-- `Scheduler.insert_trip(insertion)` (lines 460–501), applied to the live
itinerary object `I`: stamp the request's stops with the customer id,
insert them, initialise their loads from their predecessors, adjust the
loads of the stops between pickup and setdown, and recompute the costs. -/
def insert_trip_on (db : DB) (σ : St) (I : Itin) (ins : Insertion) : St × Itin :=
  let t := ins.t
  -- Spu.passenger_id = passenger_id; Ssd.passenger_id = passenger_id
  let σ := σ.write t.Spu { σ.heap t.Spu with passenger_id := some t.passenger_id }
  let σ := σ.write t.Ssd { σ.heap t.Ssd with passenger_id := some t.passenger_id }
  -- insertion.I.insert_stop(Spu, insertion.index_Spu)
  let r1 := insert_stop db σ I t.Spu ins.index_Spu
  -- insertion.I.insert_stop(Ssd, insertion.index_Ssd)
  let r2 := insert_stop db r1.1 r1.2 t.Ssd ins.index_Ssd
  let σ := r2.1
  let I := r2.2
  let l := I.stop_list
  -- stop_list[index_Spu].npass = stop_list[index_Spu - 1].npass, etc.
  let aPu := l.getD ins.index_Spu 0
  let σ := σ.write aPu
    { σ.heap aPu with npass := (σ.heap (l.getD (ins.index_Spu - 1) 0)).npass }
  let σ := σ.write aPu
    { σ.heap aPu with npres := (σ.heap (l.getD (ins.index_Spu - 1) 0)).npres }
  let aSd := l.getD ins.index_Ssd 0
  let σ := σ.write aSd
    { σ.heap aSd with npass := (σ.heap (l.getD (ins.index_Ssd - 1) 0)).npass }
  let σ := σ.write aSd
    { σ.heap aSd with npres := (σ.heap (l.getD (ins.index_Ssd - 1) 0)).npres }
  -- for i in range(index_Spu, index_Ssd): adjust the loads
  let npshare_t := I.capacity - t.npass
  let σ := (List.range' ins.index_Spu (ins.index_Ssd - ins.index_Spu)).foldl
    (fun σ k =>
      let a := l.getD k 0
      let σ1 := σ.write a { σ.heap a with npass := (σ.heap a).npass + t.npass }
      σ1.write a
        { σ1.heap a with npres := (σ1.heap a).npres + (I.capacity - npshare_t) }) σ
  -- self.traveled_km = self.compute_traveled_km(); self.cost = self.compute_cost()
  let I := compute_cost db σ (compute_traveled_km db σ I)
  (σ, I)

/-- `Scheduler.insert_trip` at the scheduler level: log the insertion and
rebuild the itinerary whose vehicle id the insertion references. -/
def Sched.insert_trip (db : DB) (σ : St) (s : Sched) (ins : Insertion) :
    St × Sched :=
  let dic2 := fun v => if v = ins.vid
    then s.itinerary_insertion_dic v ++ [ins] else s.itinerary_insertion_dic v
  let upd := s.itineraries.foldl
    (fun (acc : St × List Itin) I =>
      if I.vehicle_id = ins.vid then
        let r := insert_trip_on db acc.1 I ins
        (r.1, acc.2 ++ [r.2])
      else (acc.1, acc.2 ++ [I])) (σ, [])
  (upd.1, { s with itineraries := upd.2, itinerary_insertion_dic := dic2 })

/-- The accumulation loop of `get_minimal_cost_insertion` (lines 441–446):
run `exhaustive_search` for every pending request and concatenate all the
feasible insertions found. -/
def found_insertions (db : DB) (σ : St) (s : Sched) : List (Insertion × ℤ) × St :=
  s.pending_requests.foldl
    (fun (acc : List (Insertion × ℤ) × St) request =>
      let r := exhaustive_search db acc.2 s.itineraries request
      (acc.1 ++ r.2.1, r.2.2))
    ([], σ)

/-- `Scheduler.get_minimal_cost_insertion()` (lines 440–454): sort the
found insertions by cost increment (`found_insertions.sort(key=lambda a:
a[1])`, a stable sort) and return the first, or `(None, None)`. -/
def get_minimal_cost_insertion (db : DB) (σ : St) (s : Sched) :
    Option (Insertion × ℤ) × St :=
  let found := found_insertions db σ s
  match found.1.mergeSort (fun a b => decide (a.2 ≤ b.2)) with
  | [] => (none, found.2)
  | x :: _ => (some x, found.2)

/-- The `while` loop of `schedule_all_requests_by_minimal_cost` (lines
590–599), with the remaining iteration budget (`max_tries - counter`) as
fuel; the returned `Nat` counts the iterations executed. -/
def schedule_all_go (db : DB) : Nat → St → Sched → St × Sched × Nat
  | 0, σ, s => (σ, s, 0)
  | fuel + 1, σ, s =>
    if s.pending_requests.length = 0 then (σ, s, 0)
    else
      let r := get_minimal_cost_insertion db σ s
      let step : St × Sched :=
        match r.1 with
        | some p =>
          let u := Sched.insert_trip db r.2 s p.1
          (u.1, delete_pending_request u.2 p.1.t.passenger_id)
        | none => (r.2, s)
      let rest := schedule_all_go db fuel step.1 step.2
      (rest.1, rest.2.1, rest.2.2 + 1)

/-- `Scheduler.schedule_all_requests_by_minimal_cost()` (lines 588–599):
`max_tries = len(self.pending_requests) * 5`. -/
def schedule_all_requests_by_minimal_cost (db : DB) (σ : St) (s : Sched) :
    St × Sched × Nat :=
  schedule_all_go db (s.pending_requests.length * 5) σ s

/-- `Scheduler.schedule_request` (lines 140–320), modelled up to its first
two statements (151–154): clear `modified_itineraries`, then purge the
injected current-position stops.  On every non-empty stops corpus the
purge raises `AttributeError` (see `delete_current_stops`); the remainder
of the method — the copy-based search, reachable only on an empty corpus —
is taken as an arbitrary continuation `rest`, so every property proved
below holds for the real continuation in particular. -/
def schedule_request (rest : St × Sched → St × Sched × Option Insertion)
    (σ : St) (s : Sched) :
    Except (String × Sched) (St × Sched × Option Insertion) :=
  -- self.modified_itineraries = {}
  let s1 := { s with modified_itineraries := ([] : List Nat) }
  -- self.db.delete_current_stops()
  match delete_current_stops s1.stops_features with
  | none => .error ("AttributeError", s1)
  | some keep => .ok (rest (σ, { s1 with stops_features := keep }))

/-- The request loop of `schedule_new_requests` (lines 558–584), iterating
over the pending list captured at entry; an exception raised by
`schedule_request` propagates. -/
def snr_go (rest : St × Sched → St × Sched × Option Insertion) (db : DB) :
    List Request → St → Sched → List Nat →
      Except (String × Sched) (St × Sched × List Nat)
  | [], σ, s, rej => .ok (σ, s, rej)
  | req :: reqs, σ, s, rej =>
    match schedule_request rest σ s with
    | .error e => .error e
    | .ok (σ1, s1, best) =>
      match best with
      | some ins =>
        -- self.insert_trip(best_insertion)
        let u := Sched.insert_trip db σ1 s1 ins
        -- self.delete_pending_request(best_insertion.t.passenger_id)
        let s2 := delete_pending_request u.2 ins.t.passenger_id
        -- self.add_scheduled_request(best_insertion.t)
        let s3 := add_scheduled_request s2 ins.t
        -- self.modified_itineraries[vehicle_id] = ...
        let s4 := { s3 with modified_itineraries := s3.modified_itineraries ++ [ins.vid] }
        snr_go rest db reqs u.1 s4 rej
      | none =>
        -- self.delete_pending_request(request.passenger_id)
        let s2 := delete_pending_request s1 req.passenger_id
        -- self.rejected_requests.append(request)
        let s3 := { s2 with rejected_requests := s2.rejected_requests ++ [req] }
        snr_go rest db reqs σ1 s3 (rej ++ [req.passenger_id])

/-- `Scheduler.schedule_new_requests()` (lines 550–586): process every
pending request in turn and return `(True, local_rejected_requests)`. -/
def schedule_new_requests (rest : St × Sched → St × Sched × Option Insertion)
    (db : DB) (σ : St) (s : Sched) :
    Except (String × Sched) (St × Sched × Bool × List Nat) :=
  match snr_go rest db s.pending_requests σ s [] with
  | .error e => .error e
  | .ok (σ1, s1, rej) => .ok (σ1, s1, true, rej)

/-!  ### Concrete test fixtures

A tiny world used by the witnesses and counterexamples: stop ids `1`–`3`,
10 minutes / 10 km between distinct stops, one vehicle with shift `[0, 240]`
and capacity 4.  The itinerary `itA` is produced by the source's own
constructor, so all its propagated attributes are consistent. -/

def db1 : DB :=
  { dur := fun a b => if a = b then 0 else 10,
    dist := fun a b => if a = b then 0 else 10,
    coords := fun _ => none }

def σ0 : St := { heap := fun _ => default, next := 0 }

def itACons : Itin × St := Itinerary.init db1 σ0 7 4 1 2 (XQ.fin 0) (XQ.fin 240)

def itA : Itin := itACons.1

def σA : St := itACons.2

/-- A detached pickup stop with window `[50, 100]` and zero service time. -/
def stopS : Stop := create_trip_stop db1 3 (XQ.fin 50) (XQ.fin 100) (XQ.fin 0) (some 21)

def stopSAlloc : Nat × St := σA.alloc stopS

def addrS : Nat := stopSAlloc.1

def σB : St := stopSAlloc.2

/-- C10: the copy produced by `new_stop_from_stop` agrees with `S` on all the
listed value attributes, recomputes `latest = end_time - service_time`, keeps
the very same `sprev`/`snext` references (heap addresses) rather than copying
the neighbour objects, and leaves `passenger_id` unset.  `S.coords` must be
the database entry for `S.id`, which holds for every stop built by
`Stop.__init__` against the same database. -/
theorem C10_new_stop_from_stop_fields (db : DB) (σ : St) (S : Stop)
    (hcoords : S.coords = db.coords S.id) :
    ((new_stop_from_stop db σ S).2.heap (new_stop_from_stop db σ S).1).id = S.id
    ∧ ((new_stop_from_stop db σ S).2.heap (new_stop_from_stop db σ S).1).coords = S.coords
    ∧ ((new_stop_from_stop db σ S).2.heap (new_stop_from_stop db σ S).1).start_time = S.start_time
    ∧ ((new_stop_from_stop db σ S).2.heap (new_stop_from_stop db σ S).1).end_time = S.end_time
    ∧ ((new_stop_from_stop db σ S).2.heap (new_stop_from_stop db σ S).1).service_time = S.service_time
    ∧ ((new_stop_from_stop db σ S).2.heap (new_stop_from_stop db σ S).1).npass = S.npass
    ∧ ((new_stop_from_stop db σ S).2.heap (new_stop_from_stop db σ S).1).npres = S.npres
    ∧ ((new_stop_from_stop db σ S).2.heap (new_stop_from_stop db σ S).1).leg_time = S.leg_time
    ∧ ((new_stop_from_stop db σ S).2.heap (new_stop_from_stop db σ S).1).eat = S.eat
    ∧ ((new_stop_from_stop db σ S).2.heap (new_stop_from_stop db σ S).1).eat_f = S.eat_f
    ∧ ((new_stop_from_stop db σ S).2.heap (new_stop_from_stop db σ S).1).ldt = S.ldt
    ∧ ((new_stop_from_stop db σ S).2.heap (new_stop_from_stop db σ S).1).ldt_f = S.ldt_f
    ∧ ((new_stop_from_stop db σ S).2.heap (new_stop_from_stop db σ S).1).slack = S.slack
    ∧ ((new_stop_from_stop db σ S).2.heap (new_stop_from_stop db σ S).1).arrival_time = S.arrival_time
    ∧ ((new_stop_from_stop db σ S).2.heap (new_stop_from_stop db σ S).1).departure_time = S.departure_time
    ∧ ((new_stop_from_stop db σ S).2.heap (new_stop_from_stop db σ S).1).latest
        = S.end_time - S.service_time
    ∧ ((new_stop_from_stop db σ S).2.heap (new_stop_from_stop db σ S).1).sprev = S.sprev
    ∧ ((new_stop_from_stop db σ S).2.heap (new_stop_from_stop db σ S).1).snext = S.snext
    ∧ ((new_stop_from_stop db σ S).2.heap (new_stop_from_stop db σ S).1).passenger_id = none := by
  simp [new_stop_from_stop, Stop.init, St.alloc, hcoords]

/-- Witness for C10 at a concrete stop of the test world. -/
theorem C10_new_stop_from_stop_fields_witness :
    stopS.coords = db1.coords stopS.id
    ∧ ((new_stop_from_stop db1 σB stopS).2.heap (new_stop_from_stop db1 σB stopS).1).eat
        = stopS.eat := by
  refine ⟨rfl, ?_⟩
  exact (C10_new_stop_from_stop_fields db1 σB stopS rfl).2.2.2.2.2.2.2.2.1

/-- C9: for any query time at or after the shift end, the position lookup
returns the last index of the stop list with status `at_stop` and points
`current_loc` at the end stop. -/
theorem C9_position_at_end_of_shift (σ : St) (it : Itin) (t : XQ)
    (h : it.end_time ≤ t) :
    get_vehicle_position_at_time σ it t =
      some (some (it.stop_list.length - 1, "at_stop"),
            { it with current_loc := it.end_stop }) := by
  simp [get_vehicle_position_at_time, h]

/-- Witness for C9 on the concrete two-stop itinerary at `t = 250 ≥ 240`. -/
theorem C9_position_at_end_of_shift_witness :
    itA.end_time ≤ XQ.fin 250
    ∧ get_vehicle_position_at_time σA itA (XQ.fin 250) =
        some (some (itA.stop_list.length - 1, "at_stop"),
              { itA with current_loc := itA.end_stop }) :=
  ⟨by decide, C9_position_at_end_of_shift σA itA (XQ.fin 250) (by decide)⟩

/-!  ### C2: insert/remove round trip -/

/-- State after `insert_stop(S, 1)` on the concrete itinerary. -/
def c2ins : St × Itin := insert_stop db1 σB itA addrS 1 0

/-- State after the subsequent `remove_stop(S, 1)`. -/
def c2rem : St × Itin := remove_stop db1 c2ins.1 c2ins.2 addrS 1

/-- Concrete insertion used to witness the link invariant (C4). -/
def c4ins : St × Itin := insert_stop db1 σB itA addrS 1 0

/-- A three-stop doubly-linked heap for the removal half of C4. -/
def σC : St :=
  { heap := fun a =>
      if a = 0 then { (default : Stop) with id := 10, snext := some 1 }
      else if a = 1 then { (default : Stop) with id := 11, sprev := some 0, snext := some 2 }
      else if a = 2 then { (default : Stop) with id := 12, sprev := some 1 }
      else default,
    next := 3 }

/-- The three-stop itinerary over `σC`. -/
def itC : Itin :=
  { vehicle_id := 9, capacity := 4, start_stop := 0, start_time := XQ.fin 0,
    end_stop := 2, end_time := XQ.fin 240, stop_list := [0, 1, 2],
    current_loc := 0, traveled_km := 0, cost := 0 }

/-- Removal of the interior stop of `itC`. -/
def c4rem : St × Itin := remove_stop db1 σC itC 1 1

/-- Counterexample to C2 as stated: on the two-stop itinerary `itA` (with
consistent propagated attributes, both stops 10 minutes apart) and the
detached stop `S` with window `[50, 100]`, inserting `S` at position `1` and
removing it again restores the stop list but leaves the end stop's `slack`
changed from 230 to 180 minutes and its `arrival_time` changed from 10 to 60
minutes, and the start stop's `slack` changed from 230 to 90 minutes and its
`departure_time` from 0 to 50 minutes — differences far beyond any
floating-point tolerance.  `remove_stop` never recomputes `slack`,
`arrival_time` or `departure_time`. -/
theorem C2_counterexample_insert_remove :
    1 ≤ itA.stop_list.length - 1
    ∧ (σA.heap addrS).sprev = none ∧ (σA.heap addrS).snext = none
    ∧ c2rem.2.stop_list = itA.stop_list
    ∧ (σA.heap 1).slack = XQ.fin 230 ∧ (c2rem.1.heap 1).slack = XQ.fin 180
    ∧ (σA.heap 1).arrival_time = XQ.fin 10 ∧ (c2rem.1.heap 1).arrival_time = XQ.fin 60
    ∧ (σA.heap 0).slack = XQ.fin 230 ∧ (c2rem.1.heap 0).slack = XQ.fin 90
    ∧ (σA.heap 0).departure_time = XQ.fin 0
    ∧ (c2rem.1.heap 0).departure_time = XQ.fin 50 := by
  decide

/-!  ### Basic heap lemmas -/

theorem write_heap_self (σ : St) (a : Nat) (s : Stop) : (σ.write a s).heap a = s := by
  simp [St.write]

theorem write_heap_ne (σ : St) (a b : Nat) (s : Stop) (h : b ≠ a) :
    (σ.write a s).heap b = σ.heap b := by
  simp [St.write, h]

theorem write_next (σ : St) (a : Nat) (s : Stop) : (σ.write a s).next = σ.next := by
  simp [St.write]

/-- The stop fields never written by the five temporal setters, encoded as
the stop with all volatile fields scrubbed to fixed values: two stops have
equal `staticPart` exactly when they agree on `id`, `coords`, `start_time`,
`end_time`, `service_time`, `latest`, `npass`, `npres` and `passenger_id`. -/
def Stop.staticPart (s : Stop) : Stop :=
  { s with sprev := none, snext := none,
           leg_time := XQ.fin 0, eat := XQ.fin 0, eat_f := XQ.fin 0,
           ldt := XQ.fin 0, ldt_f := XQ.fin 0, slack := XQ.fin 0,
           arrival_time := XQ.fin 0, departure_time := XQ.fin 0 }

/-- The link fields of a stop. -/
def Stop.linksPart (s : Stop) : Option Nat × Option Nat := (s.sprev, s.snext)

/-!  Frame lemmas: each temporal setter writes only its target address, and
there only the fields it is specified to set. -/

theorem set_leg_time_heap_ne (db : DB) (σ : St) (a b : Nat) (h : b ≠ a) :
    (set_leg_time db σ a).heap b = σ.heap b := by
  cases hn : (σ.heap a).snext <;> simp [set_leg_time, hn, St.write, h]

theorem set_EAT_heap_ne (σ : St) (a b : Nat) (h : b ≠ a) :
    (set_EAT σ a).heap b = σ.heap b := by
  cases hn : (σ.heap a).sprev <;> simp [set_EAT, hn, St.write, h]

theorem set_LDT_heap_ne (σ : St) (a b : Nat) (h : b ≠ a) :
    (set_LDT σ a).heap b = σ.heap b := by
  cases hn : (σ.heap a).snext <;> simp [set_LDT, hn, St.write, h]

theorem set_slack_heap_ne (σ : St) (a b : Nat) (h : b ≠ a) :
    (set_slack σ a).heap b = σ.heap b := by
  simp [set_slack, St.write, h]

theorem set_arrival_departure_heap_ne (σ : St) (a b : Nat) (h : b ≠ a) :
    (set_arrival_departure σ a).heap b = σ.heap b := by
  simp [set_arrival_departure, St.write, h]

theorem update_time_window_heap_ne (db : DB) (σ : St) (a b : Nat) (h : b ≠ a) :
    (update_time_window db σ a).heap b = σ.heap b := by
  simp [update_time_window, set_slack_heap_ne _ _ _ h, set_arrival_departure_heap_ne _ _ _ h,
        set_LDT_heap_ne _ _ _ h, set_EAT_heap_ne _ _ _ h, set_leg_time_heap_ne _ _ _ _ h]

/-!  Self-characterisations of the setters. -/

theorem set_leg_time_self_none (db : DB) (σ : St) (a : Nat)
    (h : (σ.heap a).snext = none) :
    (set_leg_time db σ a).heap a = { σ.heap a with leg_time := XQ.fin 0 } := by
  simp [set_leg_time, h, St.write]

theorem set_leg_time_self_some (db : DB) (σ : St) (a n : Nat)
    (h : (σ.heap a).snext = some n) :
    (set_leg_time db σ a).heap a =
      { σ.heap a with leg_time := XQ.fin (db.dur (σ.heap a).id (σ.heap n).id) } := by
  simp [set_leg_time, h, St.write]

theorem set_EAT_self_none (σ : St) (a : Nat) (h : (σ.heap a).sprev = none) :
    (set_EAT σ a).heap a =
      { σ.heap a with eat := (σ.heap a).start_time, eat_f := (σ.heap a).start_time } := by
  simp [set_EAT, h, St.write]

theorem set_EAT_self_some (σ : St) (a p : Nat) (h : (σ.heap a).sprev = some p) :
    (set_EAT σ a).heap a =
      { σ.heap a with
        eat := max (σ.heap p).start_time (σ.heap p).eat + (σ.heap p).service_time
                 + (σ.heap p).leg_time,
        eat_f := max (σ.heap a).start_time
                   (max (σ.heap p).start_time (σ.heap p).eat + (σ.heap p).service_time
                      + (σ.heap p).leg_time) } := by
  simp [set_EAT, h, St.write]

theorem set_LDT_self_none (σ : St) (a : Nat) (h : (σ.heap a).snext = none) :
    (set_LDT σ a).heap a =
      { σ.heap a with ldt := (σ.heap a).end_time, ldt_f := (σ.heap a).end_time } := by
  simp [set_LDT, h, St.write]

theorem set_LDT_self_some (σ : St) (a n : Nat) (h : (σ.heap a).snext = some n) :
    (set_LDT σ a).heap a =
      { σ.heap a with
        ldt := min (σ.heap n).end_time (σ.heap n).ldt - (σ.heap n).service_time
                 - (σ.heap a).leg_time,
        ldt_f := min (σ.heap a).end_time
                   (min (σ.heap n).end_time (σ.heap n).ldt - (σ.heap n).service_time
                      - (σ.heap a).leg_time) } := by
  simp [set_LDT, h, St.write]

/-!  Preservation of the static and link fields by the setters, at every
address. -/

theorem set_leg_time_staticPart (db : DB) (σ : St) (a b : Nat) :
    ((set_leg_time db σ a).heap b).staticPart = (σ.heap b).staticPart := by
  by_cases h : b = a
  · subst h; cases hn : (σ.heap b).snext <;>
      simp [set_leg_time, hn, St.write, Stop.staticPart]
  · rw [set_leg_time_heap_ne _ _ _ _ h]

theorem set_EAT_staticPart (σ : St) (a b : Nat) :
    ((set_EAT σ a).heap b).staticPart = (σ.heap b).staticPart := by
  by_cases h : b = a
  · subst h; cases hn : (σ.heap b).sprev <;> simp [set_EAT, hn, St.write, Stop.staticPart]
  · rw [set_EAT_heap_ne _ _ _ h]

theorem set_LDT_staticPart (σ : St) (a b : Nat) :
    ((set_LDT σ a).heap b).staticPart = (σ.heap b).staticPart := by
  by_cases h : b = a
  · subst h; cases hn : (σ.heap b).snext <;> simp [set_LDT, hn, St.write, Stop.staticPart]
  · rw [set_LDT_heap_ne _ _ _ h]

theorem set_slack_staticPart (σ : St) (a b : Nat) :
    ((set_slack σ a).heap b).staticPart = (σ.heap b).staticPart := by
  by_cases h : b = a
  · subst h; simp [set_slack, St.write, Stop.staticPart]
  · rw [set_slack_heap_ne _ _ _ h]

theorem set_arrival_departure_staticPart (σ : St) (a b : Nat) :
    ((set_arrival_departure σ a).heap b).staticPart = (σ.heap b).staticPart := by
  by_cases h : b = a
  · subst h; simp [set_arrival_departure, St.write, Stop.staticPart]
  · rw [set_arrival_departure_heap_ne _ _ _ h]

theorem update_time_window_staticPart (db : DB) (σ : St) (a b : Nat) :
    ((update_time_window db σ a).heap b).staticPart = (σ.heap b).staticPart := by
  simp [update_time_window, set_slack_staticPart, set_arrival_departure_staticPart,
        set_LDT_staticPart, set_EAT_staticPart, set_leg_time_staticPart]

theorem set_leg_time_linksPart (db : DB) (σ : St) (a b : Nat) :
    ((set_leg_time db σ a).heap b).linksPart = (σ.heap b).linksPart := by
  by_cases h : b = a
  · subst h; cases hn : (σ.heap b).snext <;>
      simp [set_leg_time, hn, St.write, Stop.linksPart]
  · rw [set_leg_time_heap_ne _ _ _ _ h]

theorem set_EAT_linksPart (σ : St) (a b : Nat) :
    ((set_EAT σ a).heap b).linksPart = (σ.heap b).linksPart := by
  by_cases h : b = a
  · subst h; cases hn : (σ.heap b).sprev <;> simp [set_EAT, hn, St.write, Stop.linksPart]
  · rw [set_EAT_heap_ne _ _ _ h]

theorem set_LDT_linksPart (σ : St) (a b : Nat) :
    ((set_LDT σ a).heap b).linksPart = (σ.heap b).linksPart := by
  by_cases h : b = a
  · subst h; cases hn : (σ.heap b).snext <;> simp [set_LDT, hn, St.write, Stop.linksPart]
  · rw [set_LDT_heap_ne _ _ _ h]

theorem set_slack_linksPart (σ : St) (a b : Nat) :
    ((set_slack σ a).heap b).linksPart = (σ.heap b).linksPart := by
  by_cases h : b = a
  · subst h; simp [set_slack, St.write, Stop.linksPart]
  · rw [set_slack_heap_ne _ _ _ h]

theorem set_arrival_departure_linksPart (σ : St) (a b : Nat) :
    ((set_arrival_departure σ a).heap b).linksPart = (σ.heap b).linksPart := by
  by_cases h : b = a
  · subst h; simp [set_arrival_departure, St.write, Stop.linksPart]
  · rw [set_arrival_departure_heap_ne _ _ _ h]

theorem update_time_window_linksPart (db : DB) (σ : St) (a b : Nat) :
    ((update_time_window db σ a).heap b).linksPart = (σ.heap b).linksPart := by
  simp [update_time_window, set_slack_linksPart, set_arrival_departure_linksPart,
        set_LDT_linksPart, set_EAT_linksPart, set_leg_time_linksPart]

/-- Folding any heap operation that preserves a per-address projection
preserves that projection. -/
theorem foldl_preserves_proj {β γ : Type} (proj : Stop → γ) (op : St → β → St)
    (hop : ∀ σ j b, proj ((op σ j).heap b) = proj (σ.heap b))
    (js : List β) (σ : St) (b : Nat) :
    proj ((js.foldl op σ).heap b) = proj (σ.heap b) := by
  induction js generalizing σ with
  | nil => rfl
  | cons j js ih => rw [List.foldl_cons, ih, hop]

/-- Folding a heap operation whose write footprint at step `j` is the address
`f j` leaves every other address untouched. -/
theorem foldl_heap_ne {β : Type} (op : St → β → St) (f : β → Nat)
    (hop : ∀ σ j b, b ≠ f j → (op σ j).heap b = σ.heap b)
    (js : List β) (σ : St) (b : Nat) (hb : ∀ j ∈ js, b ≠ f j) :
    (js.foldl op σ).heap b = σ.heap b := by
  induction js generalizing σ with
  | nil => rfl
  | cons j js ih =>
    rw [List.foldl_cons, ih _ (fun x hx => hb x (List.mem_cons_of_mem _ hx)),
        hop _ _ _ (hb j (List.mem_cons_self _ _))]

/-!  ### Itinerary invariants -/

/-- The doubly-linked invariant of an itinerary's stop list: consecutive
stops point at each other, the first stop has no predecessor and the last
stop no successor. -/
def chainOK (σ : St) (l : List Nat) : Prop :=
  (∀ j < l.length - 1,
      (σ.heap (l.getD j 0)).snext = some (l.getD (j + 1) 0)
    ∧ (σ.heap (l.getD (j + 1) 0)).sprev = some (l.getD j 0))
  ∧ (l ≠ [] → (σ.heap (l.getD 0 0)).sprev = none
    ∧ (σ.heap (l.getD (l.length - 1) 0)).snext = none)

instance (σ : St) (l : List Nat) : Decidable (chainOK σ l) := by
  unfold chainOK; infer_instance

/-- The leg-distance sum of `compute_traveled_km`. -/
def legDistSum (db : DB) (σ : St) (l : List Nat) : ℤ :=
  ((List.range (l.length - 1)).map (fun i =>
    db.dist (σ.heap (l.getD i 0)).id (σ.heap (l.getD (i + 1) 0)).id)).sum

/-- Temporal consistency of an itinerary: the stop list is doubly linked with
distinct stops, every propagated attribute (`leg_time`, `eat`, `eat_f`,
`ldt`, `ldt_f`) equals its defining equation from
`set_leg_time`/`set_EAT`/`set_LDT`, and `traveled_km`/`cost` equal the
leg-distance sum.  Itineraries produced by the source's constructor and by
committed insertions satisfy this. -/
def consistentItin (db : DB) (σ : St) (it : Itin) : Prop :=
  chainOK σ it.stop_list
  ∧ it.stop_list.Nodup
  ∧ 2 ≤ it.stop_list.length
  ∧ (∀ j < it.stop_list.length - 1,
      (σ.heap (it.stop_list.getD j 0)).leg_time
        = XQ.fin (db.dur (σ.heap (it.stop_list.getD j 0)).id
                         (σ.heap (it.stop_list.getD (j + 1) 0)).id))
  ∧ (σ.heap (it.stop_list.getD (it.stop_list.length - 1) 0)).leg_time = XQ.fin 0
  ∧ (σ.heap (it.stop_list.getD 0 0)).eat = (σ.heap (it.stop_list.getD 0 0)).start_time
  ∧ (σ.heap (it.stop_list.getD 0 0)).eat_f = (σ.heap (it.stop_list.getD 0 0)).start_time
  ∧ (∀ j < it.stop_list.length - 1,
      (σ.heap (it.stop_list.getD (j + 1) 0)).eat
        = max (σ.heap (it.stop_list.getD j 0)).start_time
              (σ.heap (it.stop_list.getD j 0)).eat
            + (σ.heap (it.stop_list.getD j 0)).service_time
            + (σ.heap (it.stop_list.getD j 0)).leg_time
    ∧ (σ.heap (it.stop_list.getD (j + 1) 0)).eat_f
        = max (σ.heap (it.stop_list.getD (j + 1) 0)).start_time
              (σ.heap (it.stop_list.getD (j + 1) 0)).eat)
  ∧ (σ.heap (it.stop_list.getD (it.stop_list.length - 1) 0)).ldt
      = (σ.heap (it.stop_list.getD (it.stop_list.length - 1) 0)).end_time
  ∧ (σ.heap (it.stop_list.getD (it.stop_list.length - 1) 0)).ldt_f
      = (σ.heap (it.stop_list.getD (it.stop_list.length - 1) 0)).end_time
  ∧ (∀ j < it.stop_list.length - 1,
      (σ.heap (it.stop_list.getD j 0)).ldt
        = min (σ.heap (it.stop_list.getD (j + 1) 0)).end_time
              (σ.heap (it.stop_list.getD (j + 1) 0)).ldt
            - (σ.heap (it.stop_list.getD (j + 1) 0)).service_time
            - (σ.heap (it.stop_list.getD j 0)).leg_time
    ∧ (σ.heap (it.stop_list.getD j 0)).ldt_f
        = min (σ.heap (it.stop_list.getD j 0)).end_time
              (σ.heap (it.stop_list.getD j 0)).ldt)
  ∧ it.traveled_km = legDistSum db σ it.stop_list
  ∧ it.cost = legDistSum db σ it.stop_list

instance (db : DB) (σ : St) (it : Itin) : Decidable (consistentItin db σ it) := by
  unfold consistentItin; infer_instance

/-- Equality of all stop attributes except `slack`, `arrival_time` and
`departure_time`. -/
def restoredEq (s s' : Stop) : Prop :=
  s'.staticPart = s.staticPart ∧ s'.linksPart = s.linksPart
  ∧ s'.leg_time = s.leg_time ∧ s'.eat = s.eat ∧ s'.eat_f = s.eat_f
  ∧ s'.ldt = s.ldt ∧ s'.ldt_f = s.ldt_f

instance (s s' : Stop) : Decidable (restoredEq s s') := by
  unfold restoredEq; infer_instance

/-!  ### `getD` index lemmas for `insertIdx` -/

theorem getD_insertIdx_lt (l : List Nat) (x : Nat) (n k : Nat) (hn : k < n)
    (hk : k < l.length) : (l.insertIdx n x).getD k 0 = l.getD k 0 := by
  rw [List.getD_eq_getElem l 0 hk,
      List.getD_eq_getElem _ 0 (Nat.lt_of_lt_of_le hk (List.length_le_length_insertIdx l x n)),
      List.getElem_insertIdx_of_lt l x n k hn hk]

theorem getD_insertIdx_self (l : List Nat) (x : Nat) (n : Nat) (hn : n ≤ l.length) :
    (l.insertIdx n x).getD n 0 = x := by
  have hn' : n < (l.insertIdx n x).length := by
    rw [List.length_insertIdx n l hn]; omega
  rw [List.getD_eq_getElem _ 0 hn', List.getElem_insertIdx_self l x n hn]

theorem getD_insertIdx_ge (l : List Nat) (x : Nat) (n k : Nat) (hn : n ≤ k)
    (hk : k < l.length) : (l.insertIdx n x).getD (k + 1) 0 = l.getD k 0 := by
  obtain ⟨m, rfl⟩ := Nat.exists_eq_add_of_le hn
  have hk' : n + m + 1 < (l.insertIdx n x).length := by
    rw [List.length_insertIdx n l (by omega)]; omega
  rw [List.getD_eq_getElem _ 0 hk', List.getD_eq_getElem l 0 hk,
      List.getElem_insertIdx_add_succ l x n m hk]

theorem getD_mem (l : List Nat) (k : Nat) (hk : k < l.length) :
    l.getD k 0 ∈ l := by
  rw [List.getD_eq_getElem l 0 hk]; exact List.getElem_mem hk

theorem getD_nodup_ne (l : List Nat) (hnd : l.Nodup) (j k : Nat)
    (hj : j < l.length) (hk : k < l.length) (hjk : j ≠ k) :
    l.getD j 0 ≠ l.getD k 0 := by
  rw [List.getD_eq_getElem l 0 hj, List.getD_eq_getElem l 0 hk]
  intro h
  exact hjk ((List.Nodup.getElem_inj_iff hnd).mp h)

/-!  ### The propagation sweeps of `remove_stop` -/

/-- The ascending `set_EAT` sweep of `remove_stop`: positions `p, …,
`l.length - 1` of `l` receive the EAT values of the reference heap `σref`,
provided their static inputs already agree with `σref`, their `sprev` links
follow the list, the stop before position `p` already carries the reference
values, and `σref` is EAT-consistent along the chain. -/
theorem fold_set_EAT_restore (σref : St) (l : List Nat) (hnd : l.Nodup) :
    ∀ (m p : Nat), p + m = l.length → ∀ (σ : St),
    (∀ j, p ≤ j → j < l.length →
        (σ.heap (l.getD j 0)).start_time = (σref.heap (l.getD j 0)).start_time
      ∧ (σ.heap (l.getD j 0)).service_time = (σref.heap (l.getD j 0)).service_time
      ∧ (σ.heap (l.getD j 0)).leg_time = (σref.heap (l.getD j 0)).leg_time) →
    (∀ j, p ≤ j → j < l.length →
        (σ.heap (l.getD j 0)).sprev
          = if j = 0 then none else some (l.getD (j - 1) 0)) →
    (∀ j, p ≤ j → j < l.length →
        (if j = 0 then
           (σref.heap (l.getD 0 0)).eat = (σref.heap (l.getD 0 0)).start_time
         ∧ (σref.heap (l.getD 0 0)).eat_f = (σref.heap (l.getD 0 0)).start_time
         else
           (σref.heap (l.getD j 0)).eat
             = max (σref.heap (l.getD (j - 1) 0)).start_time
                   (σref.heap (l.getD (j - 1) 0)).eat
               + (σref.heap (l.getD (j - 1) 0)).service_time
               + (σref.heap (l.getD (j - 1) 0)).leg_time
         ∧ (σref.heap (l.getD j 0)).eat_f
             = max (σref.heap (l.getD j 0)).start_time (σref.heap (l.getD j 0)).eat)) →
    (1 ≤ p →
        (σ.heap (l.getD (p - 1) 0)).start_time = (σref.heap (l.getD (p - 1) 0)).start_time
      ∧ (σ.heap (l.getD (p - 1) 0)).eat = (σref.heap (l.getD (p - 1) 0)).eat
      ∧ (σ.heap (l.getD (p - 1) 0)).service_time = (σref.heap (l.getD (p - 1) 0)).service_time
      ∧ (σ.heap (l.getD (p - 1) 0)).leg_time = (σref.heap (l.getD (p - 1) 0)).leg_time) →
    ((∀ b, (∀ j, p ≤ j → j < l.length → b ≠ l.getD j 0) →
        ((List.range' p m).foldl (fun σ i => set_EAT σ (l.getD i 0)) σ).heap b = σ.heap b)
    ∧ ∀ j, p ≤ j → j < l.length →
        ((List.range' p m).foldl (fun σ i => set_EAT σ (l.getD i 0)) σ).heap (l.getD j 0)
          = { σ.heap (l.getD j 0) with
              eat := (σref.heap (l.getD j 0)).eat,
              eat_f := (σref.heap (l.getD j 0)).eat_f }) := by
  intro m
  induction m with
  | zero =>
    intro p hpm σ hvals hlinks href hanchor
    refine ⟨fun b hb => rfl, fun j hpj hj => ?_⟩
    omega
  | succ m ih =>
    intro p hpm σ hvals hlinks href hanchor
    have hp : p < l.length := by omega
    have hone : (set_EAT σ (l.getD p 0)).heap (l.getD p 0) =
        { σ.heap (l.getD p 0) with
          eat := (σref.heap (l.getD p 0)).eat,
          eat_f := (σref.heap (l.getD p 0)).eat_f } := by
      by_cases hp0 : p = 0
      · subst hp0
        have hl := hlinks 0 (Nat.le_refl _) hp
        have hv := hvals 0 (Nat.le_refl _) hp
        have hr := href 0 (Nat.le_refl _) hp
        simp only [if_pos rfl] at hl hr
        rw [set_EAT_self_none σ _ hl]
        simp only [hv.1, hr.1, hr.2]
      · have hl := hlinks p (Nat.le_refl _) hp
        have hv := hvals p (Nat.le_refl _) hp
        have hr := href p (Nat.le_refl _) hp
        have han := hanchor (by omega)
        simp only [if_neg hp0] at hl hr
        rw [set_EAT_self_some σ _ _ hl]
        simp only [han.1, han.2.1, han.2.2.1, han.2.2.2, hv.1, hr.1, hr.2]
    have hne : ∀ k, p + 1 ≤ k → k < l.length → l.getD k 0 ≠ l.getD p 0 :=
      fun k h1 h2 => getD_nodup_ne l hnd k p h2 hp (by omega)
    obtain ⟨ihframe, ihvals⟩ := ih (p + 1) (by omega) (set_EAT σ (l.getD p 0))
      (fun j h1 h2 => by
        rw [set_EAT_heap_ne _ _ _ (hne j h1 h2)]; exact hvals j (by omega) h2)
      (fun j h1 h2 => by
        rw [set_EAT_heap_ne _ _ _ (hne j h1 h2)]; exact hlinks j (by omega) h2)
      (fun j h1 h2 => href j (by omega) h2)
      (fun _ => by
        have hv := hvals p (Nat.le_refl _) hp
        simp only [Nat.add_sub_cancel, hone, hv.1, hv.2.1, hv.2.2]
        exact ⟨trivial, trivial, trivial, trivial⟩)
    have hstep : (List.range' p (m + 1)).foldl (fun σ i => set_EAT σ (l.getD i 0)) σ
        = (List.range' (p + 1) m).foldl (fun σ i => set_EAT σ (l.getD i 0))
            (set_EAT σ (l.getD p 0)) := by
      rw [List.range'_succ, List.foldl_cons]
    refine ⟨fun b hb => ?_, fun j hpj hj => ?_⟩
    · rw [hstep, ihframe b (fun k h1 h2 => hb k (by omega) h2),
          set_EAT_heap_ne _ _ _ (hb p (Nat.le_refl _) hp)]
    · rw [hstep]
      by_cases hjp : j = p
      · subst hjp
        rw [ihframe (l.getD j 0) (fun k h1 h2 => (hne k h1 h2).symm), hone]
      · have hj1 : p + 1 ≤ j := by omega
        rw [ihvals j hj1 hj, set_EAT_heap_ne _ _ _ (hne j hj1 hj)]

/-- The descending `set_LDT` sweep of `remove_stop`: positions `p-1, …, 0`
of `l` receive the LDT values of the reference heap `σref`, provided their
static inputs agree with `σref`, their `snext` links follow the list, the
stop at position `p` already carries the reference values, and `σref` is
LDT-consistent along the chain. -/
theorem fold_set_LDT_restore (σref : St) (l : List Nat) (hnd : l.Nodup) :
    ∀ (p : Nat), p < l.length → ∀ (σ : St),
    (∀ j, j < p →
        (σ.heap (l.getD j 0)).end_time = (σref.heap (l.getD j 0)).end_time
      ∧ (σ.heap (l.getD j 0)).service_time = (σref.heap (l.getD j 0)).service_time
      ∧ (σ.heap (l.getD j 0)).leg_time = (σref.heap (l.getD j 0)).leg_time) →
    (∀ j, j < p → (σ.heap (l.getD j 0)).snext = some (l.getD (j + 1) 0)) →
    (∀ j, j < p →
        (σref.heap (l.getD j 0)).ldt
          = min (σref.heap (l.getD (j + 1) 0)).end_time
                (σref.heap (l.getD (j + 1) 0)).ldt
            - (σref.heap (l.getD (j + 1) 0)).service_time
            - (σref.heap (l.getD j 0)).leg_time
      ∧ (σref.heap (l.getD j 0)).ldt_f
          = min (σref.heap (l.getD j 0)).end_time (σref.heap (l.getD j 0)).ldt) →
    ((σ.heap (l.getD p 0)).end_time = (σref.heap (l.getD p 0)).end_time
      ∧ (σ.heap (l.getD p 0)).ldt = (σref.heap (l.getD p 0)).ldt
      ∧ (σ.heap (l.getD p 0)).service_time = (σref.heap (l.getD p 0)).service_time) →
    ((∀ b, (∀ j, j < p → b ≠ l.getD j 0) →
        (((List.range p).reverse).foldl (fun σ i => set_LDT σ (l.getD i 0)) σ).heap b
          = σ.heap b)
    ∧ ∀ j, j < p →
        (((List.range p).reverse).foldl (fun σ i => set_LDT σ (l.getD i 0)) σ).heap
            (l.getD j 0)
          = { σ.heap (l.getD j 0) with
              ldt := (σref.heap (l.getD j 0)).ldt,
              ldt_f := (σref.heap (l.getD j 0)).ldt_f }) := by
  intro p
  induction p with
  | zero =>
    intro hpl σ hvals hlinks href hanchor
    exact ⟨fun b hb => rfl, fun j hj => by omega⟩
  | succ p ih =>
    intro hpl σ hvals hlinks href hanchor
    have hp : p < l.length := by omega
    have hone : (set_LDT σ (l.getD p 0)).heap (l.getD p 0) =
        { σ.heap (l.getD p 0) with
          ldt := (σref.heap (l.getD p 0)).ldt,
          ldt_f := (σref.heap (l.getD p 0)).ldt_f } := by
      have hl := hlinks p (Nat.lt_succ_self _)
      have hv := hvals p (Nat.lt_succ_self _)
      have hr := href p (Nat.lt_succ_self _)
      rw [set_LDT_self_some σ _ _ hl]
      simp only [hanchor.1, hanchor.2.1, hanchor.2.2, hv.1, hv.2.2, hr.1, hr.2]
    have hne : ∀ k, k < p → l.getD k 0 ≠ l.getD p 0 :=
      fun k h1 => getD_nodup_ne l hnd k p (by omega) hp (by omega)
    obtain ⟨ihframe, ihvals⟩ := ih hp (set_LDT σ (l.getD p 0))
      (fun j h1 => by
        rw [set_LDT_heap_ne _ _ _ (hne j h1)]; exact hvals j (by omega))
      (fun j h1 => by
        rw [set_LDT_heap_ne _ _ _ (hne j h1)]; exact hlinks j (by omega))
      (fun j h1 => href j (by omega))
      (by
        have hv := hvals p (Nat.lt_succ_self _)
        simp only [hone, hv.1, hv.2.1]
        exact ⟨trivial, trivial, trivial⟩)
    have hstep : ((List.range (p + 1)).reverse).foldl
          (fun σ i => set_LDT σ (l.getD i 0)) σ
        = ((List.range p).reverse).foldl (fun σ i => set_LDT σ (l.getD i 0))
            (set_LDT σ (l.getD p 0)) := by
      rw [List.range_succ, List.reverse_append, List.reverse_singleton, List.singleton_append,
          List.foldl_cons]
    refine ⟨fun b hb => ?_, fun j hj => ?_⟩
    · rw [hstep, ihframe b (fun k h1 => hb k (by omega)),
          set_LDT_heap_ne _ _ _ (hb p (Nat.lt_succ_self _))]
    · rw [hstep]
      by_cases hjp : j = p
      · subst hjp
        rw [ihframe (l.getD j 0) (fun k h1 => (hne k h1).symm), hone]
      · have hj1 : j < p := by omega
        rw [ihvals j hj1, set_LDT_heap_ne _ _ _ (hne j hj1)]

/-!  ### The propagation sweeps of `insert_stop` -/

/-- The value `set_leg_time` assigns. -/
def legTimeVal (db : DB) (σ : St) (a : Nat) : XQ :=
  match (σ.heap a).snext with
  | none => XQ.fin 0
  | some n => XQ.fin (db.dur (σ.heap a).id (σ.heap n).id)

/-- The value `set_LDT` assigns once the leg time has been refreshed. -/
def ldtVal (db : DB) (σ : St) (a : Nat) : XQ :=
  match (σ.heap a).snext with
  | none => (σ.heap a).end_time
  | some n => min (σ.heap n).end_time (σ.heap n).ldt - (σ.heap n).service_time
      - legTimeVal db σ a

/-- The value `set_EAT` assigns. -/
def eatVal (σ : St) (a : Nat) : XQ :=
  match (σ.heap a).sprev with
  | none => (σ.heap a).start_time
  | some p =>
      max (σ.heap p).start_time (σ.heap p).eat + (σ.heap p).service_time
        + (σ.heap p).leg_time

/-- The `eat_f` value `set_EAT` assigns. -/
def eatFVal (σ : St) (a : Nat) : XQ :=
  match (σ.heap a).sprev with
  | none => (σ.heap a).start_time
  | some _ => max (σ.heap a).start_time (eatVal σ a)

theorem XQ.min_self (x : XQ) : min x x = x := by
  cases x <;> simp [Min.min, XQ.blt]

theorem XQ.max_self (x : XQ) : max x x = x := by
  cases x <;> simp [Max.max, XQ.blt]

/-!  Field extractors for `staticPart`/`linksPart` equalities. -/

theorem staticPart_id {s s' : Stop} (h : s'.staticPart = s.staticPart) : s'.id = s.id := by
  have h' : (s'.staticPart).id = (s.staticPart).id := by rw [h]
  simpa [Stop.staticPart] using h'

theorem staticPart_coords {s s' : Stop} (h : s'.staticPart = s.staticPart) :
    s'.coords = s.coords := by
  have h' : (s'.staticPart).coords = (s.staticPart).coords := by rw [h]
  simpa [Stop.staticPart] using h'

theorem staticPart_start_time {s s' : Stop} (h : s'.staticPart = s.staticPart) :
    s'.start_time = s.start_time := by
  have h' : (s'.staticPart).start_time = (s.staticPart).start_time := by rw [h]
  simpa [Stop.staticPart] using h'

theorem staticPart_end_time {s s' : Stop} (h : s'.staticPart = s.staticPart) :
    s'.end_time = s.end_time := by
  have h' : (s'.staticPart).end_time = (s.staticPart).end_time := by rw [h]
  simpa [Stop.staticPart] using h'

theorem staticPart_service_time {s s' : Stop} (h : s'.staticPart = s.staticPart) :
    s'.service_time = s.service_time := by
  have h' : (s'.staticPart).service_time = (s.staticPart).service_time := by rw [h]
  simpa [Stop.staticPart] using h'

theorem linksPart_sprev {s s' : Stop} (h : s'.linksPart = s.linksPart) :
    s'.sprev = s.sprev := by
  have h' : (s'.linksPart).1 = (s.linksPart).1 := by rw [h]
  simpa [Stop.linksPart] using h'

theorem linksPart_snext {s s' : Stop} (h : s'.linksPart = s.linksPart) :
    s'.snext = s.snext := by
  have h' : (s'.linksPart).2 = (s.linksPart).2 := by rw [h]
  simpa [Stop.linksPart] using h'

theorem set_leg_time_keeps (db : DB) (σ : St) (a b : Nat) :
    ((set_leg_time db σ a).heap b).eat = (σ.heap b).eat
    ∧ ((set_leg_time db σ a).heap b).eat_f = (σ.heap b).eat_f
    ∧ ((set_leg_time db σ a).heap b).ldt = (σ.heap b).ldt
    ∧ ((set_leg_time db σ a).heap b).ldt_f = (σ.heap b).ldt_f := by
  by_cases h : b = a
  · subst h; cases hn : (σ.heap b).snext <;> simp [set_leg_time, hn, St.write]
  · rw [set_leg_time_heap_ne _ _ _ _ h]; exact ⟨rfl, rfl, rfl, rfl⟩

theorem set_EAT_keeps (σ : St) (a b : Nat) :
    ((set_EAT σ a).heap b).leg_time = (σ.heap b).leg_time
    ∧ ((set_EAT σ a).heap b).ldt = (σ.heap b).ldt
    ∧ ((set_EAT σ a).heap b).ldt_f = (σ.heap b).ldt_f := by
  by_cases h : b = a
  · subst h; cases hn : (σ.heap b).sprev <;> simp [set_EAT, hn, St.write]
  · rw [set_EAT_heap_ne _ _ _ h]; exact ⟨rfl, rfl, rfl⟩

theorem set_LDT_keeps (σ : St) (a b : Nat) :
    ((set_LDT σ a).heap b).leg_time = (σ.heap b).leg_time
    ∧ ((set_LDT σ a).heap b).eat = (σ.heap b).eat
    ∧ ((set_LDT σ a).heap b).eat_f = (σ.heap b).eat_f := by
  by_cases h : b = a
  · subst h; cases hn : (σ.heap b).snext <;> simp [set_LDT, hn, St.write]
  · rw [set_LDT_heap_ne _ _ _ h]; exact ⟨rfl, rfl, rfl⟩

theorem set_arrival_departure_keeps (σ : St) (a b : Nat) :
    ((set_arrival_departure σ a).heap b).leg_time = (σ.heap b).leg_time
    ∧ ((set_arrival_departure σ a).heap b).eat = (σ.heap b).eat
    ∧ ((set_arrival_departure σ a).heap b).eat_f = (σ.heap b).eat_f
    ∧ ((set_arrival_departure σ a).heap b).ldt = (σ.heap b).ldt
    ∧ ((set_arrival_departure σ a).heap b).ldt_f = (σ.heap b).ldt_f := by
  by_cases h : b = a
  · subst h; simp [set_arrival_departure, St.write]
  · rw [set_arrival_departure_heap_ne _ _ _ h]; exact ⟨rfl, rfl, rfl, rfl, rfl⟩

theorem set_slack_keeps (σ : St) (a b : Nat) :
    ((set_slack σ a).heap b).leg_time = (σ.heap b).leg_time
    ∧ ((set_slack σ a).heap b).eat = (σ.heap b).eat
    ∧ ((set_slack σ a).heap b).eat_f = (σ.heap b).eat_f
    ∧ ((set_slack σ a).heap b).ldt = (σ.heap b).ldt
    ∧ ((set_slack σ a).heap b).ldt_f = (σ.heap b).ldt_f := by
  by_cases h : b = a
  · subst h; simp [set_slack, St.write]
  · rw [set_slack_heap_ne _ _ _ h]; exact ⟨rfl, rfl, rfl, rfl, rfl⟩

/-- One `update_time_window` call: the refreshed `leg_time`, `ldt` and
`ldt_f` of the target, in terms of the starting heap.  The target must not be
its own neighbour (stop lists have distinct stops). -/
theorem update_time_window_self_ldt (db : DB) (σ : St) (a : Nat)
    (hna : (σ.heap a).snext ≠ some a) :
    ((update_time_window db σ a).heap a).leg_time = legTimeVal db σ a
    ∧ ((update_time_window db σ a).heap a).ldt = ldtVal db σ a
    ∧ ((update_time_window db σ a).heap a).ldt_f
        = min (σ.heap a).end_time (ldtVal db σ a) := by
  unfold update_time_window
  -- names for the successive states
  set σ1 := set_leg_time db σ a with hσ1
  set σ2 := set_EAT σ1 a with hσ2
  have hlinks1 : (σ1.heap a).linksPart = (σ.heap a).linksPart := set_leg_time_linksPart db σ a a
  have hlinks2 : (σ2.heap a).linksPart = (σ.heap a).linksPart := by
    rw [set_EAT_linksPart]; exact hlinks1
  have hsnext2 : (σ2.heap a).snext = (σ.heap a).snext := linksPart_snext hlinks2
  have hstatic1 : (σ1.heap a).staticPart = (σ.heap a).staticPart := set_leg_time_staticPart db σ a a
  have hstatic2 : (σ2.heap a).staticPart = (σ.heap a).staticPart := by
    rw [set_EAT_staticPart]; exact hstatic1
  have hend2 : (σ2.heap a).end_time = (σ.heap a).end_time := staticPart_end_time hstatic2
  have hleg2 : (σ2.heap a).leg_time = legTimeVal db σ a := by
    rw [(set_EAT_keeps σ1 a a).1]
    cases hn : (σ.heap a).snext with
    | none =>
      rw [set_leg_time_self_none db σ a hn]
      simp [legTimeVal, hn]
    | some n =>
      rw [set_leg_time_self_some db σ a n hn]
      simp [legTimeVal, hn]
  -- the LDT write
  cases hn : (σ.heap a).snext with
  | none =>
    have h3 := set_LDT_self_none σ2 a (by rw [hsnext2, hn])
    constructor
    · rw [(set_slack_keeps _ a a).1, (set_arrival_departure_keeps _ a a).1, h3]
      simpa using hleg2
    constructor
    · rw [(set_slack_keeps _ a a).2.2.2.1, (set_arrival_departure_keeps _ a a).2.2.2.1, h3]
      simpa [ldtVal, hn] using hend2
    · rw [(set_slack_keeps _ a a).2.2.2.2, (set_arrival_departure_keeps _ a a).2.2.2.2, h3]
      simp [ldtVal, hn, hend2, XQ.min_self]
  | some n =>
    have hna' : n ≠ a := by intro h; exact hna (by rw [hn, h])
    have hn2 : (σ2.heap a).snext = some n := by rw [hsnext2, hn]
    have h3 := set_LDT_self_some σ2 a n hn2
    have hheapn : σ2.heap n = σ.heap n := by
      rw [hσ2, set_EAT_heap_ne _ _ _ hna', hσ1, set_leg_time_heap_ne _ _ _ _ hna']
    constructor
    · rw [(set_slack_keeps _ a a).1, (set_arrival_departure_keeps _ a a).1, h3]
      simpa using hleg2
    constructor
    · rw [(set_slack_keeps _ a a).2.2.2.1, (set_arrival_departure_keeps _ a a).2.2.2.1, h3]
      simp [ldtVal, hn, hheapn, hleg2]
    · rw [(set_slack_keeps _ a a).2.2.2.2, (set_arrival_departure_keeps _ a a).2.2.2.2, h3]
      simp [ldtVal, hn, hheapn, hleg2, hend2]

/-- One `update_time_window` call: the refreshed `eat` and `eat_f` of the
target, in terms of the starting heap. -/
theorem update_time_window_self_eat (db : DB) (σ : St) (a : Nat)
    (hpa : (σ.heap a).sprev ≠ some a) :
    ((update_time_window db σ a).heap a).eat = eatVal σ a
    ∧ ((update_time_window db σ a).heap a).eat_f = eatFVal σ a := by
  unfold update_time_window
  set σ1 := set_leg_time db σ a with hσ1
  have hlinks1 : (σ1.heap a).linksPart = (σ.heap a).linksPart := set_leg_time_linksPart db σ a a
  have hsprev1 : (σ1.heap a).sprev = (σ.heap a).sprev := congrArg Prod.fst hlinks1
  have hstatic1 : (σ1.heap a).staticPart = (σ.heap a).staticPart := set_leg_time_staticPart db σ a a
  have hstart1 : (σ1.heap a).start_time = (σ.heap a).start_time :=
    staticPart_start_time hstatic1
  cases hp : (σ.heap a).sprev with
  | none =>
    have h2 := set_EAT_self_none σ1 a (by rw [hsprev1, hp])
    constructor
    · rw [(set_slack_keeps _ a a).2.1, (set_arrival_departure_keeps _ a a).2.1,
          (set_LDT_keeps _ a a).2.1, h2]
      simp [eatVal, hp, hstart1]
    · rw [(set_slack_keeps _ a a).2.2.1, (set_arrival_departure_keeps _ a a).2.2.1,
          (set_LDT_keeps _ a a).2.2, h2]
      simp [eatFVal, hp, hstart1]
  | some p =>
    have hpa' : p ≠ a := by intro h; exact hpa (by rw [hp, h])
    have hp1 : (σ1.heap a).sprev = some p := by rw [hsprev1, hp]
    have h2 := set_EAT_self_some σ1 a p hp1
    have hheapp : σ1.heap p = σ.heap p := by
      rw [hσ1, set_leg_time_heap_ne _ _ _ _ hpa']
    constructor
    · rw [(set_slack_keeps _ a a).2.1, (set_arrival_departure_keeps _ a a).2.1,
          (set_LDT_keeps _ a a).2.1, h2]
      simp [eatVal, hp, hheapp]
    · rw [(set_slack_keeps _ a a).2.2.1, (set_arrival_departure_keeps _ a a).2.2.1,
          (set_LDT_keeps _ a a).2.2, h2]
      simp [eatFVal, eatVal, hp, hheapp, hstart1]

/-- The ascending `update_time_window` sweep of `insert_stop` (positions
`p, …, l.length - 1`).  Static and link fields are preserved everywhere;
each processed stop gets its leg time, LDT and `ldt_f` recomputed from the
values the *starting* heap holds at it and its successor (the successor is
processed later, so its inputs are still the starting ones). -/
theorem fold_utw_forward (db : DB) (l : List Nat) (hnd : l.Nodup) :
    ∀ (m p : Nat), p + m = l.length → ∀ (σ : St),
    (∀ j, p ≤ j → j < l.length →
        (σ.heap (l.getD j 0)).snext
          = if j = l.length - 1 then none else some (l.getD (j + 1) 0)) →
    ((∀ b, (∀ j, p ≤ j → j < l.length → b ≠ l.getD j 0) →
        ((List.range' p m).foldl (fun σ i => update_time_window db σ (l.getD i 0)) σ).heap b
          = σ.heap b)
    ∧ (∀ b, (((List.range' p m).foldl (fun σ i => update_time_window db σ (l.getD i 0)) σ).heap
            b).staticPart = (σ.heap b).staticPart
        ∧ (((List.range' p m).foldl (fun σ i => update_time_window db σ (l.getD i 0)) σ).heap
            b).linksPart = (σ.heap b).linksPart)
    ∧ ∀ j, p ≤ j → j < l.length →
        (((List.range' p m).foldl (fun σ i => update_time_window db σ (l.getD i 0)) σ).heap
            (l.getD j 0)).leg_time = legTimeVal db σ (l.getD j 0)
      ∧ (((List.range' p m).foldl (fun σ i => update_time_window db σ (l.getD i 0)) σ).heap
            (l.getD j 0)).ldt = ldtVal db σ (l.getD j 0)
      ∧ (((List.range' p m).foldl (fun σ i => update_time_window db σ (l.getD i 0)) σ).heap
            (l.getD j 0)).ldt_f
          = min (σ.heap (l.getD j 0)).end_time (ldtVal db σ (l.getD j 0))) := by
  intro m
  induction m with
  | zero =>
    intro p hpm σ hlinks
    exact ⟨fun b hb => rfl, fun b => ⟨rfl, rfl⟩, fun j hpj hj => by omega⟩
  | succ m ih =>
    intro p hpm σ hlinks
    have hp : p < l.length := by omega
    have hna : (σ.heap (l.getD p 0)).snext ≠ some (l.getD p 0) := by
      rw [hlinks p (Nat.le_refl _) hp]
      by_cases hlast : p = l.length - 1
      · simp [hlast]
      · simp only [if_neg hlast]
        intro h
        exact getD_nodup_ne l hnd (p + 1) p (by omega) hp (by omega) (Option.some.injEq _ _ ▸ h)
    have hchar := update_time_window_self_ldt db σ (l.getD p 0) hna
    have hne : ∀ k, p + 1 ≤ k → k < l.length → l.getD k 0 ≠ l.getD p 0 :=
      fun k h1 h2 => getD_nodup_ne l hnd k p h2 hp (by omega)
    obtain ⟨ihframe, ihproj, ihvals⟩ := ih (p + 1) (by omega)
      (update_time_window db σ (l.getD p 0))
      (fun j h1 h2 => by
        rw [update_time_window_heap_ne _ _ _ _ (hne j h1 h2)]
        exact hlinks j (by omega) h2)
    have hstep : (List.range' p (m + 1)).foldl
          (fun σ i => update_time_window db σ (l.getD i 0)) σ
        = (List.range' (p + 1) m).foldl (fun σ i => update_time_window db σ (l.getD i 0))
            (update_time_window db σ (l.getD p 0)) := by
      rw [List.range'_succ, List.foldl_cons]
    -- translation of the value functions across the first step
    have htransl : ∀ j, p + 1 ≤ j → j < l.length →
        legTimeVal db (update_time_window db σ (l.getD p 0)) (l.getD j 0)
          = legTimeVal db σ (l.getD j 0)
      ∧ ldtVal db (update_time_window db σ (l.getD p 0)) (l.getD j 0)
          = ldtVal db σ (l.getD j 0) := by
      intro j h1 h2
      have hj : (update_time_window db σ (l.getD p 0)).heap (l.getD j 0) = σ.heap (l.getD j 0) :=
        update_time_window_heap_ne _ _ _ _ (hne j h1 h2)
      by_cases hlast : j = l.length - 1
      · have hn : (σ.heap (l.getD j 0)).snext = none := by
          rw [hlinks j (by omega) h2, if_pos hlast]
        constructor
        · simp only [legTimeVal, hj, hn]
        · simp only [ldtVal, legTimeVal, hj, hn]
      · have hn : (σ.heap (l.getD j 0)).snext = some (l.getD (j + 1) 0) := by
          rw [hlinks j (by omega) h2, if_neg hlast]
        have hj1 : (update_time_window db σ (l.getD p 0)).heap (l.getD (j + 1) 0)
            = σ.heap (l.getD (j + 1) 0) :=
          update_time_window_heap_ne _ _ _ _ (hne (j + 1) (by omega) (by omega))
        constructor
        · simp only [legTimeVal, hj, hn, hj1]
        · simp only [ldtVal, legTimeVal, hj, hn, hj1]
    refine ⟨fun b hb => ?_, fun b => ?_, fun j hpj hj => ?_⟩
    · rw [hstep, ihframe b (fun k h1 h2 => hb k (by omega) h2),
          update_time_window_heap_ne _ _ _ _ (hb p (Nat.le_refl _) hp)]
    · rw [hstep]
      refine ⟨?_, ?_⟩
      · rw [(ihproj b).1, update_time_window_staticPart]
      · rw [(ihproj b).2, update_time_window_linksPart]
    · rw [hstep]
      by_cases hjp : j = p
      · subst hjp
        have hfr : ((List.range' (j + 1) m).foldl
              (fun σ i => update_time_window db σ (l.getD i 0))
              (update_time_window db σ (l.getD j 0))).heap (l.getD j 0)
            = (update_time_window db σ (l.getD j 0)).heap (l.getD j 0) :=
          ihframe (l.getD j 0) (fun k h1 h2 => (hne k h1 h2).symm)
        rw [hfr]
        exact hchar
      · have hj1 : p + 1 ≤ j := by omega
        obtain ⟨hv1, hv2, hv3⟩ := ihvals j hj1 hj
        obtain ⟨ht1, ht2⟩ := htransl j hj1 hj
        refine ⟨by rw [hv1, ht1], by rw [hv2, ht2], ?_⟩
        rw [hv3, ht2,
            update_time_window_heap_ne _ _ _ _ (hne j hj1 hj)]

/-- `legTimeVal` only depends on link and static fields. -/
theorem legTimeVal_congr (db : DB) (σ σ' : St)
    (hl : ∀ b, (σ'.heap b).linksPart = (σ.heap b).linksPart)
    (hs : ∀ b, (σ'.heap b).staticPart = (σ.heap b).staticPart) (a : Nat) :
    legTimeVal db σ' a = legTimeVal db σ a := by
  unfold legTimeVal
  rw [linksPart_snext (hl a)]
  cases (σ.heap a).snext with
  | none => rfl
  | some n =>
    show XQ.fin (db.dur (σ'.heap a).id (σ'.heap n).id)
        = XQ.fin (db.dur (σ.heap a).id (σ.heap n).id)
    rw [staticPart_id (hs a), staticPart_id (hs n)]

/-- The descending `update_time_window` sweep of `insert_stop` (positions
`p-1, …, 0`).  Static and link fields are preserved everywhere; each
processed stop gets its leg time, EAT and `eat_f` recomputed from the values
the *starting* heap holds at it and at its predecessor (the predecessor is
processed later, so its inputs are still the starting ones). -/
theorem fold_utw_backward (db : DB) (l : List Nat) (hnd : l.Nodup) :
    ∀ (p : Nat), p ≤ l.length → ∀ (σ : St),
    (∀ j, j < p → ∃ nj, (σ.heap (l.getD j 0)).snext = some nj ∧ nj ≠ l.getD j 0) →
    (∀ j, j < p →
        (σ.heap (l.getD j 0)).sprev = if j = 0 then none else some (l.getD (j - 1) 0)) →
    ((∀ b, (∀ j, j < p → b ≠ l.getD j 0) →
        (((List.range p).reverse).foldl (fun σ i => update_time_window db σ (l.getD i 0)) σ).heap
            b = σ.heap b)
    ∧ (∀ b, ((((List.range p).reverse).foldl
            (fun σ i => update_time_window db σ (l.getD i 0)) σ).heap b).staticPart
          = (σ.heap b).staticPart
        ∧ ((((List.range p).reverse).foldl
            (fun σ i => update_time_window db σ (l.getD i 0)) σ).heap b).linksPart
          = (σ.heap b).linksPart)
    ∧ ∀ j, j < p →
        ((((List.range p).reverse).foldl
            (fun σ i => update_time_window db σ (l.getD i 0)) σ).heap (l.getD j 0)).leg_time
          = legTimeVal db σ (l.getD j 0)
      ∧ ((((List.range p).reverse).foldl
            (fun σ i => update_time_window db σ (l.getD i 0)) σ).heap (l.getD j 0)).eat
          = eatVal σ (l.getD j 0)
      ∧ ((((List.range p).reverse).foldl
            (fun σ i => update_time_window db σ (l.getD i 0)) σ).heap (l.getD j 0)).eat_f
          = eatFVal σ (l.getD j 0)) := by
  intro p
  induction p with
  | zero =>
    intro hpl σ hsnext hsprev
    exact ⟨fun b hb => rfl, fun b => ⟨rfl, rfl⟩, fun j hj => by omega⟩
  | succ p ih =>
    intro hpl σ hsnext hsprev
    have hp : p < l.length := by omega
    have hpa : (σ.heap (l.getD p 0)).sprev ≠ some (l.getD p 0) := by
      rw [hsprev p (Nat.lt_succ_self _)]
      by_cases hp0 : p = 0
      · simp [hp0]
      · simp only [if_neg hp0]
        intro h
        exact getD_nodup_ne l hnd (p - 1) p (by omega) hp (by omega)
          (Option.some.injEq _ _ ▸ h)
    have hna : (σ.heap (l.getD p 0)).snext ≠ some (l.getD p 0) := by
      obtain ⟨nj, heq, hnj⟩ := hsnext p (Nat.lt_succ_self _)
      rw [heq]
      intro h
      exact hnj (Option.some.injEq _ _ ▸ h)
    have hcharE := update_time_window_self_eat db σ (l.getD p 0) hpa
    have hcharL := update_time_window_self_ldt db σ (l.getD p 0) hna
    have hne : ∀ k, k < p → l.getD k 0 ≠ l.getD p 0 :=
      fun k h1 => getD_nodup_ne l hnd k p (by omega) hp (by omega)
    obtain ⟨ihframe, ihproj, ihvals⟩ := ih (by omega) (update_time_window db σ (l.getD p 0))
      (fun j h1 => by
        obtain ⟨nj, heq, hnj⟩ := hsnext j (by omega)
        refine ⟨nj, ?_, hnj⟩
        rw [update_time_window_heap_ne _ _ _ _ (hne j h1)]
        exact heq)
      (fun j h1 => by
        rw [update_time_window_heap_ne _ _ _ _ (hne j h1)]
        exact hsprev j (by omega))
    have hstep : ((List.range (p + 1)).reverse).foldl
          (fun σ i => update_time_window db σ (l.getD i 0)) σ
        = ((List.range p).reverse).foldl (fun σ i => update_time_window db σ (l.getD i 0))
            (update_time_window db σ (l.getD p 0)) := by
      rw [List.range_succ, List.reverse_append, List.reverse_singleton, List.singleton_append,
          List.foldl_cons]
    -- value translations across the first step
    have hLt : ∀ j, j < p →
        legTimeVal db (update_time_window db σ (l.getD p 0)) (l.getD j 0)
          = legTimeVal db σ (l.getD j 0) :=
      fun j h1 => legTimeVal_congr db σ _
        (fun b => update_time_window_linksPart db σ (l.getD p 0) b)
        (fun b => update_time_window_staticPart db σ (l.getD p 0) b) (l.getD j 0)
    have hEt : ∀ j, j < p →
        eatVal (update_time_window db σ (l.getD p 0)) (l.getD j 0)
          = eatVal σ (l.getD j 0)
      ∧ eatFVal (update_time_window db σ (l.getD p 0)) (l.getD j 0)
          = eatFVal σ (l.getD j 0) := by
      intro j h1
      have hj : (update_time_window db σ (l.getD p 0)).heap (l.getD j 0)
          = σ.heap (l.getD j 0) := update_time_window_heap_ne _ _ _ _ (hne j h1)
      by_cases hj0 : j = 0
      · have hsp : (σ.heap (l.getD j 0)).sprev = none := by
          rw [hsprev j (by omega), if_pos hj0]
        constructor
        · simp only [eatVal, hj, hsp]
        · simp only [eatFVal, hj, hsp]
      · have hsp : (σ.heap (l.getD j 0)).sprev = some (l.getD (j - 1) 0) := by
          rw [hsprev j (by omega), if_neg hj0]
        have hprev : (update_time_window db σ (l.getD p 0)).heap (l.getD (j - 1) 0)
            = σ.heap (l.getD (j - 1) 0) :=
          update_time_window_heap_ne _ _ _ _ (hne (j - 1) (by omega))
        constructor
        · simp only [eatVal, hj, hsp, hprev]
        · simp only [eatFVal, eatVal, hj, hsp, hprev]
    refine ⟨fun b hb => ?_, fun b => ?_, fun j hj => ?_⟩
    · rw [hstep, ihframe b (fun k h1 => hb k (by omega)),
          update_time_window_heap_ne _ _ _ _ (hb p (Nat.lt_succ_self _))]
    · rw [hstep]
      refine ⟨?_, ?_⟩
      · rw [(ihproj b).1, update_time_window_staticPart]
      · rw [(ihproj b).2, update_time_window_linksPart]
    · rw [hstep]
      by_cases hjp : j = p
      · subst hjp
        have hfr : (((List.range j).reverse).foldl
              (fun σ i => update_time_window db σ (l.getD i 0))
              (update_time_window db σ (l.getD j 0))).heap (l.getD j 0)
            = (update_time_window db σ (l.getD j 0)).heap (l.getD j 0) :=
          ihframe (l.getD j 0) (fun k h1 => (hne k h1).symm)
        rw [hfr]
        exact ⟨hcharL.1, hcharE.1, hcharE.2⟩
      · have hj1 : j < p := by omega
        obtain ⟨hv1, hv2, hv3⟩ := ihvals j hj1
        exact ⟨by rw [hv1, hLt j hj1], by rw [hv2, (hEt j hj1).1],
               by rw [hv3, (hEt j hj1).2]⟩

/-- Characterisation of the rewiring phase of `insert_stop`. -/
theorem insert_stop_rewire_char (db : DB) (σ : St) (l : List Nat) (S index_S : Nat)
    (R T : Nat) (hR : l.getD (index_S - 1) 0 = R) (hT : l.getD (index_S + 1) 0 = T)
    (hSR : S ≠ R) (hST : S ≠ T) (hRT : R ≠ T) :
    (∀ b, b ≠ S → b ≠ R → b ≠ T → (insert_stop_rewire db σ l S index_S).heap b = σ.heap b)
    ∧ (insert_stop_rewire db σ l S index_S).heap S
        = { σ.heap S with sprev := some R, snext := some T,
                          leg_time := XQ.fin (db.dur (σ.heap S).id (σ.heap T).id) }
    ∧ (insert_stop_rewire db σ l S index_S).heap R
        = { σ.heap R with snext := some S,
                          leg_time := XQ.fin (db.dur (σ.heap R).id (σ.heap S).id) }
    ∧ (insert_stop_rewire db σ l S index_S).heap T
        = { σ.heap T with sprev := some S } := by
  unfold insert_stop_rewire
  rw [hR, hT]
  constructor
  · intro b hbS hbR hbT
    simp [St.write, hbS, hbR, hbT]
  refine ⟨?_, ?_, ?_⟩ <;>
    simp [St.write, hSR, hST, hRT, Ne.symm hSR, Ne.symm hST, Ne.symm hRT]

/-- The `set_EAT`/`set_LDT`/`set_slack` refresh of the inserted stop touches
only that stop, and there only its volatile temporal fields. -/
theorem insert_stop_initS_char (σ : St) (S : Nat) :
    (∀ b, b ≠ S → (insert_stop_initS σ S).heap b = σ.heap b)
    ∧ (∀ b, ((insert_stop_initS σ S).heap b).staticPart = (σ.heap b).staticPart
        ∧ ((insert_stop_initS σ S).heap b).linksPart = (σ.heap b).linksPart
        ∧ ((insert_stop_initS σ S).heap b).leg_time = (σ.heap b).leg_time) := by
  unfold insert_stop_initS
  refine ⟨fun b hbS => ?_, fun b => ⟨?_, ?_, ?_⟩⟩
  · rw [set_slack_heap_ne _ _ _ hbS, set_LDT_heap_ne _ _ _ hbS, set_EAT_heap_ne _ _ _ hbS]
  · rw [set_slack_staticPart, set_LDT_staticPart, set_EAT_staticPart]
  · rw [set_slack_linksPart, set_LDT_linksPart, set_EAT_linksPart]
  · rw [(set_slack_keeps _ _ _).1, (set_LDT_keeps _ _ _).1, (set_EAT_keeps _ _ _).1]

/-- The arrival/departure/slack refresh phase of `insert_stop` touches only
`R`, `S`, `T`, and preserves the static, link, leg and EAT/LDT fields
everywhere. -/
theorem insert_stop_refresh_keeps (σ : St) (R S T b : Nat) :
    ((insert_stop_refresh σ R S T).heap b).staticPart = (σ.heap b).staticPart
    ∧ ((insert_stop_refresh σ R S T).heap b).linksPart = (σ.heap b).linksPart
    ∧ ((insert_stop_refresh σ R S T).heap b).leg_time = (σ.heap b).leg_time
    ∧ ((insert_stop_refresh σ R S T).heap b).eat = (σ.heap b).eat
    ∧ ((insert_stop_refresh σ R S T).heap b).eat_f = (σ.heap b).eat_f
    ∧ ((insert_stop_refresh σ R S T).heap b).ldt = (σ.heap b).ldt
    ∧ ((insert_stop_refresh σ R S T).heap b).ldt_f = (σ.heap b).ldt_f := by
  unfold insert_stop_refresh
  refine ⟨?_, ?_, ?_, ?_, ?_, ?_, ?_⟩
  · rw [set_slack_staticPart, set_arrival_departure_staticPart,
        set_arrival_departure_staticPart, set_slack_staticPart,
        set_arrival_departure_staticPart]
  · rw [set_slack_linksPart, set_arrival_departure_linksPart,
        set_arrival_departure_linksPart, set_slack_linksPart,
        set_arrival_departure_linksPart]
  · rw [(set_slack_keeps _ _ _).1, (set_arrival_departure_keeps _ _ _).1,
        (set_arrival_departure_keeps _ _ _).1, (set_slack_keeps _ _ _).1,
        (set_arrival_departure_keeps _ _ _).1]
  · rw [(set_slack_keeps _ _ _).2.1, (set_arrival_departure_keeps _ _ _).2.1,
        (set_arrival_departure_keeps _ _ _).2.1, (set_slack_keeps _ _ _).2.1,
        (set_arrival_departure_keeps _ _ _).2.1]
  · rw [(set_slack_keeps _ _ _).2.2.1, (set_arrival_departure_keeps _ _ _).2.2.1,
        (set_arrival_departure_keeps _ _ _).2.2.1, (set_slack_keeps _ _ _).2.2.1,
        (set_arrival_departure_keeps _ _ _).2.2.1]
  · rw [(set_slack_keeps _ _ _).2.2.2.1, (set_arrival_departure_keeps _ _ _).2.2.2.1,
        (set_arrival_departure_keeps _ _ _).2.2.2.1, (set_slack_keeps _ _ _).2.2.2.1,
        (set_arrival_departure_keeps _ _ _).2.2.2.1]
  · rw [(set_slack_keeps _ _ _).2.2.2.2, (set_arrival_departure_keeps _ _ _).2.2.2.2,
        (set_arrival_departure_keeps _ _ _).2.2.2.2, (set_slack_keeps _ _ _).2.2.2.2,
        (set_arrival_departure_keeps _ _ _).2.2.2.2]

/-- The refresh phase leaves stops other than `R`, `S`, `T` untouched. -/
theorem insert_stop_refresh_frame (σ : St) (R S T b : Nat)
    (hbR : b ≠ R) (hbS : b ≠ S) (hbT : b ≠ T) :
    (insert_stop_refresh σ R S T).heap b = σ.heap b := by
  unfold insert_stop_refresh
  rw [set_slack_heap_ne _ _ _ hbT, set_arrival_departure_heap_ne _ _ _ hbT,
      set_arrival_departure_heap_ne _ _ _ hbS, set_slack_heap_ne _ _ _ hbR,
      set_arrival_departure_heap_ne _ _ _ hbR]

/-- The load phase writes only `npass`/`npres` of the inserted stop. -/
theorem insert_stop_load_char (σ : St) (R S : Nat) (np : ℤ) :
    (∀ b, b ≠ S → (insert_stop_load σ R S np).heap b = σ.heap b)
    ∧ ((insert_stop_load σ R S np).heap S).sprev = (σ.heap S).sprev
    ∧ ((insert_stop_load σ R S np).heap S).snext = (σ.heap S).snext := by
  unfold insert_stop_load
  exact ⟨fun b hbS => write_heap_ne _ _ _ _ hbS, by rw [write_heap_self], by rw [write_heap_self]⟩

theorem insertIdx_eq_take_cons_drop (l : List Nat) (x : Nat) :
    ∀ n, n ≤ l.length → l.insertIdx n x = l.take n ++ x :: l.drop n := by
  induction l with
  | nil =>
    intro n hn
    have : n = 0 := by simpa using hn
    subst this
    simp
  | cons a l ih =>
    intro n hn
    cases n with
    | zero => simp
    | succ n =>
      simp only [List.insertIdx_succ_cons, List.take_succ_cons, List.drop_succ_cons,
        List.cons_append, List.cons.injEq, true_and]
      exact ih n (by simpa using hn)

theorem nodup_insertIdx (l : List Nat) (x : Nat) (n : Nat) (hn : n ≤ l.length)
    (hnd : l.Nodup) (hx : x ∉ l) : (l.insertIdx n x).Nodup := by
  rw [insertIdx_eq_take_cons_drop l x n hn]
  refine List.Perm.nodup (List.perm_middle.symm) ?_
  rw [List.nodup_cons, List.take_append_drop]
  exact ⟨hx, hnd⟩

/-- Full effect of `insert_stop` on a temporally consistent itinerary: the
stop list gains `S` at position `i`; static fields of the original stops are
untouched; the links change only at the three rewired stops; leg times change
only at the new predecessor `R`; EAT values of the stops before the insertion
point and LDT values of the stops from the insertion point on keep their
original values; and `S` is linked between `R` and `T`. -/
theorem insert_stop_effect (db : DB) (σ0 : St) (it : Itin) (S : Nat) (i : Nat)
    (np : ℤ) (σI : St) (itI : Itin)
    (hcons : consistentItin db σ0 it) (hS : S ∉ it.stop_list)
    (hi1 : 1 ≤ i) (hi2 : i ≤ it.stop_list.length - 1)
    (hIns : insert_stop db σ0 it S i np = (σI, itI)) :
    itI.stop_list = it.stop_list.insertIdx i S
    ∧ itI.vehicle_id = it.vehicle_id ∧ itI.capacity = it.capacity
    ∧ itI.start_stop = it.start_stop ∧ itI.end_stop = it.end_stop
    ∧ itI.start_time = it.start_time ∧ itI.end_time = it.end_time
    ∧ itI.current_loc = it.current_loc
    ∧ (∀ b, b ∉ it.stop_list → b ≠ S → σI.heap b = σ0.heap b)
    ∧ (∀ j < it.stop_list.length,
        (σI.heap (it.stop_list.getD j 0)).staticPart
          = (σ0.heap (it.stop_list.getD j 0)).staticPart)
    ∧ (∀ j < it.stop_list.length,
        (σI.heap (it.stop_list.getD j 0)).sprev
          = if j = i then some S else (σ0.heap (it.stop_list.getD j 0)).sprev)
    ∧ (∀ j < it.stop_list.length,
        (σI.heap (it.stop_list.getD j 0)).snext
          = if j = i - 1 then some S else (σ0.heap (it.stop_list.getD j 0)).snext)
    ∧ (∀ j < it.stop_list.length, j ≠ i - 1 →
        (σI.heap (it.stop_list.getD j 0)).leg_time
          = (σ0.heap (it.stop_list.getD j 0)).leg_time)
    ∧ (∀ j < i, (σI.heap (it.stop_list.getD j 0)).eat
          = (σ0.heap (it.stop_list.getD j 0)).eat
        ∧ (σI.heap (it.stop_list.getD j 0)).eat_f
          = (σ0.heap (it.stop_list.getD j 0)).eat_f)
    ∧ (∀ j, i ≤ j → j < it.stop_list.length →
        (σI.heap (it.stop_list.getD j 0)).ldt
          = (σ0.heap (it.stop_list.getD j 0)).ldt
        ∧ (σI.heap (it.stop_list.getD j 0)).ldt_f
          = (σ0.heap (it.stop_list.getD j 0)).ldt_f)
    ∧ (σI.heap S).sprev = some (it.stop_list.getD (i - 1) 0)
    ∧ (σI.heap S).snext = some (it.stop_list.getD i 0) := by
  obtain ⟨hchain, hnd, hlen, hleg, hlegLast, heat0, heatf0, heatRec, hldtL, hldtLf,
    hldtRec, hkm, hcost⟩ := hcons
  obtain ⟨hchainF, hchainE⟩ := hchain
  have hlnil : it.stop_list ≠ [] := by
    intro h; rw [h] at hlen; simp at hlen
  obtain ⟨hchain0, hchainL⟩ := hchainE hlnil
  -- index bookkeeping
  have hilen : i < it.stop_list.length := by omega
  have hl'len : (it.stop_list.insertIdx i S).length = it.stop_list.length + 1 :=
    List.length_insertIdx i it.stop_list (by omega)
  have hA'lt : ∀ j, j < i → (it.stop_list.insertIdx i S).getD j 0 = it.stop_list.getD j 0 :=
    fun j hj => getD_insertIdx_lt _ _ _ _ hj (by omega)
  have hA'i : (it.stop_list.insertIdx i S).getD i 0 = S :=
    getD_insertIdx_self _ _ _ (by omega)
  have hA'ge : ∀ j, i ≤ j → j < it.stop_list.length →
      (it.stop_list.insertIdx i S).getD (j + 1) 0 = it.stop_list.getD j 0 :=
    fun j h1 h2 => getD_insertIdx_ge _ _ _ _ h1 h2
  have hSne : ∀ j, j < it.stop_list.length → S ≠ it.stop_list.getD j 0 := by
    intro j hj h
    exact hS (h ▸ getD_mem _ _ hj)
  have hRT : it.stop_list.getD (i - 1) 0 ≠ it.stop_list.getD i 0 :=
    getD_nodup_ne _ hnd _ _ (by omega) hilen (by omega)
  -- the rewired neighbours
  have hR' : (it.stop_list.insertIdx i S).getD (i - 1) 0 = it.stop_list.getD (i - 1) 0 :=
    hA'lt _ (by omega)
  have hT' : (it.stop_list.insertIdx i S).getD (i + 1) 0 = it.stop_list.getD i 0 :=
    hA'ge i (Nat.le_refl _) hilen
  have hSR : S ≠ it.stop_list.getD (i - 1) 0 := hSne _ (by omega)
  have hST : S ≠ it.stop_list.getD i 0 := hSne _ hilen
  -- unfold the definition into its phase chain
  unfold insert_stop at hIns
  simp only at hIns
  injection hIns with h1 h2
  subst h1
  subst h2
  set l' := it.stop_list.insertIdx i S with hl'def
  rw [hR', hT']
  set R := it.stop_list.getD (i - 1) 0 with hRdef
  set T := it.stop_list.getD i 0 with hTdef
  set σr := insert_stop_rewire db σ0 l' S i with hσr
  set σs := insert_stop_initS σr S with hσs
  set σf := insert_stop_fwd db σs l' i with hσf
  set σb := insert_stop_bwd db σf l' i with hσb
  set σg := insert_stop_refresh σb R S T with hσg
  set σL := insert_stop_load σg R S np with hσL
  have hnd' : l'.Nodup := nodup_insertIdx _ _ _ (by omega) hnd hS
  have hAne : ∀ j k, j < it.stop_list.length → k < it.stop_list.length → j ≠ k →
      it.stop_list.getD j 0 ≠ it.stop_list.getD k 0 :=
    fun j k hj hk hjk => getD_nodup_ne _ hnd _ _ hj hk hjk
  -- rewiring phase characterisation
  obtain ⟨hrF, hrS, hrR, hrT⟩ := insert_stop_rewire_char db σ0 l' S i R T hR' hT' hSR hST hRT
  rw [← hσr] at hrF hrS hrR hrT
  -- EAT/LDT/slack refresh of S
  obtain ⟨hsF, hsP⟩ := insert_stop_initS_char σr S
  rw [← hσs] at hsF hsP
  -- σs agrees with σ0 outside R, T, S
  have hsOrig : ∀ j, j < it.stop_list.length → j ≠ i - 1 → j ≠ i →
      σs.heap (it.stop_list.getD j 0) = σ0.heap (it.stop_list.getD j 0) := by
    intro j hj hj1 hj2
    rw [hsF _ (Ne.symm (hSne j hj))]
    exact hrF _ (Ne.symm (hSne j hj)) (hRdef ▸ hAne j (i - 1) hj (by omega) hj1)
      (hTdef ▸ hAne j i hj hilen hj2)
  have hsR : σs.heap R = σr.heap R := hsF R (Ne.symm hSR)
  have hsT : σs.heap T = σr.heap T := hsF T (Ne.symm hST)
  -- forward sweep over positions i+1 … n of l'
  have hij : ∀ j, i + 1 ≤ j → j < l'.length → l'.getD j 0 = it.stop_list.getD (j - 1) 0 := by
    intro j h1 h2
    have := hA'ge (j - 1) (by omega) (by omega)
    rwa [show j - 1 + 1 = j by omega] at this
  have hfwdlinks : ∀ j, i + 1 ≤ j → j < l'.length →
      (σs.heap (l'.getD j 0)).snext
        = if j = l'.length - 1 then none else some (l'.getD (j + 1) 0) := by
    intro j h1 h2
    have hjl : j - 1 < it.stop_list.length := by omega
    have hAj : l'.getD j 0 = it.stop_list.getD (j - 1) 0 := hij j h1 h2
    by_cases hjT : j - 1 = i
    · -- this is T, whose sprev alone changed
      have hAT : l'.getD j 0 = T := by rw [hAj, hjT, ← hTdef]
      rw [hAT, hsT, hrT]
      by_cases hj : j = l'.length - 1
      · have hlast : i = it.stop_list.length - 1 := by omega
        rw [if_pos hj]
        show (σ0.heap T).snext = none
        rw [hTdef, hlast]
        exact hchainL
      · rw [if_neg hj]
        show (σ0.heap T).snext = some (l'.getD (j + 1) 0)
        have hnext : l'.getD (j + 1) 0 = it.stop_list.getD (i + 1) 0 := by
          have := hA'ge (i + 1) (by omega) (by omega)
          rwa [show i + 1 + 1 = j + 1 by omega] at this
        rw [hnext, hTdef]
        exact (hchainF i (by omega)).1
    · have hne3 : it.stop_list.getD (j - 1) 0 ≠ S := (hSne _ hjl).symm
      have hne4 : it.stop_list.getD (j - 1) 0 ≠ R := hRdef ▸ hAne _ _ hjl (by omega) (by omega)
      have hne5 : it.stop_list.getD (j - 1) 0 ≠ T := hTdef ▸ hAne _ _ hjl hilen hjT
      have hval : σs.heap (l'.getD j 0) = σ0.heap (it.stop_list.getD (j - 1) 0) := by
        rw [hAj, hsF _ hne3.symm.symm]
        · exact hrF _ hne3.symm.symm hne4 hne5
      rw [hval]
      by_cases hj : j = l'.length - 1
      · have hlast : j - 1 = it.stop_list.length - 1 := by omega
        rw [if_pos hj, hlast]
        exact hchainL
      · rw [if_neg hj]
        have hnext : l'.getD (j + 1) 0 = it.stop_list.getD j 0 := hA'ge j (by omega) (by omega)
        rw [hnext]
        have := (hchainF (j - 1) (by omega)).1
        rwa [show j - 1 + 1 = j by omega] at this
  obtain ⟨h6frame, h6proj, h6vals⟩ := fold_utw_forward db l' hnd'
    (l'.length - (i + 1)) (i + 1) (by omega) σs hfwdlinks
  have hfoldf : σf = (List.range' (i + 1) (l'.length - (i + 1))).foldl
      (fun σ j => update_time_window db σ (l'.getD j 0)) σs := hσf
  rw [← hfoldf] at h6frame h6proj h6vals
  -- σf agrees with σs on the prefix and on S
  have hfS : σf.heap S = σs.heap S := by
    refine h6frame S fun k h1 h2 => ?_
    rw [hij k h1 h2]
    exact hSne _ (by omega)
  have hfpre : ∀ j, j < i → σf.heap (it.stop_list.getD j 0) = σs.heap (it.stop_list.getD j 0) := by
    intro j hj
    refine h6frame _ fun k h1 h2 => ?_
    rw [hij k h1 h2]
    exact hAne j (k - 1) (by omega) (by omega) (by omega)
  -- backward sweep over positions i-1 … 0 of l'
  have hbsnext : ∀ j, j < i →
      ∃ nj, (σf.heap (l'.getD j 0)).snext = some nj ∧ nj ≠ l'.getD j 0 := by
    intro j hj
    have hAj : l'.getD j 0 = it.stop_list.getD j 0 := hA'lt j hj
    by_cases hjR : j = i - 1
    · have hAR : l'.getD j 0 = R := by rw [hAj, hjR, ← hRdef]
      refine ⟨S, ?_, ?_⟩
      · have hfR : σf.heap R = σs.heap R := by
          rw [hRdef]
          exact hfpre (i - 1) (by omega)
        rw [hAR, hfR, hsR, hrR]
      · rw [hAR]
        exact hSR
    · refine ⟨it.stop_list.getD (j + 1) 0, ?_, ?_⟩
      · rw [hAj, hfpre j (by omega), hsOrig j (by omega) hjR (by omega)]
        exact (hchainF j (by omega)).1
      · rw [hAj]
        exact hAne (j + 1) j (by omega) (by omega) (by omega)
  have hfval : ∀ j, j < i → j ≠ i - 1 →
      σf.heap (it.stop_list.getD j 0) = σ0.heap (it.stop_list.getD j 0) := by
    intro j hj hjR
    rw [hfpre j hj, hsOrig j (by omega) hjR (by omega)]
  have hfRrec : σf.heap R = { σ0.heap R with snext := some S,
                                             leg_time := XQ.fin (db.dur (σ0.heap R).id (σ0.heap S).id) } := by
    have hfR : σf.heap R = σs.heap R := by
      rw [hRdef]
      exact hfpre (i - 1) (by omega)
    rw [hfR, hsR, hrR]
  have hfpreFields : ∀ j, j < i →
      (σf.heap (it.stop_list.getD j 0)).start_time = (σ0.heap (it.stop_list.getD j 0)).start_time
    ∧ (σf.heap (it.stop_list.getD j 0)).eat = (σ0.heap (it.stop_list.getD j 0)).eat
    ∧ (σf.heap (it.stop_list.getD j 0)).service_time
        = (σ0.heap (it.stop_list.getD j 0)).service_time
    ∧ (σf.heap (it.stop_list.getD j 0)).sprev = (σ0.heap (it.stop_list.getD j 0)).sprev := by
    intro j hj
    by_cases hjR : j = i - 1
    · have hR2 : it.stop_list.getD j 0 = R := by rw [hjR, ← hRdef]
      rw [hR2, hfRrec]
      exact ⟨rfl, rfl, rfl, rfl⟩
    · rw [hfval j hj hjR]
      exact ⟨rfl, rfl, rfl, rfl⟩
  -- the backward sweep
  have hbsprev : ∀ j, j < i →
      (σf.heap (l'.getD j 0)).sprev = if j = 0 then none else some (l'.getD (j - 1) 0) := by
    intro j hj
    have hAj : l'.getD j 0 = it.stop_list.getD j 0 := hA'lt j hj
    rw [hAj, (hfpreFields j hj).2.2.2]
    by_cases hj0 : j = 0
    · rw [if_pos hj0, hj0]
      exact hchain0
    · rw [if_neg hj0, hA'lt (j - 1) (by omega)]
      have h2 := (hchainF (j - 1) (by omega)).2
      rwa [show j - 1 + 1 = j by omega] at h2
  obtain ⟨h7frame, h7proj, h7vals⟩ := fold_utw_backward db l' hnd' i (by omega) σf
    hbsnext hbsprev
  have hfoldb : σb = ((List.range i).reverse).foldl
      (fun σ j => update_time_window db σ (l'.getD j 0)) σf := hσb
  rw [← hfoldb] at h7frame h7proj h7vals
  have hbS : σb.heap S = σf.heap S := by
    refine h7frame S fun k hk => ?_
    rw [hA'lt k (by omega)]
    exact hSne _ (by omega)
  have hbsuf : ∀ j, i ≤ j → j < it.stop_list.length →
      σb.heap (it.stop_list.getD j 0) = σf.heap (it.stop_list.getD j 0) := by
    intro j h1 h2
    refine h7frame _ fun k hk => ?_
    rw [hA'lt k (by omega)]
    exact hAne j k h2 (by omega) (by omega)
  -- prefix EAT and leg values after the backward sweep
  have hbpre : ∀ j, j < i →
      (σb.heap (it.stop_list.getD j 0)).eat = (σ0.heap (it.stop_list.getD j 0)).eat
    ∧ (σb.heap (it.stop_list.getD j 0)).eat_f = (σ0.heap (it.stop_list.getD j 0)).eat_f
    ∧ (j ≠ i - 1 → (σb.heap (it.stop_list.getD j 0)).leg_time
        = (σ0.heap (it.stop_list.getD j 0)).leg_time) := by
    intro j hj
    have hAj : l'.getD j 0 = it.stop_list.getD j 0 := hA'lt j hj
    obtain ⟨hv1, hv2, hv3⟩ := h7vals j hj
    rw [hAj] at hv1 hv2 hv3
    have hsprev : (σf.heap (it.stop_list.getD j 0)).sprev
        = if j = 0 then none else some (it.stop_list.getD (j - 1) 0) := by
      rw [(hfpreFields j hj).2.2.2]
      by_cases hj0 : j = 0
      · rw [if_pos hj0, hj0]
        exact hchain0
      · rw [if_neg hj0]
        have h2 := (hchainF (j - 1) (by omega)).2
        rwa [show j - 1 + 1 = j by omega] at h2
    have heatv : eatVal σf (it.stop_list.getD j 0) = (σ0.heap (it.stop_list.getD j 0)).eat := by
      unfold eatVal
      rw [hsprev]
      by_cases hj0 : j = 0
      · rw [if_pos hj0]
        show (σf.heap (it.stop_list.getD j 0)).start_time = _
        rw [(hfpreFields j hj).1, hj0]
        exact heat0.symm
      · rw [if_neg hj0]
        show max (σf.heap (it.stop_list.getD (j - 1) 0)).start_time
              (σf.heap (it.stop_list.getD (j - 1) 0)).eat
            + (σf.heap (it.stop_list.getD (j - 1) 0)).service_time
            + (σf.heap (it.stop_list.getD (j - 1) 0)).leg_time = _
        rw [hfval (j - 1) (by omega) (by omega)]
        have h2 := (heatRec (j - 1) (by omega)).1
        rw [show j - 1 + 1 = j by omega] at h2
        exact h2.symm
    have heatfv : eatFVal σf (it.stop_list.getD j 0)
        = (σ0.heap (it.stop_list.getD j 0)).eat_f := by
      unfold eatFVal
      rw [hsprev]
      by_cases hj0 : j = 0
      · rw [if_pos hj0]
        show (σf.heap (it.stop_list.getD j 0)).start_time = _
        rw [(hfpreFields j hj).1, hj0]
        exact heatf0.symm
      · rw [if_neg hj0]
        show max (σf.heap (it.stop_list.getD j 0)).start_time
              (eatVal σf (it.stop_list.getD j 0)) = _
        rw [(hfpreFields j hj).1, heatv]
        have h2 := (heatRec (j - 1) (by omega)).2
        rw [show j - 1 + 1 = j by omega] at h2
        exact h2.symm
    refine ⟨by rw [hv2, heatv], by rw [hv3, heatfv], fun hjR => ?_⟩
    rw [hv1]
    unfold legTimeVal
    rw [hfval j hj hjR, (hchainF j (by omega)).1]
    show XQ.fin (db.dur (σ0.heap (it.stop_list.getD j 0)).id
        (σf.heap (it.stop_list.getD (j + 1) 0)).id) = _
    have hid : (σf.heap (it.stop_list.getD (j + 1) 0)).id
        = (σ0.heap (it.stop_list.getD (j + 1) 0)).id := by
      by_cases hz : j + 1 = i - 1
      · have hR2 : it.stop_list.getD (j + 1) 0 = R := by rw [hz, ← hRdef]
        rw [hR2, hfRrec]
      · rw [hfval (j + 1) (by omega) hz]
    rw [hid]
    exact (hleg j (by omega)).symm
  -- suffix LDT and leg values after both sweeps
  have hsufVals : ∀ j, i ≤ j → j < it.stop_list.length →
      (σb.heap (it.stop_list.getD j 0)).ldt = (σ0.heap (it.stop_list.getD j 0)).ldt
    ∧ (σb.heap (it.stop_list.getD j 0)).ldt_f = (σ0.heap (it.stop_list.getD j 0)).ldt_f
    ∧ (σb.heap (it.stop_list.getD j 0)).leg_time
        = (σ0.heap (it.stop_list.getD j 0)).leg_time := by
    intro j h1 h2
    rw [hbsuf j h1 h2]
    obtain ⟨hv1, hv2, hv3⟩ := h6vals (j + 1) (by omega) (by omega)
    have hAj : l'.getD (j + 1) 0 = it.stop_list.getD j 0 := hA'ge j h1 h2
    rw [hAj] at hv1 hv2 hv3
    have hssnext : (σs.heap (it.stop_list.getD j 0)).snext
        = if j = it.stop_list.length - 1 then none
          else some (it.stop_list.getD (j + 1) 0) := by
      by_cases hjT : j = i
      · have hT2 : it.stop_list.getD j 0 = T := by rw [hjT, ← hTdef]
        rw [hT2, hsT, hrT]
        show (σ0.heap T).snext = _
        rw [hTdef, ← hjT]
        by_cases hj : j = it.stop_list.length - 1
        · rw [if_pos hj, hj]
          exact hchainL
        · rw [if_neg hj]
          exact (hchainF j (by omega)).1
      · rw [hsOrig j h2 (by omega) hjT]
        by_cases hj : j = it.stop_list.length - 1
        · rw [if_pos hj, hj]
          exact hchainL
        · rw [if_neg hj]
          exact (hchainF j (by omega)).1
    have hown : (σs.heap (it.stop_list.getD j 0)).id = (σ0.heap (it.stop_list.getD j 0)).id
        ∧ (σs.heap (it.stop_list.getD j 0)).end_time
            = (σ0.heap (it.stop_list.getD j 0)).end_time := by
      by_cases hjT : j = i
      · have hT2 : it.stop_list.getD j 0 = T := by rw [hjT, ← hTdef]
        rw [hT2, hsT, hrT]
        exact ⟨rfl, rfl⟩
      · rw [hsOrig j h2 (by omega) hjT]
        exact ⟨rfl, rfl⟩
    have hlegv2 : legTimeVal db σs (it.stop_list.getD j 0)
        = (σ0.heap (it.stop_list.getD j 0)).leg_time := by
      unfold legTimeVal
      rw [hssnext]
      by_cases hj : j = it.stop_list.length - 1
      · rw [if_pos hj]
        show XQ.fin 0 = _
        rw [hj]
        exact hlegLast.symm
      · rw [if_neg hj]
        show XQ.fin (db.dur (σs.heap (it.stop_list.getD j 0)).id
            (σs.heap (it.stop_list.getD (j + 1) 0)).id) = _
        rw [hown.1, hsOrig (j + 1) (by omega) (by omega) (by omega)]
        exact (hleg j (by omega)).symm
    have hldtv : ldtVal db σs (it.stop_list.getD j 0)
        = (σ0.heap (it.stop_list.getD j 0)).ldt := by
      unfold ldtVal
      rw [hssnext]
      by_cases hj : j = it.stop_list.length - 1
      · rw [if_pos hj]
        show (σs.heap (it.stop_list.getD j 0)).end_time = _
        rw [hown.2, hj]
        exact hldtL.symm
      · rw [if_neg hj]
        show min (σs.heap (it.stop_list.getD (j + 1) 0)).end_time
              (σs.heap (it.stop_list.getD (j + 1) 0)).ldt
            - (σs.heap (it.stop_list.getD (j + 1) 0)).service_time
            - legTimeVal db σs (it.stop_list.getD j 0) = _
        rw [hsOrig (j + 1) (by omega) (by omega) (by omega), hlegv2]
        exact ((hldtRec j (by omega)).1).symm
    refine ⟨by rw [hv2, hldtv], ?_, by rw [hv1, hlegv2]⟩
    rw [hv3, hldtv, hown.2]
    by_cases hj : j = it.stop_list.length - 1
    · rw [hj, hldtL, XQ.min_self]
      exact hldtLf.symm
    · exact ((hldtRec j (by omega)).2).symm
  -- the refresh and load phases preserve all restored fields
  have hchase : ∀ b, b ≠ S →
      (σL.heap b).staticPart = (σb.heap b).staticPart
    ∧ (σL.heap b).linksPart = (σb.heap b).linksPart
    ∧ (σL.heap b).leg_time = (σb.heap b).leg_time
    ∧ (σL.heap b).eat = (σb.heap b).eat
    ∧ (σL.heap b).eat_f = (σb.heap b).eat_f
    ∧ (σL.heap b).ldt = (σb.heap b).ldt
    ∧ (σL.heap b).ldt_f = (σb.heap b).ldt_f := by
    intro b hbS
    have h1 : σL.heap b = σg.heap b := by
      rw [hσL]
      exact (insert_stop_load_char σg R S np).1 b hbS
    rw [h1, hσg]
    exact insert_stop_refresh_keeps σb R S T b
  have hstaticAll : ∀ b, (σb.heap b).staticPart = (σr.heap b).staticPart := by
    intro b
    rw [(h7proj b).1, (h6proj b).1, (hsP b).1]
  have hlinksAll : ∀ b, (σb.heap b).linksPart = (σr.heap b).linksPart := by
    intro b
    rw [(h7proj b).2, (h6proj b).2, (hsP b).2.1]
  -- assemble the conclusions
  refine ⟨by simp [compute_cost, compute_traveled_km], by simp [compute_cost, compute_traveled_km],
    by simp [compute_cost, compute_traveled_km], by simp [compute_cost, compute_traveled_km],
    by simp [compute_cost, compute_traveled_km], by simp [compute_cost, compute_traveled_km],
    by simp [compute_cost, compute_traveled_km], by simp [compute_cost, compute_traveled_km],
    ?_, ?_, ?_, ?_, ?_, ?_, ?_, ?_, ?_⟩
  · -- frame
    intro b hbl hbS
    have hbR : b ≠ R := by rw [hRdef]; intro h; exact hbl (h ▸ getD_mem _ _ (by omega))
    have hbT : b ≠ T := by rw [hTdef]; intro h; exact hbl (h ▸ getD_mem _ _ hilen)
    have h1 : σL.heap b = σg.heap b := by
      rw [hσL]
      exact (insert_stop_load_char σg R S np).1 b hbS
    have h2 : σg.heap b = σb.heap b := by
      rw [hσg]
      exact insert_stop_refresh_frame σb R S T b hbR hbS hbT
    have h3 : σb.heap b = σf.heap b := by
      refine h7frame b fun k hk => ?_
      rw [hA'lt k (by omega)]
      intro h
      exact hbl (h ▸ getD_mem _ _ (by omega))
    have h4 : σf.heap b = σs.heap b := by
      refine h6frame b fun k hk1 hk2 => ?_
      rw [hij k hk1 hk2]
      intro h
      exact hbl (h ▸ getD_mem _ _ (by omega))
    have h5 : σs.heap b = σr.heap b := hsF b hbS
    have h6 : σr.heap b = σ0.heap b := hrF b hbS hbR hbT
    rw [h1, h2, h3, h4, h5, h6]
  · -- static fields
    intro j hj
    rw [(hchase _ (Ne.symm (hSne j hj))).1, hstaticAll]
    by_cases hjR : j = i - 1
    · have hR2 : it.stop_list.getD j 0 = R := by rw [hjR, ← hRdef]
      rw [hR2, hrR]
      simp [Stop.staticPart]
    · by_cases hjT : j = i
      · have hT2 : it.stop_list.getD j 0 = T := by rw [hjT, ← hTdef]
        rw [hT2, hrT]
        simp [Stop.staticPart]
      · rw [hrF _ (Ne.symm (hSne j hj)) (hRdef ▸ hAne j (i - 1) hj (by omega) hjR)
            (hTdef ▸ hAne j i hj hilen hjT)]
  · -- sprev
    intro j hj
    have h1 := linksPart_sprev (hchase _ (Ne.symm (hSne j hj))).2.1
    have h2 := linksPart_sprev (hlinksAll (it.stop_list.getD j 0))
    rw [h1, h2]
    by_cases hjT : j = i
    · rw [if_pos hjT]
      have hT2 : it.stop_list.getD j 0 = T := by rw [hjT, ← hTdef]
      rw [hT2, hrT]
    · rw [if_neg hjT]
      by_cases hjR : j = i - 1
      · have hR2 : it.stop_list.getD j 0 = R := by rw [hjR, ← hRdef]
        rw [hR2, hrR]
      · rw [hrF _ (Ne.symm (hSne j hj)) (hRdef ▸ hAne j (i - 1) hj (by omega) hjR)
            (hTdef ▸ hAne j i hj hilen hjT)]
  · -- snext
    intro j hj
    have h1 := linksPart_snext (hchase _ (Ne.symm (hSne j hj))).2.1
    have h2 := linksPart_snext (hlinksAll (it.stop_list.getD j 0))
    rw [h1, h2]
    by_cases hjR : j = i - 1
    · rw [if_pos hjR]
      have hR2 : it.stop_list.getD j 0 = R := by rw [hjR, ← hRdef]
      rw [hR2, hrR]
    · rw [if_neg hjR]
      by_cases hjT : j = i
      · have hT2 : it.stop_list.getD j 0 = T := by rw [hjT, ← hTdef]
        rw [hT2, hrT]
      · rw [hrF _ (Ne.symm (hSne j hj)) (hRdef ▸ hAne j (i - 1) hj (by omega) hjR)
            (hTdef ▸ hAne j i hj hilen hjT)]
  · -- leg times
    intro j hj hjR
    rw [(hchase _ (Ne.symm (hSne j hj))).2.2.1]
    by_cases hji : j < i
    · exact (hbpre j hji).2.2 hjR
    · exact (hsufVals j (by omega) hj).2.2
  · -- prefix EAT values
    intro j hj
    exact ⟨by rw [(hchase _ (Ne.symm (hSne j (by omega)))).2.2.2.1]; exact (hbpre j hj).1,
           by rw [(hchase _ (Ne.symm (hSne j (by omega)))).2.2.2.2.1]; exact (hbpre j hj).2.1⟩
  · -- suffix LDT values
    intro j h1 h2
    exact ⟨by rw [(hchase _ (Ne.symm (hSne j h2))).2.2.2.2.2.1]; exact (hsufVals j h1 h2).1,
           by rw [(hchase _ (Ne.symm (hSne j h2))).2.2.2.2.2.2]; exact (hsufVals j h1 h2).2.1⟩
  · -- S.sprev
    have h1 : (σL.heap S).sprev = (σg.heap S).sprev := by
      rw [hσL]
      exact (insert_stop_load_char σg R S np).2.1
    have h2 := linksPart_sprev (insert_stop_refresh_keeps σb R S T S).2.1
    rw [h1, hσg, h2, hbS, hfS]
    rw [linksPart_sprev ((hsP S).2.1), hrS]
  · -- S.snext
    have h1 : (σL.heap S).snext = (σg.heap S).snext := by
      rw [hσL]
      exact (insert_stop_load_char σg R S np).2.2
    have h2 := linksPart_snext (insert_stop_refresh_keeps σb R S T S).2.1
    rw [h1, hσg, h2, hbS, hfS]
    rw [linksPart_snext ((hsP S).2.1), hrS]

/-!  ### The effect of `remove_stop` -/

/-- The rewiring block of `remove_stop` (lines 329–336): with `S` linked
between `R` and `T`, it writes `R.snext = T`, `T.sprev = R` and refreshes
`R.leg_time` from the database, touching no other stop. -/
theorem remove_stop_rewire_char (db : DB) (σ : St) (S R T : Nat)
    (hR : (σ.heap S).sprev = some R) (hT : (σ.heap S).snext = some T)
    (hRT : R ≠ T) :
    (∀ b, b ≠ R → b ≠ T → (remove_stop_rewire db σ S).heap b = σ.heap b)
    ∧ (remove_stop_rewire db σ S).heap R
        = { σ.heap R with snext := some T,
                          leg_time := XQ.fin (db.dur (σ.heap R).id (σ.heap T).id) }
    ∧ (remove_stop_rewire db σ S).heap T = { σ.heap T with sprev := some R } := by
  unfold remove_stop_rewire
  rw [hR, hT]
  simp only [Option.getD_some]
  refine ⟨fun b hbR hbT => ?_, ?_, ?_⟩
  · simp [St.write, hbR, hbT]
  · simp [St.write, hRT, Ne.symm hRT]
  · simp [St.write, hRT, Ne.symm hRT]

/-- Componentwise introduction for `restoredEq`. -/
theorem restoredEq_of_fields {s s' : Stop}
    (h1 : s'.staticPart = s.staticPart) (h2 : s'.sprev = s.sprev)
    (h3 : s'.snext = s.snext) (h4 : s'.leg_time = s.leg_time)
    (h5 : s'.eat = s.eat) (h6 : s'.eat_f = s.eat_f)
    (h7 : s'.ldt = s.ldt) (h8 : s'.ldt_f = s.ldt_f) : restoredEq s s' :=
  ⟨h1, by simp [Stop.linksPart, h2, h3], h4, h5, h6, h7, h8⟩

/-- The leg-distance sum only depends on the `id` fields of the listed
stops. -/
theorem legDistSum_congr (db : DB) (σ σ0 : St) (l : List Nat)
    (h : ∀ j, j < l.length → (σ.heap (l.getD j 0)).id = (σ0.heap (l.getD j 0)).id) :
    legDistSum db σ l = legDistSum db σ0 l := by
  unfold legDistSum
  congr 1
  refine List.map_congr_left fun i hi => ?_
  rw [List.mem_range] at hi
  rw [h i (by omega), h (i + 1) (by omega)]

/-!  ### Link preservation through the non-rewiring phases -/

theorem insert_stop_load_linksPart (σ : St) (R S : Nat) (np : ℤ) (b : Nat) :
    ((insert_stop_load σ R S np).heap b).linksPart = (σ.heap b).linksPart := by
  by_cases hbS : b = S
  · subst hbS
    simp [Stop.linksPart, (insert_stop_load_char σ R b np).2.1,
          (insert_stop_load_char σ R b np).2.2]
  · rw [(insert_stop_load_char σ R S np).1 b hbS]

theorem insert_stop_fwd_linksPart (db : DB) (σ : St) (l : List Nat) (i b : Nat) :
    ((insert_stop_fwd db σ l i).heap b).linksPart = (σ.heap b).linksPart := by
  unfold insert_stop_fwd
  exact foldl_preserves_proj Stop.linksPart _
    (fun σ j b => update_time_window_linksPart db σ _ b) _ σ b

theorem insert_stop_bwd_linksPart (db : DB) (σ : St) (l : List Nat) (i b : Nat) :
    ((insert_stop_bwd db σ l i).heap b).linksPart = (σ.heap b).linksPart := by
  unfold insert_stop_bwd
  exact foldl_preserves_proj Stop.linksPart _
    (fun σ j b => update_time_window_linksPart db σ _ b) _ σ b

/-- All phases of `insert_stop` after the rewiring block preserve the links
of every stop. -/
theorem insert_stop_linksPart (db : DB) (σ : St) (it : Itin) (S i : Nat)
    (np : ℤ) (b : Nat) :
    (((insert_stop db σ it S i np).1).heap b).linksPart
      = ((insert_stop_rewire db σ (it.stop_list.insertIdx i S) S i).heap b).linksPart := by
  show ((insert_stop_load (insert_stop_refresh (insert_stop_bwd db (insert_stop_fwd db
      (insert_stop_initS (insert_stop_rewire db σ (it.stop_list.insertIdx i S) S i) S)
      (it.stop_list.insertIdx i S) i) (it.stop_list.insertIdx i S) i)
      ((it.stop_list.insertIdx i S).getD (i - 1) 0) S
      ((it.stop_list.insertIdx i S).getD (i + 1) 0))
      ((it.stop_list.insertIdx i S).getD (i - 1) 0) S np).heap b).linksPart = _
  rw [insert_stop_load_linksPart, (insert_stop_refresh_keeps _ _ _ _ _).2.1,
      insert_stop_bwd_linksPart, insert_stop_fwd_linksPart,
      ((insert_stop_initS_char _ _).2 b).2.1]

theorem remove_stop_fwd_linksPart (σ : St) (l : List Nat) (i b : Nat) :
    ((remove_stop_fwd σ l i).heap b).linksPart = (σ.heap b).linksPart := by
  unfold remove_stop_fwd
  exact foldl_preserves_proj Stop.linksPart _
    (fun σ j b => set_EAT_linksPart σ _ b) _ σ b

theorem remove_stop_bwd_linksPart (σ : St) (l : List Nat) (i b : Nat) :
    ((remove_stop_bwd σ l i).heap b).linksPart = (σ.heap b).linksPart := by
  unfold remove_stop_bwd
  exact foldl_preserves_proj Stop.linksPart _
    (fun σ j b => set_LDT_linksPart σ _ b) _ σ b

/-- The two sweeps of `remove_stop` preserve the links of every stop. -/
theorem remove_stop_linksPart (db : DB) (σ : St) (it : Itin) (S i : Nat) (b : Nat) :
    (((remove_stop db σ it S i).1).heap b).linksPart
      = ((remove_stop_rewire db σ S).heap b).linksPart := by
  show ((remove_stop_bwd (remove_stop_fwd (remove_stop_rewire db σ S)
      (it.stop_list.take i ++ it.stop_list.drop (i + 1)) i)
      (it.stop_list.take i ++ it.stop_list.drop (i + 1)) i).heap b).linksPart = _
  rw [remove_stop_bwd_linksPart, remove_stop_fwd_linksPart]

theorem insert_stop_stop_list (db : DB) (σ : St) (it : Itin) (S i : Nat) (np : ℤ) :
    ((insert_stop db σ it S i np).2).stop_list = it.stop_list.insertIdx i S := by
  simp [insert_stop, compute_cost, compute_traveled_km]

theorem remove_stop_stop_list (db : DB) (σ : St) (it : Itin) (S i : Nat) :
    ((remove_stop db σ it S i).2).stop_list
      = it.stop_list.take i ++ it.stop_list.drop (i + 1) := by
  simp [remove_stop, compute_cost, compute_traveled_km]

/-- `insert_stop` at an interior position preserves the doubly-linked
invariant of the stop list. -/
theorem chainOK_insert_stop (db : DB) (σ : St) (it : Itin) (S i : Nat) (np : ℤ)
    (hchain : chainOK σ it.stop_list) (hnd : it.stop_list.Nodup)
    (hS : S ∉ it.stop_list) (hi1 : 1 ≤ i) (hi2 : i ≤ it.stop_list.length - 1) :
    chainOK (insert_stop db σ it S i np).1 (it.stop_list.insertIdx i S) := by
  obtain ⟨hF, hE⟩ := hchain
  have hlen2 : 2 ≤ it.stop_list.length := by omega
  obtain ⟨h0, hL⟩ := hE (by intro h; rw [h] at hlen2; simp at hlen2)
  have hilen : i < it.stop_list.length := by omega
  set l' := it.stop_list.insertIdx i S with hl'
  have hl'len : l'.length = it.stop_list.length + 1 := by
    rw [hl']
    exact List.length_insertIdx i it.stop_list (by omega)
  have hA'lt : ∀ j, j < i → l'.getD j 0 = it.stop_list.getD j 0 := by
    intro j hj
    rw [hl']
    exact getD_insertIdx_lt _ _ _ _ hj (by omega)
  have hA'i : l'.getD i 0 = S := by
    rw [hl']
    exact getD_insertIdx_self _ _ _ (by omega)
  have hA'ge : ∀ j, i ≤ j → j < it.stop_list.length →
      l'.getD (j + 1) 0 = it.stop_list.getD j 0 := by
    intro j h1 h2
    rw [hl']
    exact getD_insertIdx_ge _ _ _ _ h1 h2
  have hSne : ∀ j, j < it.stop_list.length → S ≠ it.stop_list.getD j 0 := by
    intro j hj h
    exact hS (h ▸ getD_mem _ _ hj)
  set R := it.stop_list.getD (i - 1) 0 with hRdef
  set T := it.stop_list.getD i 0 with hTdef
  have hSR : S ≠ R := by rw [hRdef]; exact hSne _ (by omega)
  have hST : S ≠ T := by rw [hTdef]; exact hSne _ hilen
  have hRT : R ≠ T := by
    rw [hRdef, hTdef]
    exact getD_nodup_ne _ hnd _ _ (by omega) hilen (by omega)
  obtain ⟨hrF, hrS, hrR, hrT⟩ := insert_stop_rewire_char db σ l' S i R T
    (by rw [hA'lt (i - 1) (by omega), ← hRdef])
    (by rw [hA'ge i (Nat.le_refl _) hilen, ← hTdef]) hSR hST hRT
  have hsprevI : ∀ b, (((insert_stop db σ it S i np).1).heap b).sprev
      = ((insert_stop_rewire db σ l' S i).heap b).sprev := by
    intro b
    refine linksPart_sprev ?_
    rw [hl']
    exact insert_stop_linksPart db σ it S i np b
  have hsnextI : ∀ b, (((insert_stop db σ it S i np).1).heap b).snext
      = ((insert_stop_rewire db σ l' S i).heap b).snext := by
    intro b
    refine linksPart_snext ?_
    rw [hl']
    exact insert_stop_linksPart db σ it S i np b
  have hwsprev : ∀ b, b ≠ S → b ≠ T →
      ((insert_stop_rewire db σ l' S i).heap b).sprev = (σ.heap b).sprev := by
    intro b h1 h2
    by_cases h3 : b = R
    · subst h3
      rw [hrR]
    · rw [hrF b h1 h3 h2]
  have hwsnext : ∀ b, b ≠ S → b ≠ R →
      ((insert_stop_rewire db σ l' S i).heap b).snext = (σ.heap b).snext := by
    intro b h1 h3
    by_cases h2 : b = T
    · subst h2
      rw [hrT]
    · rw [hrF b h1 h3 h2]
  refine ⟨?_, fun _ => ⟨?_, ?_⟩⟩
  · intro j hj
    have hj' : j < it.stop_list.length := by rw [hl'len] at hj; omega
    rcases Nat.lt_trichotomy j (i - 1) with hc | hc | hc
    · have e1 : l'.getD j 0 = it.stop_list.getD j 0 := hA'lt j (by omega)
      have e2 : l'.getD (j + 1) 0 = it.stop_list.getD (j + 1) 0 := hA'lt (j + 1) (by omega)
      rw [e1, e2]
      constructor
      · have hbS : it.stop_list.getD j 0 ≠ S := Ne.symm (hSne j (by omega))
        have hbR : it.stop_list.getD j 0 ≠ R := by
          rw [hRdef]
          exact getD_nodup_ne _ hnd _ _ (by omega) (by omega) (by omega)
        rw [hsnextI, hwsnext _ hbS hbR]
        exact (hF j (by omega)).1
      · have hbS : it.stop_list.getD (j + 1) 0 ≠ S := Ne.symm (hSne (j + 1) (by omega))
        have hbT : it.stop_list.getD (j + 1) 0 ≠ T := by
          rw [hTdef]
          exact getD_nodup_ne _ hnd _ _ (by omega) hilen (by omega)
        rw [hsprevI, hwsprev _ hbS hbT]
        exact (hF j (by omega)).2
    · subst hc
      have e1 : l'.getD (i - 1) 0 = R := by rw [hA'lt (i - 1) (by omega), ← hRdef]
      have e2 : l'.getD (i - 1 + 1) 0 = S := by rw [show i - 1 + 1 = i by omega, hA'i]
      rw [e1, e2]
      constructor
      · rw [hsnextI, hrR]
      · rw [hsprevI, hrS]
    · by_cases hji : j = i
      · have e1 : l'.getD j 0 = S := by rw [hji, hA'i]
        have e2 : l'.getD (j + 1) 0 = T := by
          rw [hji, hA'ge i (Nat.le_refl _) hilen, ← hTdef]
        rw [e1, e2]
        constructor
        · rw [hsnextI, hrS]
        · rw [hsprevI, hrT]
      · have e1 : l'.getD j 0 = it.stop_list.getD (j - 1) 0 := by
          have h := hA'ge (j - 1) (by omega) (by omega)
          rwa [show j - 1 + 1 = j by omega] at h
        have e2 : l'.getD (j + 1) 0 = it.stop_list.getD j 0 := hA'ge j (by omega) hj'
        rw [e1, e2]
        constructor
        · have hbS : it.stop_list.getD (j - 1) 0 ≠ S := Ne.symm (hSne (j - 1) (by omega))
          have hbR : it.stop_list.getD (j - 1) 0 ≠ R := by
            rw [hRdef]
            exact getD_nodup_ne _ hnd _ _ (by omega) (by omega) (by omega)
          rw [hsnextI, hwsnext _ hbS hbR]
          have h := (hF (j - 1) (by omega)).1
          rwa [show j - 1 + 1 = j by omega] at h
        · have hbS : it.stop_list.getD j 0 ≠ S := Ne.symm (hSne j hj')
          have hbT : it.stop_list.getD j 0 ≠ T := by
            rw [hTdef]
            exact getD_nodup_ne _ hnd _ _ hj' hilen (by omega)
          rw [hsprevI, hwsprev _ hbS hbT]
          have h := (hF (j - 1) (by omega)).2
          rwa [show j - 1 + 1 = j by omega] at h
  · have e : l'.getD 0 0 = it.stop_list.getD 0 0 := hA'lt 0 (by omega)
    rw [e]
    have hbS : it.stop_list.getD 0 0 ≠ S := Ne.symm (hSne 0 (by omega))
    have hbT : it.stop_list.getD 0 0 ≠ T := by
      rw [hTdef]
      exact getD_nodup_ne _ hnd _ _ (by omega) hilen (by omega)
    rw [hsprevI, hwsprev _ hbS hbT]
    exact h0
  · have e : l'.getD (l'.length - 1) 0 = it.stop_list.getD (it.stop_list.length - 1) 0 := by
      rw [hl'len, Nat.add_sub_cancel]
      have h := hA'ge (it.stop_list.length - 1) (by omega) (by omega)
      rwa [show it.stop_list.length - 1 + 1 = it.stop_list.length by omega] at h
    rw [e]
    have hbS : it.stop_list.getD (it.stop_list.length - 1) 0 ≠ S :=
      Ne.symm (hSne _ (by omega))
    have hbR : it.stop_list.getD (it.stop_list.length - 1) 0 ≠ R := by
      rw [hRdef]
      exact getD_nodup_ne _ hnd _ _ (by omega) (by omega) (by omega)
    rw [hsnextI, hwsnext _ hbS hbR]
    exact hL

/-- `remove_stop` of an interior stop preserves the doubly-linked invariant
of the stop list. -/
theorem chainOK_remove_stop (db : DB) (σ : St) (it : Itin) (S i : Nat)
    (hchain : chainOK σ it.stop_list) (hnd : it.stop_list.Nodup)
    (hS : S = it.stop_list.getD i 0) (hi1 : 1 ≤ i)
    (hi2 : i ≤ it.stop_list.length - 2) :
    chainOK (remove_stop db σ it S i).1
      (it.stop_list.take i ++ it.stop_list.drop (i + 1))
    ∧ (it.stop_list.take i ++ it.stop_list.drop (i + 1)).Nodup := by
  obtain ⟨hF, hE⟩ := hchain
  have hlen : 3 ≤ it.stop_list.length := by omega
  obtain ⟨h0, hL⟩ := hE (by intro h; rw [h] at hlen; simp at hlen)
  have hilen : i < it.stop_list.length := by omega
  set R := it.stop_list.getD (i - 1) 0 with hRdef
  set T := it.stop_list.getD (i + 1) 0 with hTdef
  have hRT : R ≠ T := by
    rw [hRdef, hTdef]
    exact getD_nodup_ne _ hnd _ _ (by omega) (by omega) (by omega)
  have hsp : (σ.heap S).sprev = some R := by
    rw [hS, hRdef]
    have h := (hF (i - 1) (by omega)).2
    rwa [show i - 1 + 1 = i by omega] at h
  have hsn : (σ.heap S).snext = some T := by
    rw [hS, hTdef]
    exact (hF i (by omega)).1
  obtain ⟨hrF, hrR, hrT⟩ := remove_stop_rewire_char db σ S R T hsp hsn hRT
  have hwsprev : ∀ b, b ≠ T →
      ((remove_stop_rewire db σ S).heap b).sprev = (σ.heap b).sprev := by
    intro b h2
    by_cases h3 : b = R
    · subst h3
      rw [hrR]
    · rw [hrF b h3 h2]
  have hwsnext : ∀ b, b ≠ R →
      ((remove_stop_rewire db σ S).heap b).snext = (σ.heap b).snext := by
    intro b h3
    by_cases h2 : b = T
    · subst h2
      rw [hrT]
    · rw [hrF b h3 h2]
  have hsprevR : ∀ b, (((remove_stop db σ it S i).1).heap b).sprev
      = ((remove_stop_rewire db σ S).heap b).sprev :=
    fun b => linksPart_sprev (remove_stop_linksPart db σ it S i b)
  have hsnextR : ∀ b, (((remove_stop db σ it S i).1).heap b).snext
      = ((remove_stop_rewire db σ S).heap b).snext :=
    fun b => linksPart_snext (remove_stop_linksPart db σ it S i b)
  set l'' := it.stop_list.take i ++ it.stop_list.drop (i + 1) with hl''
  have htake : (it.stop_list.take i).length = i := by
    rw [List.length_take]; omega
  have hlen'' : l''.length = it.stop_list.length - 1 := by
    rw [hl'', List.length_append, List.length_take, List.length_drop]; omega
  have hX : l''.insertIdx i S = it.stop_list := by
    rw [hl'', insertIdx_eq_take_cons_drop _ S i
      (by rw [List.length_append, List.length_take, List.length_drop]; omega)]
    rw [List.take_left' htake, List.drop_left' htake]
    rw [hS, List.getD_eq_getElem _ 0 hilen, ← List.drop_eq_getElem_cons hilen]
    exact List.take_append_drop i it.stop_list
  have hBlt : ∀ j, j < i → l''.getD j 0 = it.stop_list.getD j 0 := by
    intro j hj
    have h := getD_insertIdx_lt l'' S i j hj (by rw [hlen'']; omega)
    rw [hX] at h
    exact h.symm
  have hBge : ∀ j, i ≤ j → j < it.stop_list.length - 1 →
      l''.getD j 0 = it.stop_list.getD (j + 1) 0 := by
    intro j h1 h2
    have h := getD_insertIdx_ge l'' S i j h1 (by rw [hlen'']; omega)
    rw [hX] at h
    exact h.symm
  have hnd'' : l''.Nodup := by
    have h := hnd
    rw [← hX, insertIdx_eq_take_cons_drop l'' S i (by rw [hlen'']; omega)] at h
    have hperm : List.Perm (l''.take i ++ S :: l''.drop i) (S :: l'') := by
      have hp := @List.perm_middle _ S (l''.take i) (l''.drop i)
      rwa [List.take_append_drop] at hp
    exact ((hperm.nodup_iff).mp h).of_cons
  refine ⟨⟨?_, fun _ => ⟨?_, ?_⟩⟩, hnd''⟩
  · intro j hj
    have hj' : j < it.stop_list.length - 2 := by rw [hlen''] at hj; omega
    rcases Nat.lt_trichotomy j (i - 1) with hc | hc | hc
    · have e1 : l''.getD j 0 = it.stop_list.getD j 0 := hBlt j (by omega)
      have e2 : l''.getD (j + 1) 0 = it.stop_list.getD (j + 1) 0 := hBlt (j + 1) (by omega)
      rw [e1, e2]
      constructor
      · have hbR : it.stop_list.getD j 0 ≠ R := by
          rw [hRdef]
          exact getD_nodup_ne _ hnd _ _ (by omega) (by omega) (by omega)
        rw [hsnextR, hwsnext _ hbR]
        exact (hF j (by omega)).1
      · have hbT : it.stop_list.getD (j + 1) 0 ≠ T := by
          rw [hTdef]
          exact getD_nodup_ne _ hnd _ _ (by omega) (by omega) (by omega)
        rw [hsprevR, hwsprev _ hbT]
        exact (hF j (by omega)).2
    · subst hc
      have e1 : l''.getD (i - 1) 0 = R := by
        rw [hBlt (i - 1) (by omega), ← hRdef]
      have e2 : l''.getD (i - 1 + 1) 0 = T := by
        rw [show i - 1 + 1 = i by omega, hBge i (Nat.le_refl _) (by omega), ← hTdef]
      rw [e1, e2]
      constructor
      · rw [hsnextR, hrR]
      · rw [hsprevR, hrT]
    · have e1 : l''.getD j 0 = it.stop_list.getD (j + 1) 0 := hBge j (by omega) (by omega)
      have e2 : l''.getD (j + 1) 0 = it.stop_list.getD (j + 2) 0 := by
        have h := hBge (j + 1) (by omega) (by omega)
        rwa [show j + 1 + 1 = j + 2 by omega] at h
      rw [e1, e2]
      constructor
      · have hbR : it.stop_list.getD (j + 1) 0 ≠ R := by
          rw [hRdef]
          exact getD_nodup_ne _ hnd _ _ (by omega) (by omega) (by omega)
        rw [hsnextR, hwsnext _ hbR]
        have h := (hF (j + 1) (by omega)).1
        rwa [show j + 1 + 1 = j + 2 by omega] at h
      · have hbT : it.stop_list.getD (j + 2) 0 ≠ T := by
          rw [hTdef]
          exact getD_nodup_ne _ hnd _ _ (by omega) (by omega) (by omega)
        rw [hsprevR, hwsprev _ hbT]
        have h := (hF (j + 1) (by omega)).2
        rwa [show j + 1 + 1 = j + 2 by omega] at h
  · have e : l''.getD 0 0 = it.stop_list.getD 0 0 := hBlt 0 (by omega)
    rw [e]
    have hbT : it.stop_list.getD 0 0 ≠ T := by
      rw [hTdef]
      exact getD_nodup_ne _ hnd _ _ (by omega) (by omega) (by omega)
    rw [hsprevR, hwsprev _ hbT]
    exact h0
  · have e : l''.getD (l''.length - 1) 0 = it.stop_list.getD (it.stop_list.length - 1) 0 := by
      rw [hlen'']
      have h := hBge (it.stop_list.length - 2) (by omega) (by omega)
      rw [show it.stop_list.length - 2 + 1 = it.stop_list.length - 1 by omega] at h
      rw [show it.stop_list.length - 1 - 1 = it.stop_list.length - 2 by omega]
      exact h
    rw [e]
    have hbR : it.stop_list.getD (it.stop_list.length - 1) 0 ≠ R := by
      rw [hRdef]
      exact getD_nodup_ne _ hnd _ _ (by omega) (by omega) (by omega)
    rw [hsnextR, hwsnext _ hbR]
    exact hL

/-- C4: on a stop list satisfying the doubly-linked invariant (with distinct
stops), `insert_stop(S, i)` with `1 ≤ i ≤ len - 1` and a fresh `S`, and
`remove_stop(S, i)` on an interior stop (`1 ≤ i ≤ len - 2`, `S` the stop at
position `i`), both preserve the invariant (and the distinctness of the
stops) on the updated stop list. -/
theorem C4_insert_remove_preserve_chain (db : DB) (σ : St) (it : Itin)
    (S i : Nat) (np : ℤ)
    (hchain : chainOK σ it.stop_list) (hnd : it.stop_list.Nodup) (hi1 : 1 ≤ i) :
    (S ∉ it.stop_list → i ≤ it.stop_list.length - 1 →
      chainOK (insert_stop db σ it S i np).1 ((insert_stop db σ it S i np).2).stop_list
      ∧ ((insert_stop db σ it S i np).2).stop_list.Nodup)
    ∧ (S = it.stop_list.getD i 0 → i ≤ it.stop_list.length - 2 →
      chainOK (remove_stop db σ it S i).1 ((remove_stop db σ it S i).2).stop_list
      ∧ ((remove_stop db σ it S i).2).stop_list.Nodup) := by
  constructor
  · intro hS hi2
    rw [insert_stop_stop_list]
    exact ⟨chainOK_insert_stop db σ it S i np hchain hnd hS hi1 hi2,
           nodup_insertIdx _ _ _ (by omega) hnd hS⟩
  · intro hS hi2
    rw [remove_stop_stop_list]
    exact chainOK_remove_stop db σ it S i hchain hnd hS hi1 hi2

/-- Witness for C4: inserting the fresh stop into the two-stop itinerary and
removing the interior stop of the three-stop itinerary both yield correctly
linked stop lists. -/
theorem C4_insert_remove_preserve_chain_witness :
    (chainOK c4ins.1 c4ins.2.stop_list ∧ c4ins.2.stop_list.Nodup)
    ∧ (chainOK c4rem.1 c4rem.2.stop_list ∧ c4rem.2.stop_list.Nodup) :=
  ⟨(C4_insert_remove_preserve_chain db1 σB itA addrS 1 0 (by decide) (by decide)
      (by decide)).1 (by decide) (by decide),
   (C4_insert_remove_preserve_chain db1 σC itC 1 1 0 (by decide) (by decide)
      (by decide)).2 (by decide) (by decide)⟩

/-- C2 (amended): on a temporally consistent itinerary, `insert_stop(S, i)`
followed by `remove_stop(S, i)` restores the `stop_list`, every original
stop's static attributes (`id`, `coords`, time window, `service_time`,
`latest`, `npass`, `npres`, `passenger_id`), links, `leg_time`, `eat`,
`eat_f`, `ldt` and `ldt_f`, the heap outside the itinerary, and the
itinerary's `traveled_km` and `cost` — but, contrary to the original claim,
not `slack`, `arrival_time` or `departure_time`, which `remove_stop` never
recomputes (see the accompanying counterexample). -/
theorem C2_insert_remove_roundtrip_amended (db : DB) (σ0 : St) (it : Itin)
    (S i : Nat) (np : ℤ) (σI : St) (itI : Itin) (σR : St) (itR : Itin)
    (hcons : consistentItin db σ0 it) (hS : S ∉ it.stop_list)
    (hi1 : 1 ≤ i) (hi2 : i ≤ it.stop_list.length - 1)
    (hIns : insert_stop db σ0 it S i np = (σI, itI))
    (hRem : remove_stop db σI itI S i = (σR, itR)) :
    itR.stop_list = it.stop_list
    ∧ itR.traveled_km = it.traveled_km
    ∧ itR.cost = it.cost
    ∧ (∀ j < it.stop_list.length,
        restoredEq (σ0.heap (it.stop_list.getD j 0)) (σR.heap (it.stop_list.getD j 0)))
    ∧ (∀ b, b ∉ it.stop_list → b ≠ S → σR.heap b = σ0.heap b) := by
  obtain ⟨hlist, hvid, hcap, hss, hes, hst, het, hcl, hframe, hstat, hsprev, hsnext,
    hlegk, heatk, hldtk, hSsp, hSsn⟩ :=
    insert_stop_effect db σ0 it S i np σI itI hcons hS hi1 hi2 hIns
  obtain ⟨hchain, hnd, hlen, hleg, hlegLast, heat0, heatf0, heatRec, hldtL, hldtLf,
    hldtRec, hkm, hcost⟩ := hcons
  obtain ⟨hchainF, hchainE⟩ := hchain
  have hlnil : it.stop_list ≠ [] := by
    intro h; rw [h] at hlen; simp at hlen
  obtain ⟨hchain0, hchainL⟩ := hchainE hlnil
  have hilen : i < it.stop_list.length := by omega
  have hSne : ∀ j, j < it.stop_list.length → S ≠ it.stop_list.getD j 0 := by
    intro j hj h
    exact hS (h ▸ getD_mem _ _ hj)
  have hshort : itI.stop_list.take i ++ itI.stop_list.drop (i + 1) = it.stop_list := by
    rw [hlist, ← List.eraseIdx_eq_take_drop_succ, List.eraseIdx_insertIdx]
  unfold remove_stop at hRem
  simp only at hRem
  rw [hshort] at hRem
  injection hRem with h1 h2
  subst h1
  subst h2
  set R := it.stop_list.getD (i - 1) 0 with hRdef
  set T := it.stop_list.getD i 0 with hTdef
  have hRT : R ≠ T := by
    rw [hRdef, hTdef]
    exact getD_nodup_ne _ hnd _ _ (by omega) hilen (by omega)
  set σr := remove_stop_rewire db σI S with hσr
  set σf := remove_stop_fwd σr it.stop_list i with hσf
  set σb := remove_stop_bwd σf it.stop_list i with hσb
  obtain ⟨hrF, hrR, hrT⟩ := remove_stop_rewire_char db σI S R T hSsp hSsn hRT
  rw [← hσr] at hrF hrR hrT
  have hrOrig : ∀ j, j < it.stop_list.length → j ≠ i - 1 → j ≠ i →
      σr.heap (it.stop_list.getD j 0) = σI.heap (it.stop_list.getD j 0) := by
    intro j hj h1 h2
    refine hrF _ ?_ ?_
    · rw [hRdef]; exact getD_nodup_ne _ hnd _ _ hj (by omega) h1
    · rw [hTdef]; exact getD_nodup_ne _ hnd _ _ hj hilen h2
  -- the forward `set_EAT` sweep restores the reference EAT values
  have hvals : ∀ j, i ≤ j → j < it.stop_list.length →
      (σr.heap (it.stop_list.getD j 0)).start_time
        = (σ0.heap (it.stop_list.getD j 0)).start_time
    ∧ (σr.heap (it.stop_list.getD j 0)).service_time
        = (σ0.heap (it.stop_list.getD j 0)).service_time
    ∧ (σr.heap (it.stop_list.getD j 0)).leg_time
        = (σ0.heap (it.stop_list.getD j 0)).leg_time := by
    intro j h1 h2
    by_cases hjT : j = i
    · have hT2 : it.stop_list.getD j 0 = T := by rw [hjT, ← hTdef]
      rw [hT2, hrT, hTdef]
      exact ⟨staticPart_start_time (hstat i hilen),
             staticPart_service_time (hstat i hilen),
             hlegk i hilen (by omega)⟩
    · rw [hrOrig j h2 (by omega) hjT]
      exact ⟨staticPart_start_time (hstat j h2),
             staticPart_service_time (hstat j h2),
             hlegk j h2 (by omega)⟩
  have hlinks : ∀ j, i ≤ j → j < it.stop_list.length →
      (σr.heap (it.stop_list.getD j 0)).sprev
        = if j = 0 then none else some (it.stop_list.getD (j - 1) 0) := by
    intro j h1 h2
    rw [if_neg (by omega)]
    by_cases hjT : j = i
    · have hT2 : it.stop_list.getD j 0 = T := by rw [hjT, ← hTdef]
      rw [hT2, hrT]
      show some R = _
      rw [hRdef, hjT]
    · rw [hrOrig j h2 (by omega) hjT]
      have h := hsprev j h2
      rw [if_neg hjT] at h
      rw [h]
      have h3 := (hchainF (j - 1) (by omega)).2
      rwa [show j - 1 + 1 = j by omega] at h3
  have href : ∀ j, i ≤ j → j < it.stop_list.length →
      (if j = 0 then
         (σ0.heap (it.stop_list.getD 0 0)).eat = (σ0.heap (it.stop_list.getD 0 0)).start_time
       ∧ (σ0.heap (it.stop_list.getD 0 0)).eat_f = (σ0.heap (it.stop_list.getD 0 0)).start_time
       else
         (σ0.heap (it.stop_list.getD j 0)).eat
           = max (σ0.heap (it.stop_list.getD (j - 1) 0)).start_time
                 (σ0.heap (it.stop_list.getD (j - 1) 0)).eat
             + (σ0.heap (it.stop_list.getD (j - 1) 0)).service_time
             + (σ0.heap (it.stop_list.getD (j - 1) 0)).leg_time
       ∧ (σ0.heap (it.stop_list.getD j 0)).eat_f
           = max (σ0.heap (it.stop_list.getD j 0)).start_time
                 (σ0.heap (it.stop_list.getD j 0)).eat) := by
    intro j h1 h2
    rw [if_neg (by omega)]
    have h3 := heatRec (j - 1) (by omega)
    rwa [show j - 1 + 1 = j by omega] at h3
  have hanchor : 1 ≤ i →
      (σr.heap (it.stop_list.getD (i - 1) 0)).start_time
        = (σ0.heap (it.stop_list.getD (i - 1) 0)).start_time
    ∧ (σr.heap (it.stop_list.getD (i - 1) 0)).eat
        = (σ0.heap (it.stop_list.getD (i - 1) 0)).eat
    ∧ (σr.heap (it.stop_list.getD (i - 1) 0)).service_time
        = (σ0.heap (it.stop_list.getD (i - 1) 0)).service_time
    ∧ (σr.heap (it.stop_list.getD (i - 1) 0)).leg_time
        = (σ0.heap (it.stop_list.getD (i - 1) 0)).leg_time := by
    intro _
    rw [← hRdef, hrR]
    refine ⟨?_, ?_, ?_, ?_⟩
    · rw [hRdef]
      exact staticPart_start_time (hstat (i - 1) (by omega))
    · rw [hRdef]
      exact (heatk (i - 1) (by omega)).1
    · rw [hRdef]
      exact staticPart_service_time (hstat (i - 1) (by omega))
    · show XQ.fin (db.dur (σI.heap R).id (σI.heap T).id) = (σ0.heap R).leg_time
      rw [hRdef, hTdef, staticPart_id (hstat (i - 1) (by omega)),
          staticPart_id (hstat i hilen)]
      have h3 := hleg (i - 1) (by omega)
      rw [show i - 1 + 1 = i by omega] at h3
      exact h3.symm
  obtain ⟨hfF, hfV⟩ := fold_set_EAT_restore σ0 it.stop_list hnd
    (it.stop_list.length - i) i (by omega) σr hvals hlinks href hanchor
  have hσf2 : σf = (List.range' i (it.stop_list.length - i)).foldl
      (fun σ j => set_EAT σ (it.stop_list.getD j 0)) σr := by
    rw [hσf]; rfl
  rw [← hσf2] at hfF hfV
  have hfpre2 : ∀ j, j < i →
      σf.heap (it.stop_list.getD j 0) = σr.heap (it.stop_list.getD j 0) := by
    intro j hj
    refine hfF _ fun k h1 h2 => ?_
    exact getD_nodup_ne _ hnd _ _ (by omega) h2 (by omega)
  have hfS2 : σf.heap S = σr.heap S := by
    refine hfF _ fun k h1 h2 => ?_
    exact hSne k h2
  have hfsuf : ∀ j, i ≤ j → j < it.stop_list.length →
      σf.heap (it.stop_list.getD j 0)
        = { σr.heap (it.stop_list.getD j 0) with
            eat := (σ0.heap (it.stop_list.getD j 0)).eat,
            eat_f := (σ0.heap (it.stop_list.getD j 0)).eat_f } :=
    fun j h1 h2 => hfV j h1 h2
  -- the backward `set_LDT` sweep restores the reference LDT values
  have hvals2 : ∀ j, j < i →
      (σf.heap (it.stop_list.getD j 0)).end_time
        = (σ0.heap (it.stop_list.getD j 0)).end_time
    ∧ (σf.heap (it.stop_list.getD j 0)).service_time
        = (σ0.heap (it.stop_list.getD j 0)).service_time
    ∧ (σf.heap (it.stop_list.getD j 0)).leg_time
        = (σ0.heap (it.stop_list.getD j 0)).leg_time := by
    intro j hj
    rw [hfpre2 j hj]
    by_cases hjR : j = i - 1
    · have hR2 : it.stop_list.getD j 0 = R := by rw [hjR, ← hRdef]
      rw [hR2, hrR]
      refine ⟨?_, ?_, ?_⟩
      · rw [hRdef]
        exact staticPart_end_time (hstat (i - 1) (by omega))
      · rw [hRdef]
        exact staticPart_service_time (hstat (i - 1) (by omega))
      · show XQ.fin (db.dur (σI.heap R).id (σI.heap T).id) = (σ0.heap R).leg_time
        rw [hRdef, hTdef, staticPart_id (hstat (i - 1) (by omega)),
            staticPart_id (hstat i hilen)]
        have h3 := hleg (i - 1) (by omega)
        rw [show i - 1 + 1 = i by omega] at h3
        exact h3.symm
    · rw [hrOrig j (by omega) hjR (by omega)]
      exact ⟨staticPart_end_time (hstat j (by omega)),
             staticPart_service_time (hstat j (by omega)),
             hlegk j (by omega) hjR⟩
  have hlinks2 : ∀ j, j < i →
      (σf.heap (it.stop_list.getD j 0)).snext = some (it.stop_list.getD (j + 1) 0) := by
    intro j hj
    rw [hfpre2 j hj]
    by_cases hjR : j = i - 1
    · have hR2 : it.stop_list.getD j 0 = R := by rw [hjR, ← hRdef]
      rw [hR2, hrR]
      show some T = _
      rw [hTdef, hjR, show i - 1 + 1 = i by omega]
    · rw [hrOrig j (by omega) hjR (by omega)]
      have h := hsnext j (by omega)
      rw [if_neg hjR] at h
      rw [h]
      exact (hchainF j (by omega)).1
  have href2 : ∀ j, j < i →
      (σ0.heap (it.stop_list.getD j 0)).ldt
        = min (σ0.heap (it.stop_list.getD (j + 1) 0)).end_time
              (σ0.heap (it.stop_list.getD (j + 1) 0)).ldt
          - (σ0.heap (it.stop_list.getD (j + 1) 0)).service_time
          - (σ0.heap (it.stop_list.getD j 0)).leg_time
    ∧ (σ0.heap (it.stop_list.getD j 0)).ldt_f
        = min (σ0.heap (it.stop_list.getD j 0)).end_time
              (σ0.heap (it.stop_list.getD j 0)).ldt :=
    fun j hj => hldtRec j (by omega)
  have hanchor2 :
      (σf.heap (it.stop_list.getD i 0)).end_time
        = (σ0.heap (it.stop_list.getD i 0)).end_time
    ∧ (σf.heap (it.stop_list.getD i 0)).ldt
        = (σ0.heap (it.stop_list.getD i 0)).ldt
    ∧ (σf.heap (it.stop_list.getD i 0)).service_time
        = (σ0.heap (it.stop_list.getD i 0)).service_time := by
    rw [hfsuf i (Nat.le_refl _) hilen, ← hTdef, hrT]
    refine ⟨?_, ?_, ?_⟩
    · rw [hTdef]
      exact staticPart_end_time (hstat i hilen)
    · rw [hTdef]
      exact (hldtk i (Nat.le_refl _) hilen).1
    · rw [hTdef]
      exact staticPart_service_time (hstat i hilen)
  obtain ⟨hbF, hbV⟩ := fold_set_LDT_restore σ0 it.stop_list hnd i hilen σf
    hvals2 hlinks2 href2 hanchor2
  have hσb2 : σb = ((List.range i).reverse).foldl
      (fun σ j => set_LDT σ (it.stop_list.getD j 0)) σf := by
    rw [hσb]; rfl
  rw [← hσb2] at hbF hbV
  have hbsuf2 : ∀ j, i ≤ j → j < it.stop_list.length →
      σb.heap (it.stop_list.getD j 0) = σf.heap (it.stop_list.getD j 0) := by
    intro j h1 h2
    refine hbF _ fun k hk => ?_
    exact getD_nodup_ne _ hnd _ _ h2 (by omega) (by omega)
  -- every original stop is restored except slack/arrival/departure
  have hrest : ∀ j, j < it.stop_list.length →
      restoredEq (σ0.heap (it.stop_list.getD j 0)) (σb.heap (it.stop_list.getD j 0)) := by
    intro j hj
    by_cases hji : j < i
    · rw [hbV j hji, hfpre2 j hji]
      by_cases hjR : j = i - 1
      · have hR2 : it.stop_list.getD j 0 = R := by rw [hjR, ← hRdef]
        rw [hR2, hrR]
        refine restoredEq_of_fields ?_ ?_ ?_ ?_ ?_ ?_ rfl rfl
        · show (σI.heap R).staticPart = (σ0.heap R).staticPart
          rw [hRdef]
          exact hstat (i - 1) (by omega)
        · show (σI.heap R).sprev = (σ0.heap R).sprev
          rw [hRdef]
          have h := hsprev (i - 1) (by omega)
          rwa [if_neg (by omega)] at h
        · show some T = (σ0.heap R).snext
          rw [hRdef, hTdef]
          have h := (hchainF (i - 1) (by omega)).1
          rw [show i - 1 + 1 = i by omega] at h
          exact h.symm
        · show XQ.fin (db.dur (σI.heap R).id (σI.heap T).id) = (σ0.heap R).leg_time
          rw [hRdef, hTdef, staticPart_id (hstat (i - 1) (by omega)),
              staticPart_id (hstat i hilen)]
          have h := hleg (i - 1) (by omega)
          rw [show i - 1 + 1 = i by omega] at h
          exact h.symm
        · show (σI.heap R).eat = (σ0.heap R).eat
          rw [hRdef]
          exact (heatk (i - 1) (by omega)).1
        · show (σI.heap R).eat_f = (σ0.heap R).eat_f
          rw [hRdef]
          exact (heatk (i - 1) (by omega)).2
      · rw [hrOrig j (by omega) hjR (by omega)]
        refine restoredEq_of_fields ?_ ?_ ?_ ?_ ?_ ?_ rfl rfl
        · exact hstat j (by omega)
        · have h := hsprev j (by omega)
          rwa [if_neg (by omega)] at h
        · have h := hsnext j (by omega)
          rwa [if_neg hjR] at h
        · exact hlegk j (by omega) hjR
        · exact (heatk j hji).1
        · exact (heatk j hji).2
    · rw [hbsuf2 j (by omega) hj, hfsuf j (by omega) hj]
      by_cases hjT : j = i
      · have hT2 : it.stop_list.getD j 0 = T := by rw [hjT, ← hTdef]
        rw [hT2, hrT]
        refine restoredEq_of_fields ?_ ?_ ?_ ?_ rfl rfl ?_ ?_
        · show (σI.heap T).staticPart = (σ0.heap T).staticPart
          rw [hTdef]
          exact hstat i hilen
        · show some R = (σ0.heap T).sprev
          rw [hRdef, hTdef]
          have h := (hchainF (i - 1) (by omega)).2
          rw [show i - 1 + 1 = i by omega] at h
          exact h.symm
        · show (σI.heap T).snext = (σ0.heap T).snext
          rw [hTdef]
          have h := hsnext i hilen
          rwa [if_neg (by omega)] at h
        · show (σI.heap T).leg_time = (σ0.heap T).leg_time
          rw [hTdef]
          exact hlegk i hilen (by omega)
        · show (σI.heap T).ldt = (σ0.heap T).ldt
          rw [hTdef]
          exact (hldtk i (Nat.le_refl _) hilen).1
        · show (σI.heap T).ldt_f = (σ0.heap T).ldt_f
          rw [hTdef]
          exact (hldtk i (Nat.le_refl _) hilen).2
      · rw [hrOrig j hj (by omega) hjT]
        refine restoredEq_of_fields ?_ ?_ ?_ ?_ rfl rfl ?_ ?_
        · exact hstat j hj
        · have h := hsprev j hj
          rwa [if_neg hjT] at h
        · have h := hsnext j hj
          rwa [if_neg (by omega)] at h
        · exact hlegk j hj (by omega)
        · exact (hldtk j (by omega) hj).1
        · exact (hldtk j (by omega) hj).2
  have hids : ∀ j, j < it.stop_list.length →
      (σb.heap (it.stop_list.getD j 0)).id = (σ0.heap (it.stop_list.getD j 0)).id :=
    fun j hj => staticPart_id (hrest j hj).1
  have hkm2 : legDistSum db σb it.stop_list = legDistSum db σ0 it.stop_list :=
    legDistSum_congr db σb σ0 it.stop_list hids
  refine ⟨by simp [compute_cost, compute_traveled_km], ?_, ?_, hrest, ?_⟩
  · show legDistSum db σb it.stop_list = it.traveled_km
    rw [hkm2]
    exact hkm.symm
  · show legDistSum db σb it.stop_list = it.cost
    rw [hkm2]
    exact hcost.symm
  · intro b hbl hbS3
    have h1 : σb.heap b = σf.heap b := by
      refine hbF b fun k hk => ?_
      intro h
      exact hbl (h ▸ getD_mem _ _ (by omega))
    have h2 : σf.heap b = σr.heap b := by
      refine hfF b fun k hk1 hk2 => ?_
      intro h
      exact hbl (h ▸ getD_mem _ _ hk2)
    have h3 : σr.heap b = σI.heap b := by
      refine hrF b ?_ ?_
      · rw [hRdef]
        intro h
        exact hbl (h ▸ getD_mem _ _ (by omega))
      · rw [hTdef]
        intro h
        exact hbl (h ▸ getD_mem _ _ hilen)
    rw [h1, h2, h3]
    exact hframe b hbl hbS3

/-- Witness for the amended C2 on the concrete two-stop itinerary: the
hypotheses hold and the round trip restores every non-dispatch attribute. -/
theorem C2_insert_remove_roundtrip_amended_witness :
    consistentItin db1 σB itA ∧ addrS ∉ itA.stop_list ∧ 1 ≤ itA.stop_list.length - 1
    ∧ (c2rem.2.stop_list = itA.stop_list
      ∧ c2rem.2.traveled_km = itA.traveled_km
      ∧ c2rem.2.cost = itA.cost
      ∧ (∀ j < itA.stop_list.length,
          restoredEq (σB.heap (itA.stop_list.getD j 0))
            (c2rem.1.heap (itA.stop_list.getD j 0)))
      ∧ (∀ b, b ∉ itA.stop_list → b ≠ addrS → c2rem.1.heap b = σB.heap b)) :=
  ⟨by decide, by decide, by decide,
   C2_insert_remove_roundtrip_amended db1 σB itA addrS 1 0 c2ins.1 c2ins.2
     c2rem.1 c2rem.2 (by decide) (by decide) (by decide) (by decide) rfl rfl⟩

/-!  ### C7: the request constructor's time windows -/

/-- C7: a request constructed with a user-defined pickup window end gets
`origin_time_end = min(supplied end, origin_time_ini + service_time +
MAXIMUM_WAITING_TIME_MINUTES)`; its pickup stop has `start_time =
origin_time_ini`, `end_time` equal to the tightened value and `latest =
end_time - service_time`; and both its stops carry `service_time =
SERVICE_MINUTES_PER_PASSENGER * npass`. -/
theorem C7_request_time_windows (db : DB) (σ : St)
    (pid oid did : Nat) (oti oe dti de : XQ) (np : ℤ) (r : Request) (σ' : St)
    (h : Request.init db σ pid oid did oti (some oe) dti (some de) np = some (r, σ')) :
    r.origin_time_end
      = min oe (oti + XQ.fin (get_service_time np) + XQ.fin MAXIMUM_WAITING_TIME_MINUTES)
    ∧ (σ'.heap r.Spu).start_time = oti
    ∧ (σ'.heap r.Spu).end_time = r.origin_time_end
    ∧ (σ'.heap r.Spu).latest
        = (σ'.heap r.Spu).end_time - (σ'.heap r.Spu).service_time
    ∧ (σ'.heap r.Spu).service_time = XQ.fin (get_service_time np)
    ∧ (σ'.heap r.Ssd).service_time = XQ.fin (get_service_time np) := by
  unfold Request.init at h
  simp only [Option.some.injEq, Prod.mk.injEq] at h
  obtain ⟨h1, h2⟩ := h
  subst h1
  subst h2
  have hne : σ.next ≠ σ.next + 1 := by omega
  refine ⟨rfl, ?_, ?_, ?_, ?_, ?_⟩ <;>
    simp [St.write, St.alloc, create_trip_stop, Stop.init, hne]

/-- The concrete request built by the witness of C7. -/
def c7res : Request × St :=
  (Request.init db1 σ0 21 1 2 (XQ.fin 0) (some (XQ.fin 100)) (XQ.fin 0)
    (some (XQ.fin 200)) 1).getD
    ({ passenger_id := 0, origin_id := 0, destination_id := 0,
       origin_time_ini := XQ.fin 0, origin_time_end := XQ.fin 0,
       destination_time_ini := XQ.fin 0, destination_time_end := XQ.fin 0,
       npass := 0, service_time := XQ.fin 0, Spu := 0, Ssd := 0 }, σ0)

/-- Witness for C7 on a concrete request with both window ends supplied. -/
theorem C7_request_time_windows_witness :
    Request.init db1 σ0 21 1 2 (XQ.fin 0) (some (XQ.fin 100)) (XQ.fin 0)
        (some (XQ.fin 200)) 1
      = some (c7res.1, c7res.2)
    ∧ c7res.1.origin_time_end
        = min (XQ.fin 100)
            (XQ.fin 0 + XQ.fin (get_service_time 1) + XQ.fin MAXIMUM_WAITING_TIME_MINUTES)
    ∧ (c7res.2.heap c7res.1.Spu).start_time = XQ.fin 0
    ∧ (c7res.2.heap c7res.1.Spu).end_time = c7res.1.origin_time_end
    ∧ (c7res.2.heap c7res.1.Spu).latest
        = (c7res.2.heap c7res.1.Spu).end_time - (c7res.2.heap c7res.1.Spu).service_time
    ∧ (c7res.2.heap c7res.1.Spu).service_time = XQ.fin (get_service_time 1)
    ∧ (c7res.2.heap c7res.1.Ssd).service_time = XQ.fin (get_service_time 1) :=
  ⟨rfl, C7_request_time_windows db1 σ0 21 1 2 (XQ.fin 0) (XQ.fin 100) (XQ.fin 0)
    (XQ.fin 200) 1 c7res.1 c7res.2 rfl⟩

/-!  ### C5: the current-stop purge -/

theorem delete_current_stops_none (stops : List Feature) (h : stops ≠ []) :
    delete_current_stops stops = none := by
  cases stops with
  | nil => exact absurd rfl h
  | cons s rest => rfl

/-- C5 (code bug): `delete_current_stops` raises `AttributeError` on every
non-empty stops corpus, because Python `str` has no `contains` method
(`database.py` line 128).  The purge at the start of `schedule_request`
therefore never completes normally on a non-empty corpus, contrary to the
claim; it completes (vacuously, removing nothing) only on an empty one. -/
theorem C5_delete_current_stops_crashes (stops : List Feature) (h : stops ≠ []) :
    delete_current_stops stops = none :=
  delete_current_stops_none stops h

/-- Witness for C5: a one-feature corpus makes the purge raise. -/
theorem C5_delete_current_stops_crashes_witness :
    ([⟨"stop-1"⟩] : List Feature) ≠ []
    ∧ delete_current_stops [⟨"stop-1"⟩] = none :=
  ⟨by simp, C5_delete_current_stops_crashes [⟨"stop-1"⟩] (by simp)⟩

/-!  ### C3: the search's heap frame

`exhaustive_search` only allocates fresh copies and mutates those copies:
every heap address below the allocation counter at entry is untouched.  The
development tracks this with `preservesBelow`. -/

theorem set_leg_time_next (db : DB) (σ : St) (a : Nat) :
    (set_leg_time db σ a).next = σ.next := by
  cases h : (σ.heap a).snext <;> simp [set_leg_time, h, St.write]

theorem set_EAT_next (σ : St) (a : Nat) : (set_EAT σ a).next = σ.next := by
  cases h : (σ.heap a).sprev <;> simp [set_EAT, h, St.write]

theorem set_LDT_next (σ : St) (a : Nat) : (set_LDT σ a).next = σ.next := by
  cases h : (σ.heap a).snext <;> simp [set_LDT, h, St.write]

theorem set_slack_next (σ : St) (a : Nat) : (set_slack σ a).next = σ.next := by
  simp [set_slack, St.write]

theorem set_arrival_departure_next (σ : St) (a : Nat) :
    (set_arrival_departure σ a).next = σ.next := by
  simp [set_arrival_departure, St.write]

theorem update_time_window_next (db : DB) (σ : St) (a : Nat) :
    (update_time_window db σ a).next = σ.next := by
  unfold update_time_window
  rw [set_slack_next, set_arrival_departure_next, set_LDT_next, set_EAT_next,
      set_leg_time_next]

theorem foldl_preserves_next {β : Type} (op : St → β → St)
    (hop : ∀ σ j, (op σ j).next = σ.next) (js : List β) (σ : St) :
    (js.foldl op σ).next = σ.next := by
  induction js generalizing σ with
  | nil => rfl
  | cons j js ih => rw [List.foldl_cons, ih, hop]

/-- `σ'` extends `σ`: the allocation counter has not decreased and no
address below `n` has changed. -/
def preservesBelow (n : Nat) (σ σ' : St) : Prop :=
  σ.next ≤ σ'.next ∧ ∀ b, b < n → σ'.heap b = σ.heap b

theorem pb_refl (n : Nat) (σ : St) : preservesBelow n σ σ :=
  ⟨Nat.le_refl _, fun _ _ => rfl⟩

theorem pb_trans {n : Nat} {σ1 σ2 σ3 : St} (h1 : preservesBelow n σ1 σ2)
    (h2 : preservesBelow n σ2 σ3) : preservesBelow n σ1 σ3 :=
  ⟨Nat.le_trans h1.1 h2.1, fun b hb => (h2.2 b hb).trans (h1.2 b hb)⟩

theorem pb_alloc (n : Nat) (σ : St) (s : Stop) (hn : n ≤ σ.next) :
    preservesBelow n σ (σ.alloc s).2 := by
  refine ⟨Nat.le_succ _, fun b hb => ?_⟩
  show (if b = σ.next then s else σ.heap b) = σ.heap b
  rw [if_neg (by omega)]

theorem pb_write (n : Nat) (σ : St) (a : Nat) (s : Stop) (ha : n ≤ a) :
    preservesBelow n σ (σ.write a s) := by
  refine ⟨Nat.le_refl _, fun b hb => ?_⟩
  show (if b = a then s else σ.heap b) = σ.heap b
  rw [if_neg (by omega)]

theorem pb_new_stop (n : Nat) (db : DB) (σ : St) (s : Stop) (hn : n ≤ σ.next) :
    preservesBelow n σ (new_stop_from_stop db σ s).2
    ∧ n ≤ (new_stop_from_stop db σ s).1 :=
  ⟨pb_alloc n σ _ hn, hn⟩

theorem copy_stops_go (db : DB) (n : Nat) :
    ∀ (l : List Nat) (acc : List Nat × St), n ≤ acc.2.next →
      preservesBelow n acc.2 (l.foldl (copy_step db) acc).2
      ∧ (∀ b ∈ (l.foldl (copy_step db) acc).1, b ∈ acc.1 ∨ n ≤ b)
      ∧ (l.foldl (copy_step db) acc).1.length = acc.1.length + l.length := by
  intro l
  induction l with
  | nil =>
    intro acc hn
    exact ⟨pb_refl n acc.2, fun b hb => Or.inl hb, by simp⟩
  | cons a l ih =>
    intro acc hn
    have hns := pb_new_stop n db acc.2 (acc.2.heap a) hn
    have hacc2 : n ≤ (copy_step db acc a).2.next := by
      show n ≤ (new_stop_from_stop db acc.2 (acc.2.heap a)).2.next
      exact Nat.le_trans hn hns.1.1
    obtain ⟨hpb, hmem, hlen⟩ := ih (copy_step db acc a) hacc2
    rw [List.foldl_cons]
    refine ⟨pb_trans hns.1 hpb, ?_, ?_⟩
    · intro b hb
      rcases hmem b hb with h | h
      · have h2 : b ∈ acc.1 ++ [(new_stop_from_stop db acc.2 (acc.2.heap a)).1] := h
        rcases List.mem_append.mp h2 with h3 | h3
        · exact Or.inl h3
        · right
          have h4 : b = (new_stop_from_stop db acc.2 (acc.2.heap a)).1 := by
            simpa using h3
          rw [h4]
          exact hns.2
      · exact Or.inr h
    · rw [hlen]
      have h5 : (copy_step db acc a).1.length = acc.1.length + 1 := by
        simp [copy_step]
      rw [h5, List.length_cons]
      omega

theorem pb_copy_stops (db : DB) (n : Nat) (σ : St) (l : List Nat) (hn : n ≤ σ.next) :
    preservesBelow n σ (copy_stops db σ l).2
    ∧ (∀ b ∈ (copy_stops db σ l).1, n ≤ b)
    ∧ (copy_stops db σ l).1.length = l.length := by
  obtain ⟨h1, h2, h3⟩ := copy_stops_go db n l ([], σ) hn
  refine ⟨h1, fun b hb => ?_, by simpa using h3⟩
  rcases h2 b hb with h | h
  · simp at h
  · exact h

theorem initial_stops_creation_frame (db : DB) (σ : St) (it : Itin) (b : Nat)
    (hbs : b ≠ it.start_stop) (hbe : b ≠ it.end_stop) :
    (initial_stops_creation db σ it).heap b = σ.heap b := by
  simp only [initial_stops_creation]
  rw [set_arrival_departure_heap_ne _ _ _ hbe, set_arrival_departure_heap_ne _ _ _ hbs,
      set_slack_heap_ne _ _ _ hbe, set_slack_heap_ne _ _ _ hbs,
      set_LDT_heap_ne _ _ _ hbs, set_EAT_heap_ne _ _ _ hbe,
      set_LDT_heap_ne _ _ _ hbe, set_leg_time_heap_ne _ _ _ _ hbe,
      write_heap_ne _ _ _ _ hbe,
      set_EAT_heap_ne _ _ _ hbs, set_leg_time_heap_ne _ _ _ _ hbs,
      write_heap_ne _ _ _ _ hbs,
      write_heap_ne _ _ _ _ hbe, write_heap_ne _ _ _ _ hbe,
      write_heap_ne _ _ _ _ hbs, write_heap_ne _ _ _ _ hbs]

theorem initial_stops_creation_next (db : DB) (σ : St) (it : Itin) :
    (initial_stops_creation db σ it).next = σ.next := by
  simp only [initial_stops_creation]
  rw [set_arrival_departure_next, set_arrival_departure_next, set_slack_next,
      set_slack_next, set_LDT_next, set_EAT_next, set_LDT_next, set_leg_time_next,
      write_next, set_EAT_next, set_leg_time_next, write_next, write_next,
      write_next, write_next, write_next]

theorem Itinerary_init_frame (db : DB) (σ : St) (vid : Nat) (cap : ℤ)
    (sid eid : Nat) (st et : XQ) (b : Nat)
    (h1 : b ≠ σ.next) (h2 : b ≠ σ.next + 1) :
    ((Itinerary.init db σ vid cap sid eid st et).2).heap b = σ.heap b := by
  simp only [Itinerary.init, St.alloc]
  rw [initial_stops_creation_frame _ _ _ _ h1 h2]
  show (if b = σ.next + 1 then Stop.init db eid
        else if b = σ.next then Stop.init db sid else σ.heap b) = σ.heap b
  rw [if_neg h2, if_neg h1]

theorem Itinerary_init_next (db : DB) (σ : St) (vid : Nat) (cap : ℤ)
    (sid eid : Nat) (st et : XQ) :
    ((Itinerary.init db σ vid cap sid eid st et).2).next = σ.next + 2 := by
  simp only [Itinerary.init, St.alloc]
  rw [initial_stops_creation_next]

theorem pb_itinerary_init (n : Nat) (db : DB) (σ : St) (vid : Nat) (cap : ℤ)
    (sid eid : Nat) (st et : XQ) (hn : n ≤ σ.next) :
    preservesBelow n σ (Itinerary.init db σ vid cap sid eid st et).2 := by
  refine ⟨?_, fun b hb => ?_⟩
  · rw [Itinerary_init_next]
    omega
  · exact Itinerary_init_frame db σ vid cap sid eid st et b (by omega) (by omega)

theorem pb_new_itinerary (n : Nat) (db : DB) (σ : St) (I : Itin) (hn : n ≤ σ.next) :
    preservesBelow n σ (new_itinerary_from_itinerary db σ I).2
    ∧ (∀ b ∈ (new_itinerary_from_itinerary db σ I).1.stop_list, n ≤ b)
    ∧ (new_itinerary_from_itinerary db σ I).1.stop_list.length = I.stop_list.length := by
  obtain ⟨h1, h2, h3⟩ := pb_copy_stops db n σ I.stop_list hn
  have hn2 : n ≤ (copy_stops db σ I.stop_list).2.next := Nat.le_trans hn h1.1
  have h4 := pb_itinerary_init n db (copy_stops db σ I.stop_list).2 I.vehicle_id
    I.capacity (σ.heap I.start_stop).id (σ.heap I.end_stop).id I.start_time
    I.end_time hn2
  exact ⟨pb_trans h1 h4, h2, h3⟩

/-!  Frame of `insert_stop` through stop-list membership. -/

theorem insert_stop_rewire_frame (db : DB) (σ : St) (l : List Nat) (S i b : Nat)
    (hbS : b ≠ S) (hbR : b ≠ l.getD (i - 1) 0) (hbT : b ≠ l.getD (i + 1) 0) :
    (insert_stop_rewire db σ l S i).heap b = σ.heap b := by
  obtain ⟨R, hR⟩ : ∃ R, l.getD (i - 1) 0 = R := ⟨_, rfl⟩
  obtain ⟨T, hT⟩ : ∃ T, l.getD (i + 1) 0 = T := ⟨_, rfl⟩
  rw [hR] at hbR
  rw [hT] at hbT
  unfold insert_stop_rewire
  rw [hR, hT]
  simp [St.write, hbS, hbR, hbT]

theorem insert_stop_rewire_next (db : DB) (σ : St) (l : List Nat) (S i : Nat) :
    (insert_stop_rewire db σ l S i).next = σ.next := by
  simp [insert_stop_rewire, St.write]

theorem insert_stop_initS_next (σ : St) (S : Nat) :
    (insert_stop_initS σ S).next = σ.next := by
  unfold insert_stop_initS
  rw [set_slack_next, set_LDT_next, set_EAT_next]

theorem insert_stop_fwd_frame (db : DB) (σ : St) (l : List Nat) (i b : Nat)
    (hb : ∀ k, k < l.length → b ≠ l.getD k 0) :
    (insert_stop_fwd db σ l i).heap b = σ.heap b := by
  unfold insert_stop_fwd
  refine foldl_heap_ne _ (fun k => l.getD k 0)
    (fun σ j c h => update_time_window_heap_ne db σ _ c h) _ σ b fun j hj => ?_
  rw [List.mem_range'] at hj
  exact hb j (by omega)

theorem insert_stop_fwd_next (db : DB) (σ : St) (l : List Nat) (i : Nat) :
    (insert_stop_fwd db σ l i).next = σ.next := by
  unfold insert_stop_fwd
  exact foldl_preserves_next _ (fun σ j => update_time_window_next db σ _) _ σ

theorem insert_stop_bwd_frame (db : DB) (σ : St) (l : List Nat) (i b : Nat)
    (hi : i ≤ l.length) (hb : ∀ k, k < l.length → b ≠ l.getD k 0) :
    (insert_stop_bwd db σ l i).heap b = σ.heap b := by
  unfold insert_stop_bwd
  refine foldl_heap_ne _ (fun k => l.getD k 0)
    (fun σ j c h => update_time_window_heap_ne db σ _ c h) _ σ b fun j hj => ?_
  rw [List.mem_reverse, List.mem_range] at hj
  exact hb j (by omega)

theorem insert_stop_bwd_next (db : DB) (σ : St) (l : List Nat) (i : Nat) :
    (insert_stop_bwd db σ l i).next = σ.next := by
  unfold insert_stop_bwd
  exact foldl_preserves_next _ (fun σ j => update_time_window_next db σ _) _ σ

theorem insert_stop_refresh_next (σ : St) (R S T : Nat) :
    (insert_stop_refresh σ R S T).next = σ.next := by
  unfold insert_stop_refresh
  rw [set_slack_next, set_arrival_departure_next, set_arrival_departure_next,
      set_slack_next, set_arrival_departure_next]

theorem insert_stop_load_next (σ : St) (R S : Nat) (np : ℤ) :
    (insert_stop_load σ R S np).next = σ.next := by
  simp [insert_stop_load, St.write]

theorem insert_stop_next (db : DB) (σ : St) (it : Itin) (S i : Nat) (np : ℤ) :
    ((insert_stop db σ it S i np).1).next = σ.next := by
  show (insert_stop_load (insert_stop_refresh (insert_stop_bwd db (insert_stop_fwd db
      (insert_stop_initS (insert_stop_rewire db σ (it.stop_list.insertIdx i S) S i) S)
      (it.stop_list.insertIdx i S) i) (it.stop_list.insertIdx i S) i)
      ((it.stop_list.insertIdx i S).getD (i - 1) 0) S
      ((it.stop_list.insertIdx i S).getD (i + 1) 0))
      ((it.stop_list.insertIdx i S).getD (i - 1) 0) S np).next = σ.next
  rw [insert_stop_load_next, insert_stop_refresh_next, insert_stop_bwd_next,
      insert_stop_fwd_next, insert_stop_initS_next, insert_stop_rewire_next]

theorem insert_stop_frame_mem (db : DB) (σ : St) (it : Itin) (S i : Nat) (np : ℤ)
    (hi1 : 1 ≤ i) (hi2 : i ≤ it.stop_list.length - 1)
    (hlen : 1 ≤ it.stop_list.length) (b : Nat)
    (hb : b ∉ it.stop_list) (hbS : b ≠ S) :
    ((insert_stop db σ it S i np).1).heap b = σ.heap b := by
  have hl'len : (it.stop_list.insertIdx i S).length = it.stop_list.length + 1 :=
    List.length_insertIdx i it.stop_list (by omega)
  have hbl : ∀ k, k < (it.stop_list.insertIdx i S).length →
      b ≠ (it.stop_list.insertIdx i S).getD k 0 := by
    intro k hk h
    have hm := getD_mem _ _ hk
    rw [← h, insertIdx_eq_take_cons_drop _ _ _ (by omega)] at hm
    rcases List.mem_append.mp hm with h1 | h1
    · exact hb (List.take_subset _ _ h1)
    · rcases List.mem_cons.mp h1 with h2 | h2
      · exact hbS h2
      · exact hb (List.drop_subset _ _ h2)
  show (insert_stop_load (insert_stop_refresh (insert_stop_bwd db (insert_stop_fwd db
      (insert_stop_initS (insert_stop_rewire db σ (it.stop_list.insertIdx i S) S i) S)
      (it.stop_list.insertIdx i S) i) (it.stop_list.insertIdx i S) i)
      ((it.stop_list.insertIdx i S).getD (i - 1) 0) S
      ((it.stop_list.insertIdx i S).getD (i + 1) 0))
      ((it.stop_list.insertIdx i S).getD (i - 1) 0) S np).heap b = σ.heap b
  rw [(insert_stop_load_char _ _ _ _).1 b hbS,
      insert_stop_refresh_frame _ _ _ _ b (hbl (i - 1) (by omega)) hbS
        (hbl (i + 1) (by omega)),
      insert_stop_bwd_frame db _ _ i b (by omega) hbl,
      insert_stop_fwd_frame db _ _ i b hbl,
      (insert_stop_initS_char _ _).1 b hbS,
      insert_stop_rewire_frame db _ _ S i b hbS (hbl (i - 1) (by omega))
        (hbl (i + 1) (by omega))]

theorem pb_insert_stop (n : Nat) (db : DB) (σ : St) (it : Itin) (S i : Nat) (np : ℤ)
    (hmem : ∀ a ∈ it.stop_list, n ≤ a) (hS : n ≤ S)
    (hi1 : 1 ≤ i) (hi2 : i ≤ it.stop_list.length - 1)
    (hlen : 1 ≤ it.stop_list.length) :
    preservesBelow n σ (insert_stop db σ it S i np).1 := by
  refine ⟨Nat.le_of_eq (insert_stop_next db σ it S i np).symm, fun b hb => ?_⟩
  refine insert_stop_frame_mem db σ it S i np hi1 hi2 hlen b (fun hm => ?_) (by omega)
  have := hmem b hm
  omega

theorem foldl_pb {α β : Type} (n : Nat) (proj : β → St) (f : β → α → β) :
    ∀ (js : List α) (s : β),
    (∀ s' a, a ∈ js → n ≤ (proj s').next → preservesBelow n (proj s') (proj (f s' a))) →
    n ≤ (proj s).next →
    preservesBelow n (proj s) (proj (js.foldl f s)) := by
  intro js
  induction js with
  | nil =>
    intro s h hn
    exact pb_refl n _
  | cons a js ih =>
    intro s h hn
    have h1 := h s a (List.mem_cons_self a js) hn
    have h2 := ih (f s a) (fun s' a' ha' => h s' a' (List.mem_cons_of_mem _ ha'))
      (Nat.le_trans hn h1.1)
    exact pb_trans h1 h2

theorem pb_sd_step (n : Nat) (db : DB) (t : Request) (Ic : ℤ) (vid : Nat) (cap : ℤ)
    (aSsd : Nat) (IwS : Itin) (iSpu : Nat) (fj : List Nat) (s : SearchSt) (j : Nat)
    (hsd : n ≤ aSsd) (hlen : fj.length = IwS.stop_list.length - iSpu)
    (hj : j < fj.length - 1) (hn : n ≤ s.σ.next) :
    preservesBelow n s.σ (sd_step db t Ic vid cap aSsd IwS iSpu fj s j).σ := by
  have h1 := pb_new_itinerary n db s.σ IwS hn
  have h2 := pb_insert_stop n db (new_itinerary_from_itinerary db s.σ IwS).2
    (new_itinerary_from_itinerary db s.σ IwS).1 aSsd (j + iSpu + 1) 0 h1.2.1 hsd
    (by omega) (by rw [h1.2.2]; omega) (by rw [h1.2.2]; omega)
  have h3 := pb_trans h1.1 h2
  simp only [sd_step]
  split
  · exact pb_refl n _
  · split
    · split
      · exact h3
      · exact h3
    · split
      · exact pb_refl n _
      · exact pb_refl n _

theorem pb_pu_step (n : Nat) (db : DB) (t : Request) (aSpu aSsd : Nat) (I : Itin)
    (ic : Nat) (fi0 : List Nat) (s : SearchSt) (j : Nat)
    (hpu : n ≤ aSpu) (hsd : n ≤ aSsd)
    (hlen : fi0.length = I.stop_list.length - ic)
    (hj : j < fi0.length - 1) (hn : n ≤ s.σ.next) :
    preservesBelow n s.σ (pu_step db t aSpu aSsd I ic fi0 s j).σ := by
  simp only [pu_step]
  set cp := new_itinerary_from_itinerary db s.σ I with hcp
  set ins := insert_stop db cp.2 cp.1 aSpu (j + ic + 1) 0 with hins
  set IwS2 := compute_cost db ins.1 ins.2 with hIwS2
  set fj := copy_stops db ins.1 (IwS2.stop_list.drop (j + ic + 1)) with hfj
  have h1 := pb_new_itinerary n db s.σ I hn
  rw [← hcp] at h1
  have h2 := pb_insert_stop n db cp.2 cp.1 aSpu (j + ic + 1) 0 h1.2.1 hpu
    (by omega) (by rw [h1.2.2]; omega) (by rw [h1.2.2]; omega)
  rw [← hins] at h2
  have h3 := pb_trans h1.1 h2
  have hnI : n ≤ ins.1.next := Nat.le_trans hn h3.1
  have h4 := pb_copy_stops db n ins.1 (IwS2.stop_list.drop (j + ic + 1)) hnI
  rw [← hfj] at h4
  have hlenj : fj.1.length = IwS2.stop_list.length - (j + ic + 1) := by
    rw [h4.2.2, List.length_drop]
  have hfold := foldl_pb n SearchSt.σ
    (sd_step db t I.cost I.vehicle_id I.capacity aSsd IwS2 (j + ic + 1) fj.1)
    (List.range (fj.1.length - 1))
    { σ := fj.2, best := s.best, fi := s.fi, min_delta := s.min_delta, broken := false }
    (fun s' a ha hn' => pb_sd_step n db t I.cost I.vehicle_id I.capacity aSsd IwS2
      (j + ic + 1) fj.1 s' a hsd hlenj (List.mem_range.mp ha) hn')
    (Nat.le_trans hnI h4.1.1)
  split
  · exact pb_refl n _
  · split
    · split
      · exact pb_trans h3 (pb_trans h4.1 hfold)
      · exact h3
    · split
      · exact pb_refl n _
      · exact pb_refl n _

theorem pb_es_step (n : Nat) (db : DB) (t : Request) (aSpu aSsd : Nat)
    (s : SearchSt) (I : Itin) (hpu : n ≤ aSpu) (hsd : n ≤ aSsd)
    (hn : n ≤ s.σ.next) :
    preservesBelow n s.σ (es_itinerary_step db t aSpu aSsd s I).σ := by
  simp only [es_itinerary_step]
  set fi0 := copy_stops db s.σ (I.stop_list.drop (I.stop_list.indexOf I.current_loc))
    with hfi
  have h1 := pb_copy_stops db n s.σ
    (I.stop_list.drop (I.stop_list.indexOf I.current_loc)) hn
  rw [← hfi] at h1
  have hlen0 : fi0.1.length = I.stop_list.length - I.stop_list.indexOf I.current_loc := by
    rw [h1.2.2, List.length_drop]
  have hfold := foldl_pb n SearchSt.σ
    (pu_step db t aSpu aSsd I (I.stop_list.indexOf I.current_loc) fi0.1)
    (List.range (fi0.1.length - 1))
    { s with σ := fi0.2, broken := false }
    (fun s' a ha hn' => pb_pu_step n db t aSpu aSsd I
      (I.stop_list.indexOf I.current_loc) fi0.1 s' a hpu hsd hlen0
      (List.mem_range.mp ha) hn')
    (Nat.le_trans hn h1.1.1)
  exact pb_trans h1.1 hfold

theorem pb_exhaustive_search (db : DB) (σ : St) (its : List Itin) (t : Request) :
    preservesBelow σ.next σ (exhaustive_search db σ its t).2.2 := by
  simp only [exhaustive_search]
  set pu := new_stop_from_stop db σ (σ.heap t.Spu) with hpu
  set sd := new_stop_from_stop db pu.2 (pu.2.heap t.Ssd) with hsd
  have h1 := pb_new_stop σ.next db σ (σ.heap t.Spu) (Nat.le_refl _)
  rw [← hpu] at h1
  have hn1 : σ.next ≤ pu.2.next := h1.1.1
  have h2 := pb_new_stop σ.next db pu.2 (pu.2.heap t.Ssd) hn1
  rw [← hsd] at h2
  have hfold := foldl_pb σ.next SearchSt.σ (es_itinerary_step db t pu.1 sd.1) its
    { σ := sd.2, best := none, fi := [], min_delta := XQ.inf, broken := false }
    (fun s' I hI hn' => pb_es_step σ.next db t pu.1 sd.1 s' I h1.2 h2.2 hn')
    (Nat.le_trans hn1 h2.1.1)
  exact pb_trans h1.1 (pb_trans h2.1 hfold)

/-- C3: `exhaustive_search` evaluates every candidate insertion on fresh
copies only: the heap cell of every address allocated before the call —
in particular every stop of every authoritative itinerary — is unchanged
when the search returns, and the itineraries' own records (stop list,
costs) are not touched at all. -/
theorem C3_exhaustive_search_frame (db : DB) (σ : St) (its : List Itin)
    (t : Request) :
    (∀ b, b < σ.next → ((exhaustive_search db σ its t).2.2).heap b = σ.heap b)
    ∧ (∀ I ∈ its, (∀ a ∈ I.stop_list, a < σ.next) →
        ∀ a ∈ I.stop_list, ((exhaustive_search db σ its t).2.2).heap a = σ.heap a) := by
  have h := pb_exhaustive_search db σ its t
  exact ⟨fun b hb => h.2 b hb, fun I hI hval a ha => h.2 a (hval a ha)⟩

/-- A concrete request over the fixture heap, used by the witness of C3. -/
def c3req : Request :=
  { passenger_id := 21, origin_id := 3, destination_id := 2,
    origin_time_ini := XQ.fin 50, origin_time_end := XQ.fin 100,
    destination_time_ini := XQ.fin 0, destination_time_end := XQ.fin 240,
    npass := 1, service_time := XQ.fin 1, Spu := addrS, Ssd := addrS }

/-- Witness for C3: after a search over the two-stop itinerary, the start
stop's heap cell is untouched. -/
theorem C3_exhaustive_search_frame_witness :
    (0 : Nat) < σB.next
    ∧ ((exhaustive_search db1 σB [itA] c3req).2.2).heap 0 = σB.heap 0 :=
  ⟨by decide, (C3_exhaustive_search_frame db1 σB [itA] c3req).1 0 (by decide)⟩

/-!  ### C8: the minimal-cost scheduling loop -/

theorem schedule_all_go_count_le (db : DB) :
    ∀ (fuel : Nat) (σ : St) (s : Sched),
      (schedule_all_go db fuel σ s).2.2 ≤ fuel := by
  intro fuel
  induction fuel with
  | zero =>
    intro σ s
    exact Nat.le_refl 0
  | succ fuel ih =>
    intro σ s
    simp only [schedule_all_go]
    split
    · exact Nat.zero_le _
    · exact Nat.succ_le_succ (ih _ _)

theorem schedule_all_go_empty (db : DB) (fuel : Nat) (σ : St) (s : Sched)
    (h : s.pending_requests = []) :
    schedule_all_go db fuel σ s = (σ, s, 0) := by
  cases fuel with
  | zero => rfl
  | succ fuel => simp [schedule_all_go, h]

theorem get_minimal_cost_insertion_min (db : DB) (σ : St) (s : Sched)
    (ins : Insertion) (d : ℤ)
    (h : (get_minimal_cost_insertion db σ s).1 = some (ins, d)) :
    (ins, d) ∈ (found_insertions db σ s).1
    ∧ ∀ p ∈ (found_insertions db σ s).1, d ≤ p.2 := by
  have hperm := List.mergeSort_perm (found_insertions db σ s).1
    (fun a b => decide (a.2 ≤ b.2))
  have hsorted := @List.sorted_mergeSort (Insertion × ℤ)
    (fun a b => decide (a.2 ≤ b.2))
    (fun a b c h1 h2 => by
      simp only [decide_eq_true_eq] at h1 h2 ⊢
      omega)
    (fun a b => by
      rcases Int.le_total a.2 b.2 with h1 | h1 <;> simp [h1])
    (found_insertions db σ s).1
  rcases hms : (found_insertions db σ s).1.mergeSort (fun a b => decide (a.2 ≤ b.2))
    with _ | ⟨x, xs⟩
  · simp only [get_minimal_cost_insertion, hms] at h
    exact Option.noConfusion h
  · simp only [get_minimal_cost_insertion, hms] at h
    have hx : x = (ins, d) := by simpa using h
    subst hx
    rw [hms] at hperm hsorted
    constructor
    · exact hperm.mem_iff.mp (List.mem_cons_self _ _)
    · intro p hp
      rcases List.mem_cons.mp (hperm.mem_iff.mpr hp) with h1 | h1
      · rw [h1]
      · have h2 := (List.pairwise_cons.mp hsorted).1 p h1
        simpa using h2

/-- C8: the minimal-cost scheduling loop executes at most `5 × |pending at
entry|` iterations; it stops immediately once `pending_requests` is empty;
and every executed iteration either commits an insertion whose cost
increment is minimal over all feasible insertions found for all pending
requests — removing the served request from `pending_requests` — or
commits nothing. -/
theorem C8_minimal_cost_loop (db : DB) (σ : St) (s : Sched) :
    (schedule_all_requests_by_minimal_cost db σ s).2.2 ≤ 5 * s.pending_requests.length
    ∧ (s.pending_requests = [] →
        schedule_all_requests_by_minimal_cost db σ s = (σ, s, 0))
    ∧ (∀ (fuel : Nat) (σ1 : St) (s1 : Sched), s1.pending_requests = [] →
        schedule_all_go db fuel σ1 s1 = (σ1, s1, 0))
    ∧ (∀ (σ1 : St) (s1 : Sched) (ins : Insertion) (d : ℤ),
        (get_minimal_cost_insertion db σ1 s1).1 = some (ins, d) →
          (ins, d) ∈ (found_insertions db σ1 s1).1
          ∧ ∀ p ∈ (found_insertions db σ1 s1).1, d ≤ p.2)
    ∧ (∀ (fuel : Nat) (σ1 : St) (s1 : Sched), s1.pending_requests ≠ [] →
        (∃ ins d,
          (get_minimal_cost_insertion db σ1 s1).1 = some (ins, d)
          ∧ (let u := Sched.insert_trip db (get_minimal_cost_insertion db σ1 s1).2 s1 ins
             let s2 := delete_pending_request u.2 ins.t.passenger_id
             let r := schedule_all_go db fuel u.1 s2
             schedule_all_go db (fuel + 1) σ1 s1 = (r.1, r.2.1, r.2.2 + 1)
             ∧ s2.pending_requests = s1.pending_requests.filter
                 (fun x => x.passenger_id != ins.t.passenger_id)))
        ∨ ((get_minimal_cost_insertion db σ1 s1).1 = none
          ∧ (let r := schedule_all_go db fuel (get_minimal_cost_insertion db σ1 s1).2 s1
             schedule_all_go db (fuel + 1) σ1 s1 = (r.1, r.2.1, r.2.2 + 1)))) := by
  refine ⟨?_, ?_, ?_, ?_, ?_⟩
  · exact Nat.le_trans (schedule_all_go_count_le db _ σ s) (by omega)
  · intro h
    exact schedule_all_go_empty db _ σ s h
  · intro fuel σ1 s1 h
    exact schedule_all_go_empty db fuel σ1 s1 h
  · intro σ1 s1 ins d h
    exact get_minimal_cost_insertion_min db σ1 s1 ins d h
  · intro fuel σ1 s1 hne
    have hlen : ¬ s1.pending_requests.length = 0 := by
      simpa [List.length_eq_zero] using hne
    rcases hmin : (get_minimal_cost_insertion db σ1 s1).1 with _ | ⟨ins, d⟩
    · right
      refine ⟨rfl, ?_⟩
      simp only [schedule_all_go, if_neg hlen, hmin]
    · left
      refine ⟨ins, d, rfl, ?_, rfl⟩
      simp only [schedule_all_go, if_neg hlen, hmin]

/-- The empty-pending scheduler used by the witness of C8. -/
def sched0 : Sched :=
  { itineraries := [itA], pending_requests := [], scheduled_requests := [],
    rejected_requests := [], modified_itineraries := [],
    itinerary_insertion_dic := fun _ => [], stops_features := [⟨"stop-1"⟩] }

/-- Witness for C8: with no pending requests the loop stops at once, with
an iteration count within the budget. -/
theorem C8_minimal_cost_loop_witness :
    sched0.pending_requests = []
    ∧ schedule_all_requests_by_minimal_cost db1 σB sched0 = (σB, sched0, 0) :=
  ⟨rfl, (C8_minimal_cost_loop db1 σB sched0).2.1 rfl⟩

/-!  ### C6: scheduling the new requests -/

/-- C6 (code bug): on a scheduler with a non-empty stops corpus and at
least one pending request, `schedule_new_requests` raises `AttributeError`
out of its very first `schedule_request` call (line 154 of `scheduler.py`
calls `delete_current_stops`, which evaluates the non-existent
`str.contains`): the method never returns, no request leaves
`pending_requests`, and nothing is added to `scheduled_requests` or
`rejected_requests` — so no processed request lies in exactly one of them,
contrary to the claim.  The result holds for every continuation `rest`
standing for the unreachable remainder of `schedule_request`. -/
theorem C6_schedule_new_requests_crashes
    (rest : St × Sched → St × Sched × Option Insertion) (db : DB) (σ : St)
    (s : Sched) (hne : s.stops_features ≠ []) (hpend : s.pending_requests ≠ []) :
    schedule_new_requests rest db σ s
      = .error ("AttributeError", { s with modified_itineraries := ([] : List Nat) })
    ∧ ({ s with modified_itineraries := ([] : List Nat) } : Sched).pending_requests
        = s.pending_requests
    ∧ ({ s with modified_itineraries := ([] : List Nat) } : Sched).scheduled_requests
        = s.scheduled_requests
    ∧ ({ s with modified_itineraries := ([] : List Nat) } : Sched).rejected_requests
        = s.rejected_requests := by
  refine ⟨?_, rfl, rfl, rfl⟩
  obtain ⟨req, reqs, hl⟩ : ∃ a l, s.pending_requests = a :: l := by
    cases h : s.pending_requests with
    | nil => exact absurd h hpend
    | cons a l => exact ⟨a, l, rfl⟩
  have hdel : delete_current_stops s.stops_features = none :=
    delete_current_stops_none s.stops_features hne
  have hsr : schedule_request rest σ s
      = .error ("AttributeError", { s with modified_itineraries := ([] : List Nat) }) := by
    unfold schedule_request
    simp only [hdel]
  unfold schedule_new_requests
  rw [hl]
  simp only [snr_go, hsr]
  rw [← hl]

/-- The one-pending-request scheduler used by the witness of C6. -/
def sched1 : Sched :=
  { itineraries := [itA], pending_requests := [c3req], scheduled_requests := [],
    rejected_requests := [], modified_itineraries := [7],
    itinerary_insertion_dic := fun _ => [], stops_features := [⟨"stop-1"⟩] }

/-- Witness for C6 on a concrete scheduler state with one pending request
and a one-feature corpus, with the trivial continuation. -/
theorem C6_schedule_new_requests_crashes_witness :
    sched1.stops_features ≠ [] ∧ sched1.pending_requests ≠ []
    ∧ (schedule_new_requests (fun x => (x.1, x.2, none)) db1 σB sched1
        = .error ("AttributeError",
            { sched1 with modified_itineraries := ([] : List Nat) })
      ∧ ({ sched1 with modified_itineraries := ([] : List Nat) } : Sched).pending_requests
          = sched1.pending_requests
      ∧ ({ sched1 with modified_itineraries := ([] : List Nat) } : Sched).scheduled_requests
          = sched1.scheduled_requests
      ∧ ({ sched1 with modified_itineraries := ([] : List Nat) } : Sched).rejected_requests
          = sched1.rejected_requests) :=
  ⟨by simp [sched1], by simp [sched1],
   C6_schedule_new_requests_crashes (fun x => (x.1, x.2, none)) db1 σB sched1
     (by simp [sched1]) (by simp [sched1])⟩

end SimFleetDR
